import Mathlib

/-!
# Order settlement of the exchange module (`x/exchange/keeper/fulfillment.go`)

A shallow embedding of `sumAssetsAndPrice`, `validateAcceptingOrdersAndCanUserSettle`,
`FillBids`, `FillAsks`, `SettleOrders` and `closeSettlement`.

* Go values become Lean values; a Go `error` result is an `Option Err` (`none` is `nil`).
* The SDK context is a `World`: the exchange key-value store (order records) together with
  the sequence of calls made so far to the collaborators that live outside `fulfillment.go`
  (hold release, bank transfer, fee collection, order write and delete, event emission).
  Every such call is appended to `World.calls` when it is made, whether or not it fails.
* Whether a collaborator fails is decided by a field of `Keeper`, a function of the world at
  the time of the call and of the arguments; the theorems hold for every `Keeper`.
* A Go runtime panic (dereferencing the nil result of `GetBidOrder`/`GetAskOrder`, or an
  overflow in `Coins.Add`) is the outer `none` of the result of `FillBids`/`FillAsks`.
* `sdk.Int` is `Int` together with the bound of the library: `Coins.Add` panics with "Int
  overflow" when a sum needs more than 256 bits, and so do the functions of `fulfillment.go`
  that call it. `Coins.plus` and `orderTotals` are the sums themselves, which is what
  `Coins.Add` and `sumAssetsAndPrice` return when they return. The library precondition that
  `Coins.Add` receives sorted coins is not re-checked, and the accumulator `IndexedAddrAmts`,
  modelled from the specification, adds without the bound.
* Addresses stay bech32 strings: `sdk.MustAccAddressFromBech32` is applied to an address that
  `ValidateBasic` has accepted, and is the identity here.
* Types and helpers of the repository that `fulfillment.go` uses but does not define (orders,
  settlements, `IndexedAddrAmts`, `CoinsEquals`, the order store) are modelled from the
  specification and say so.

Three shorter embeddings follow it: `GetUpgradeStoreLoader` of `app/upgrades.go` (namespace
`App`), the rate-limit middleware of `x/ibcratelimit/ibc_middleware.go` (namespace
`IBCRateLimit`) and the bypass flag of `x/sanction` (namespace `Sanction`).
-/

namespace Exchange

/-! ## Coins (`sdk.Coin`, `sdk.Coins`) -/

/-- A single denomination amount, `sdk.Coin`. -/
structure Coin where
  Denom : String
  Amount : Int
  deriving DecidableEq, Repr

/-- A collection of coins, `sdk.Coins`. -/
abbrev Coins := List Coin

/-- Total amount of denomination `d` held in `cs`. -/
def Coins.amountOf (cs : Coins) (d : String) : Int :=
  ((cs.filter (fun c => c.Denom = d)).map Coin.Amount).sum

/-- Lexicographic order on the characters of two denominations (the order of Go strings). -/
def leChars : List Char → List Char → Bool
  | [], _ => true
  | _ :: _, [] => false
  | a :: as, b :: bs =>
    if a.toNat < b.toNat then true
    else if b.toNat < a.toNat then false
    else leChars as bs

/-- Order of denominations used by `Coins.Sort`. -/
def denomLE (a b : String) : Prop := leChars a.data b.data = true

instance : DecidableRel denomLE := fun a b => inferInstanceAs (Decidable (leChars a.data b.data = true))

/-- The denominations of `cs`, each once, in ascending order. -/
def Coins.sortedDenoms (cs : Coins) : List String :=
  List.insertionSort denomLE (cs.map Coin.Denom).dedup

/-- The coins that `sdk.Coins.Add` (`safeAdd`) returns when it returns: the coins of both
arguments are grouped by denomination, each group is summed, zero sums are dropped and the
result is sorted. -/
def Coins.plus (coins coinsB : Coins) : Coins :=
  (Coins.sortedDenoms (coins ++ coinsB)).filterMap
    (fun d =>
      if Coins.amountOf (coins ++ coinsB) d = 0 then none
      else some ⟨d, Coins.amountOf (coins ++ coinsB) d⟩)

/-- The largest bit length of an `sdk.Int`, the library constant `math.MaxBitLen`. -/
def MaxBitLen : Nat := 256

/-- Whether an integer is a value of `sdk.Int`: its absolute value has at most `MaxBitLen`
bits. The arithmetic of `sdk.Int` panics with "Int overflow" on a result that is not. -/
def inIntRange (x : Int) : Bool := decide (x.natAbs < 2 ^ MaxBitLen)

/-- Whether the sums that `safeAdd` makes over the coins `cs` stay in the range of `sdk.Int`:
for each denomination, the amounts of the coins of that denomination are added one after the
other, starting from zero, and every intermediate sum is in range. -/
def Coins.sumsInRange (cs : Coins) : Bool :=
  cs.all (fun c =>
    (List.scanl (fun total amount => total + amount) 0
      ((cs.filter (fun c1 => c1.Denom = c.Denom)).map Coin.Amount)).all inIntRange)

/-- The library function `sdk.Coins.Add` (`safeAdd`): the coins of both arguments are grouped by
denomination, each group is summed, zero sums are dropped and the result is sorted; `none` is
the panic "Int overflow" of a sum that leaves the range of `sdk.Int`. -/
def Coins.Add (coins coinsB : Coins) : Option Coins :=
  if Coins.sumsInRange (coins ++ coinsB) then some (Coins.plus coins coinsB) else none

/-- The library function `sdk.Coins.Sort`. -/
def Coins.Sort (coins : Coins) : Coins :=
  List.insertionSort (fun a b => denomLE a.Denom b.Denom) coins

/-- Modelled from the spec: `exchange.CoinsEquals` (x/exchange, not in `fulfillment.go`), the
"exactly equals" test of two coin collections: they are equal when they list the same coins,
whatever the order of the entries. -/
def CoinsEquals (a b : Coins) : Bool :=
  decide (Coins.Sort a = Coins.Sort b)

/-- Left-to-right sum of single coins starting from the empty collection, the result of a Go
loop `total = total.Add(c)` over `cs` in which no sum overflows. -/
def sumCoins (cs : List Coin) : Coins :=
  cs.foldl (fun total c => Coins.plus total [c]) []

/-! ## Orders, settlements, messages -/

/-- Modelled from the spec: the ask variant of an order (§3): market, owner (seller), assets,
price and the optional flat settlement fee. -/
structure AskOrder where
  MarketId : Nat
  Seller : String
  Assets : Coin
  Price : Coin
  SellerSettlementFlatFee : Option Coin
  deriving DecidableEq, Repr

/-- Modelled from the spec: the bid variant of an order (§3): market, owner (buyer), assets,
price and the pre-computed buyer settlement fees. -/
structure BidOrder where
  MarketId : Nat
  Buyer : String
  Assets : Coin
  Price : Coin
  BuyerSettlementFees : Coins
  deriving DecidableEq, Repr

/-- Modelled from the spec: the tagged variant of an order (§3). -/
inductive OrderBody where
  | askOrder (a : AskOrder)
  | bidOrder (b : BidOrder)
  deriving DecidableEq, Repr

/-- Modelled from the spec: an order (§3), a unique numeric identifier and its variant. -/
structure Order where
  OrderId : Nat
  body : OrderBody
  deriving DecidableEq, Repr

/-- The getter `Order.GetBidOrder`: the bid variant, or nil. -/
def Order.GetBidOrder (o : Order) : Option BidOrder :=
  match o.body with
  | .bidOrder b => some b
  | .askOrder _ => none

/-- The getter `Order.GetAskOrder`: the ask variant, or nil. -/
def Order.GetAskOrder (o : Order) : Option AskOrder :=
  match o.body with
  | .askOrder a => some a
  | .bidOrder _ => none

/-- The shared accessor `Order.GetAssets`. -/
def Order.GetAssets (o : Order) : Coin :=
  match o.body with
  | .askOrder a => a.Assets
  | .bidOrder b => b.Assets

/-- The shared accessor `Order.GetPrice`. -/
def Order.GetPrice (o : Order) : Coin :=
  match o.body with
  | .askOrder a => a.Price
  | .bidOrder b => b.Price

/-- The accessor `AskOrder.GetSettlementFees`: the flat fee as a coin collection. -/
def AskOrder.GetSettlementFees (a : AskOrder) : Coins :=
  a.SellerSettlementFlatFee.toList

/-- Modelled from the spec: a filled order (§3): original order, realized price, realized fees;
built by `exchange.NewFilledOrder`. -/
structure FilledOrder where
  order : Order
  actualPrice : Coin
  actualFees : Coins
  deriving DecidableEq, Repr

/-- The constructor `exchange.NewFilledOrder`. -/
def NewFilledOrder (order : Order) (actualPrice : Coin) (actualFees : Coins) : FilledOrder :=
  ⟨order, actualPrice, actualFees⟩

/-- The accessor `FilledOrder.GetOriginalOrder`. -/
def FilledOrder.GetOriginalOrder (f : FilledOrder) : Order := f.order

/-- The accessor `FilledOrder.GetOrderID`. -/
def FilledOrder.GetOrderID (f : FilledOrder) : Nat := f.order.OrderId

/-- A debit of a bank transfer, `banktypes.Input`. -/
structure Input where
  Address : String
  Coins : Coins
  deriving DecidableEq, Repr

/-- A credit of a bank transfer, `banktypes.Output`. -/
structure Output where
  Address : String
  Coins : Coins
  deriving DecidableEq, Repr

/-- Modelled from the spec: a transfer leg (§3), a list of debits and a list of credits. -/
structure Transfer where
  Inputs : List Input
  Outputs : List Output
  deriving DecidableEq, Repr

/-- Modelled from the spec: the settlement value (§3). -/
structure Settlement where
  Transfers : List Transfer
  FeeInputs : List Input
  FullyFilledOrders : List FilledOrder
  PartialOrderFilled : Option FilledOrder
  PartialOrderLeft : Option Order
  deriving DecidableEq, Repr

/-- Modelled from the spec: a fee ratio (§3), a fee amount per price amount of a denomination. -/
structure FeeRatio where
  Price : Coin
  Fee : Coin
  deriving DecidableEq, Repr

/-- The request of `FillBids` (§4.5): market, seller, bid order ids, total assets and the two
optional fees. -/
structure MsgFillBidsRequest where
  Seller : String
  MarketId : Nat
  TotalAssets : Coins
  BidOrderIds : List Nat
  SellerSettlementFlatFee : Option Coin
  AskOrderCreationFee : Option Coin
  deriving DecidableEq, Repr

/-- The request of `FillAsks` (§4.5): market, buyer, ask order ids, total price, the buyer
settlement fees and the optional creation fee. -/
structure MsgFillAsksRequest where
  Buyer : String
  MarketId : Nat
  TotalPrice : Coin
  AskOrderIds : List Nat
  BuyerSettlementFees : Coins
  BidOrderCreationFee : Option Coin
  deriving DecidableEq, Repr

/-! ## Errors -/

/-- A value formatted into an error message. -/
inductive ErrArg where
  | coins (c : Coins)
  | coin (c : Coin)
  | optCoin (c : Option Coin)
  | num (n : Nat)
  | str (s : String)
  deriving DecidableEq, Repr

/-- A Go error value: `errors.New`, `fmt.Errorf` without and with a wrapped error, and
`errors.Join`. Errors reported by collaborators are arbitrary values of this type. -/
inductive Err where
  | new (text : String)
  | errorf (format : String) (args : List ErrArg)
  | wrapf (format : String) (args : List ErrArg) (inner : Err)
  | join (errs : List Err)

/-- The function `errors.Join` on possibly-nil errors: nil values are discarded and the result
is nil when nothing is left. -/
def errorsJoin (errs : List (Option Err)) : Option Err :=
  match errs.filterMap id with
  | [] => none
  | e :: es => some (Err.join (e :: es))

/-! ## The address/amount accumulator -/

/-- Modelled from the spec: `exchange.IndexedAddrAmts` (§4.1, not in `fulfillment.go`), an
ordered mapping from address to accumulated amount, kept in first-seen order. -/
structure IndexedAddrAmts where
  entries : List (String × Coins)
  deriving DecidableEq, Repr

/-- The constructor `exchange.NewIndexedAddrAmts`: no entries. -/
def NewIndexedAddrAmts : IndexedAddrAmts := ⟨[]⟩

/-- Adds `coins` to the running total of `addr` in a list of entries: the entry of `addr` is
updated in place, or a new entry is appended on first occurrence. -/
def addEntry : List (String × Coins) → String → List Coin → List (String × Coins)
  | [], addr, coins => [(addr, Coins.plus [] coins)]
  | e :: es, addr, coins =>
    if e.1 = addr then (e.1, Coins.plus e.2 coins) :: es
    else e :: addEntry es addr coins

/-- Modelled from the spec: `IndexedAddrAmts.Add(address, amount...)` (§4.1) adds to the running
total for `address`, creating an entry on first occurrence and preserving first-seen order.
Adding no amount at all leaves the accumulator as it is: the scenario of §8 has zero fee inputs
when neither the buyers nor the seller owe a fee. -/
def IndexedAddrAmts.Add (i : IndexedAddrAmts) (addr : String) (coins : List Coin) :
    IndexedAddrAmts :=
  match coins with
  | [] => i
  | c :: cs => ⟨addEntry i.entries addr (c :: cs)⟩

/-- Modelled from the spec: `IndexedAddrAmts.GetAsInputs` (§4.1), the (address, total) pairs in
first-seen order, as bank inputs. -/
def IndexedAddrAmts.GetAsInputs (i : IndexedAddrAmts) : List Input :=
  i.entries.map (fun e => ⟨e.1, e.2⟩)

/-- Modelled from the spec: `IndexedAddrAmts.GetAsOutputs` (§4.1), the (address, total) pairs in
first-seen order, as bank outputs. -/
def IndexedAddrAmts.GetAsOutputs (i : IndexedAddrAmts) : List Output :=
  i.entries.map (fun e => ⟨e.1, e.2⟩)

/-! ## The world: order store and collaborator calls -/

/-- Modelled from the spec: an event of the event sink (§4.6 step 5), built by
`exchange.NewEventOrderFilled` or `exchange.NewEventOrderPartiallyFilled` from a filled order. -/
inductive Event where
  | EventOrderFilled (order : FilledOrder)
  | EventOrderPartiallyFilled (order : FilledOrder)
  deriving DecidableEq, Repr

/-- The constructor `exchange.NewEventOrderFilled`. -/
def NewEventOrderFilled (order : FilledOrder) : Event := .EventOrderFilled order

/-- The constructor `exchange.NewEventOrderPartiallyFilled`. -/
def NewEventOrderPartiallyFilled (order : FilledOrder) : Event := .EventOrderPartiallyFilled order

/-- A call to a collaborator of `fulfillment.go` that acts on state (§6). -/
inductive Call where
  | releaseHoldOnOrder (order : FilledOrder)
  | DoTransfer (inputs : List Input) (outputs : List Output)
  | CollectFees (marketID : Nat) (inputs : List Input)
  | CollectFee (marketID : Nat) (payer : String) (fee : Coins)
  | setOrderInStore (order : Order)
  | deleteAndDeIndexOrder (order : Order)
  | emitEvents (events : List Event)
  deriving DecidableEq, Repr

/-- Modelled from the spec: the order store (§6), get-by-id of the order records. -/
structure KVStore where
  orders : Nat → Option Order

/-- Modelled from the spec: the "set" of the order store (§6): the record is stored under its
order id. -/
def KVStore.set (store : KVStore) (order : Order) : KVStore :=
  ⟨fun id => if id = order.OrderId then some order else store.orders id⟩

/-- Modelled from the spec: the "delete" of the order store (§6): the record under the id of
the order is removed. -/
def KVStore.delete (store : KVStore) (order : Order) : KVStore :=
  ⟨fun id => if id = order.OrderId then none else store.orders id⟩

/-- The state reached through the SDK context: the exchange store and the collaborator calls
made so far, oldest first. -/
structure World where
  store : KVStore
  calls : List Call

/-- Appends a collaborator call to the log. -/
def World.record (w : World) (c : Call) : World :=
  ⟨w.store, w.calls ++ [c]⟩

/-- The functions that `fulfillment.go` calls and that are defined elsewhere: validation and
order fetching (read-only), fee calculation, the settlement builder, and the outcome (nil or an
error) of each state-changing collaborator at the moment it is called. -/
structure Keeper where
  validateBasicFillBids : MsgFillBidsRequest → Option Err
  validateBasicFillAsks : MsgFillAsksRequest → Option Err
  validateMarketExists : KVStore → Nat → Option Err
  validateMarketIsAcceptingOrders : KVStore → Nat → Option Err
  isUserSettlementAllowed : KVStore → Nat → Bool
  validateUserCanCreateAsk : World → Nat → String → Option Err
  validateUserCanCreateBid : World → Nat → String → Option Err
  validateCreateAskFees : KVStore → Nat → Option Coin → Option Coin → Option Err
  validateCreateBidFees : KVStore → Nat → Option Coin → Coin → Coins → Option Err
  getAskOrders : KVStore → Nat → List Nat → String → List Order × Option Err
  getBidOrders : KVStore → Nat → List Nat → String → List Order × Option Err
  calculateSellerSettlementRatioFee : KVStore → Nat → Coin → Option Coin × Option Err
  getSellerSettlementRatio : KVStore → Nat → String → Option FeeRatio × Option Err
  BuildSettlement : List Order → List Order → (String → Option FeeRatio × Option Err) →
    Except Err Settlement
  releaseHoldOnOrder : World → FilledOrder → Option Err
  DoTransfer : World → List Input → List Output → Option Err
  CollectFees : World → Nat → List Input → Option Err
  CollectFee : World → Nat → String → Coins → Option Err
  setOrderInStore : KVStore → Order → Option Err

/-! ## `fulfillment.go` -/

/-- Source function `sumAssetsAndPrice`: the sum of assets and the sum of prices of the
provided orders; `none` is the panic of a `Coins.Add` that overflows. -/
def sumAssetsAndPrice (orders : List Order) : Option (Coins × Coins) :=
  orders.foldlM
    (fun (acc : Coins × Coins) order =>
      match Coins.Add acc.1 [order.GetAssets] with
      | none => none
      | some totalAssets =>
        match Coins.Add acc.2 [order.GetPrice] with
        | none => none
        | some totalPrice => some (totalAssets, totalPrice))
    ([], [])

/-- Source function `validateAcceptingOrdersAndCanUserSettle`: an error if the market is not
active or does not allow user settlement. -/
def validateAcceptingOrdersAndCanUserSettle (k : Keeper) (store : KVStore) (marketID : Nat) :
    Option Err :=
  match k.validateMarketIsAcceptingOrders store marketID with
  | some err => some err
  | none =>
    if !k.isUserSettlementAllowed store marketID then
      some (.errorf "market %d does not allow user settlement" [.num marketID])
    else none

/-- One call `k.releaseHoldOnOrder(ctx, order)` with `errs = append(errs, err)` on failure. -/
def releaseStep (k : Keeper) (acc : List Err × World) (order : FilledOrder) : List Err × World :=
  (acc.1 ++ (k.releaseHoldOnOrder acc.2 order).toList, acc.2.record (.releaseHoldOnOrder order))

/-- One call `k.DoTransfer(ctx, transfer.Inputs, transfer.Outputs)` with
`errs = append(errs, err)` on failure. -/
def transferStep (k : Keeper) (acc : List Err × World) (transfer : Transfer) : List Err × World :=
  (acc.1 ++ (k.DoTransfer acc.2 transfer.Inputs transfer.Outputs).toList,
    acc.2.record (.DoTransfer transfer.Inputs transfer.Outputs))

/-- The call `k.CollectFees(ctx, marketID, settlement.FeeInputs)` with
`errs = append(errs, err)` on failure. -/
def collectFeesStep (k : Keeper) (acc : List Err × World) (marketID : Nat)
    (feeInputs : List Input) : List Err × World :=
  (acc.1 ++ (k.CollectFees acc.2 marketID feeInputs).toList,
    acc.2.record (.CollectFees marketID feeInputs))

/-- The call `k.setOrderInStore(store, order)`: on success the record is written. -/
def setOrderInStore (k : Keeper) (w : World) (order : Order) : Option Err × World :=
  match k.setOrderInStore w.store order with
  | some err => (some err, w.record (.setOrderInStore order))
  | none => (none, (World.mk (w.store.set order) w.calls).record (.setOrderInStore order))

/-- The call `deleteAndDeIndexOrder(store, order)`: the record is removed. -/
def deleteAndDeIndexOrder (w : World) (order : Order) : World :=
  (World.mk (w.store.delete order) w.calls).record (.deleteAndDeIndexOrder order)

/-- The call `k.emitEvents(ctx, events)`. -/
def emitEvents (w : World) (events : List Event) : World :=
  w.record (.emitEvents events)

/-- The release phase of `closeSettlement` (the two release blocks). -/
def releaseHolds (k : Keeper) (w : World) (settlement : Settlement) : List Err × World :=
  let acc := settlement.FullyFilledOrders.foldl (releaseStep k) ([], w)
  match settlement.PartialOrderFilled with
  | some partialOrder => releaseStep k acc partialOrder
  | none => acc

/-- The transfer loop and the fee collection of `closeSettlement`, sharing one error slice. -/
def transferAndCollect (k : Keeper) (w : World) (marketID : Nat) (settlement : Settlement) :
    List Err × World :=
  collectFeesStep k (settlement.Transfers.foldl (transferStep k) ([], w)) marketID
    settlement.FeeInputs

/-- The events of `closeSettlement`: one filled event per fully filled order, then the
partially-filled event if there is a partial order. -/
def settlementEvents (settlement : Settlement) : List Event :=
  settlement.FullyFilledOrders.map NewEventOrderFilled ++
    (settlement.PartialOrderFilled.map NewEventOrderPartiallyFilled).toList

/-- The end of `closeSettlement`, after the partial order was written: delete all the fully
filled orders and emit the events. -/
def deleteAndEmit (w : World) (settlement : Settlement) : World :=
  emitEvents
    (settlement.FullyFilledOrders.foldl
      (fun w order => deleteAndDeIndexOrder w order.GetOriginalOrder) w)
    (settlementEvents settlement)

/-- Source function `Keeper.closeSettlement`: releases all the holds, does all the transfers,
collects the fees, deletes/updates the orders, and emits events. -/
def closeSettlement (k : Keeper) (w : World) (marketID : Nat) (settlement : Settlement) :
    Option Err × World :=
  let released := releaseHolds k w settlement
  match released.1 with
  | e :: es => (some (Err.join (e :: es)), released.2)
  | [] =>
    let moved := transferAndCollect k released.2 marketID settlement
    match moved.1 with
    | e :: es => (some (Err.join (e :: es)), moved.2)
    | [] =>
      match settlement.PartialOrderLeft with
      | some left =>
        match setOrderInStore k moved.2 left with
        | (some err, w1) =>
          (some (.wrapf "could not update partial %s order %d: %w"
            [.str (match left.body with | .askOrder _ => "ask" | .bidOrder _ => "bid"),
              .num left.OrderId] err), w1)
        | (none, w1) => (none, deleteAndEmit w1 settlement)
      | none => (none, deleteAndEmit moved.2 settlement)

/-- The accumulators of the order loop of `FillBids` and `FillAsks`. -/
structure FillLoop where
  feeAddrIdx : IndexedAddrAmts
  assetsAddrIdx : IndexedAddrAmts
  priceAddrIdx : IndexedAddrAmts
  FullyFilledOrders : List FilledOrder

/-- The accumulators before the first order. -/
def FillLoop.init : FillLoop :=
  ⟨NewIndexedAddrAmts, NewIndexedAddrAmts, NewIndexedAddrAmts, []⟩

/-- The body of the order loop of `FillBids`; `none` is the nil dereference of
`order.GetBidOrder()` on an order that is not a bid. -/
def fillBidsStep (acc : FillLoop) (order : Order) : Option FillLoop :=
  match order.GetBidOrder with
  | none => none
  | some bidOrder =>
    some ⟨acc.feeAddrIdx.Add bidOrder.Buyer bidOrder.BuyerSettlementFees,
      acc.assetsAddrIdx.Add bidOrder.Buyer [bidOrder.Assets],
      acc.priceAddrIdx.Add bidOrder.Buyer [bidOrder.Price],
      acc.FullyFilledOrders ++
        [NewFilledOrder order bidOrder.Price bidOrder.BuyerSettlementFees]⟩

/-- The body of the ratio-fee loop of `FillBids` over the coins of the total price: the error,
if any, is wrapped and appended, and the fee, if any, is added to the total seller fee; `none`
is the panic of that addition when it overflows. -/
def ratioFeeStep (k : Keeper) (store : KVStore) (marketID : Nat) (acc : List Err × Coins)
    (price : Coin) : Option (List Err × Coins) :=
  match (match (k.calculateSellerSettlementRatioFee store marketID price).1 with
      | some sellerRatioFee => Coins.Add acc.2 [sellerRatioFee]
      | none => some acc.2) with
  | none => none
  | some totalSellerFee =>
    some (acc.1 ++ ((k.calculateSellerSettlementRatioFee store marketID price).2.map
        (fun rerr =>
          Err.wrapf "error calculating seller settlement ratio fee: %w" [] rerr)).toList,
      totalSellerFee)

/-- The part of `FillBids` between the order fetch and the call of `closeSettlement`: the check
of the total assets, the flat fee, the order loop, the ratio fees and the settlement. The
result is `none` on a panic, an error when `FillBids` returns one here, and otherwise the
settlement that is handed to `closeSettlement`. -/
def fillBidsSettlement (k : Keeper) (store : KVStore) (msg : MsgFillBidsRequest)
    (orders : List Order) : Option (Except Err Settlement) :=
  match sumAssetsAndPrice orders with
  | none => none
  | some totals =>
    if !CoinsEquals totals.1 msg.TotalAssets then
      some (.error (.errorf "total assets %q does not equal sum of bid order assets %q"
        [.coins msg.TotalAssets, .coins totals.1]))
    else
      match (match msg.SellerSettlementFlatFee with
          | some flat => Coins.Add [] [flat]
          | none => some []) with
      | none => none
      | some flatFee =>
        match orders.foldlM fillBidsStep FillLoop.init with
        | none => none
        | some loop =>
          match totals.2.foldlM (ratioFeeStep k store msg.MarketId) ([], flatFee) with
          | none => none
          | some (e :: es, _) => some (.error (Err.join (e :: es)))
          | some ([], totalSellerFee) =>
            some (.ok
              ⟨[⟨[⟨msg.Seller, msg.TotalAssets⟩], loop.assetsAddrIdx.GetAsOutputs⟩,
                  ⟨loop.priceAddrIdx.GetAsInputs, [⟨msg.Seller, totals.2⟩]⟩],
                (loop.feeAddrIdx.Add msg.Seller totalSellerFee).GetAsInputs,
                loop.FullyFilledOrders, none, none⟩)

/-- The end of `FillBids` and `FillAsks`: the settlement is closed and then, if that succeeded
and a creation fee was supplied, the creation fee is collected from `payer`. -/
def closeAndCollectCreationFee (k : Keeper) (w : World) (marketID : Nat) (payer : String)
    (creationFee : Option Coin) (settlement : Settlement) : Option Err × World :=
  match closeSettlement k w marketID settlement with
  | (some err, w1) => (some err, w1)
  | (none, w1) =>
    match creationFee with
    | none => (none, w1)
    | some fee =>
      match k.CollectFee w1 marketID payer [fee] with
      | some err =>
        (some (.wrapf "error collecting create-ask fee %q: %w" [.coin fee] err),
          w1.record (.CollectFee marketID payer [fee]))
      | none => (none, w1.record (.CollectFee marketID payer [fee]))

/-- Source function `Keeper.FillBids`: settles one or more bid orders for a seller. The outer
`none` is a runtime panic. -/
def FillBids (k : Keeper) (w : World) (msg : MsgFillBidsRequest) : Option (Option Err × World) :=
  match k.validateBasicFillBids msg with
  | some err => some (some err, w)
  | none =>
    match validateAcceptingOrdersAndCanUserSettle k w.store msg.MarketId with
    | some err => some (some err, w)
    | none =>
      match k.validateUserCanCreateAsk w msg.MarketId msg.Seller with
      | some err => some (some err, w)
      | none =>
        match k.validateCreateAskFees w.store msg.MarketId msg.AskOrderCreationFee
            msg.SellerSettlementFlatFee with
        | some err => some (some err, w)
        | none =>
          match k.getBidOrders w.store msg.MarketId msg.BidOrderIds msg.Seller with
          | (_, some oerrs) => some (some oerrs, w)
          | (orders, none) =>
            match fillBidsSettlement k w.store msg orders with
            | none => none
            | some (.error err) => some (some err, w)
            | some (.ok settlement) =>
              some (closeAndCollectCreationFee k w msg.MarketId msg.Seller
                msg.AskOrderCreationFee settlement)

/-- The body of the order loop of `FillAsks`: the seller ratio fee is calculated for the order,
a failure is wrapped and appended to the errors, and the fee, if any, is added to the settlement
fees of the order; `none` is the nil dereference of `order.GetAskOrder()` on an order that is
not an ask, or the panic of that addition when it overflows. -/
def fillAsksStep (k : Keeper) (store : KVStore) (marketID : Nat) (acc : List Err × FillLoop)
    (order : Order) : Option (List Err × FillLoop) :=
  match order.GetAskOrder with
  | none => none
  | some askOrder =>
    match (match (k.calculateSellerSettlementRatioFee store marketID askOrder.Price).1 with
        | some sellerRatioFee => Coins.Add askOrder.GetSettlementFees [sellerRatioFee]
        | none => some askOrder.GetSettlementFees) with
    | none => none
    | some sellerFees =>
      some (acc.1 ++ ((k.calculateSellerSettlementRatioFee store marketID askOrder.Price).2.map
          (fun rerr =>
            Err.wrapf "error calculating seller settlement ratio fee for order %d: %w"
              [.num order.OrderId] rerr)).toList,
        ⟨acc.2.feeAddrIdx.Add askOrder.Seller sellerFees,
          acc.2.assetsAddrIdx.Add askOrder.Seller [askOrder.Assets],
          acc.2.priceAddrIdx.Add askOrder.Seller [askOrder.Price],
          acc.2.FullyFilledOrders ++ [NewFilledOrder order askOrder.Price sellerFees]⟩)

/-- The part of `FillAsks` between the order fetch and the call of `closeSettlement`: the check
of the total price, the order loop with the per-order seller fees, and the settlement. The
result is `none` on a panic. -/
def fillAsksSettlement (k : Keeper) (store : KVStore) (msg : MsgFillAsksRequest)
    (orders : List Order) : Option (Except Err Settlement) :=
  match sumAssetsAndPrice orders with
  | none => none
  | some totals =>
    if !CoinsEquals totals.2 [msg.TotalPrice] then
      some (.error (.errorf "total price %q does not equal sum of ask order prices %q"
        [.coin msg.TotalPrice, .coins totals.2]))
    else
      match orders.foldlM (fillAsksStep k store msg.MarketId) ([], FillLoop.init) with
      | none => none
      | some (e :: es, _) => some (.error (Err.join (e :: es)))
      | some ([], loop) =>
        some (.ok
          ⟨[⟨loop.assetsAddrIdx.GetAsInputs, [⟨msg.Buyer, totals.1⟩]⟩,
              ⟨[⟨msg.Buyer, [msg.TotalPrice]⟩], loop.priceAddrIdx.GetAsOutputs⟩],
            (loop.feeAddrIdx.Add msg.Buyer msg.BuyerSettlementFees).GetAsInputs,
            loop.FullyFilledOrders, none, none⟩)

/-- Source function `Keeper.FillAsks`: settles one or more ask orders for a buyer. The outer
`none` is a runtime panic. -/
def FillAsks (k : Keeper) (w : World) (msg : MsgFillAsksRequest) : Option (Option Err × World) :=
  match k.validateBasicFillAsks msg with
  | some err => some (some err, w)
  | none =>
    match validateAcceptingOrdersAndCanUserSettle k w.store msg.MarketId with
    | some err => some (some err, w)
    | none =>
      match k.validateUserCanCreateBid w msg.MarketId msg.Buyer with
      | some err => some (some err, w)
      | none =>
        match k.validateCreateBidFees w.store msg.MarketId msg.BidOrderCreationFee
            msg.TotalPrice msg.BuyerSettlementFees with
        | some err => some (some err, w)
        | none =>
          match k.getAskOrders w.store msg.MarketId msg.AskOrderIds msg.Buyer with
          | (_, some oerrs) => some (some oerrs, w)
          | (orders, none) =>
            match fillAsksSettlement k w.store msg orders with
            | none => none
            | some (.error err) => some (some err, w)
            | some (.ok settlement) =>
              some (closeAndCollectCreationFee k w msg.MarketId msg.Buyer
                msg.BidOrderCreationFee settlement)

/-- The two checks of `SettleOrders` on the `expectPartial` flag, made on the settlement that
`BuildSettlement` returned. -/
def checkExpectPartial (expectPartial : Bool) (settlement : Settlement) : Option Err :=
  match expectPartial, settlement.PartialOrderFilled with
  | false, some partialOrder =>
    some (.errorf "settlement resulted in unexpected partial order %d"
      [.num partialOrder.GetOrderID])
  | true, none => some (.new "settlement unexpectedly resulted in all orders fully filled")
  | _, _ => none

/-- Source function `Keeper.SettleOrders`: attempts to settle all the provided orders. -/
def SettleOrders (k : Keeper) (w : World) (marketID : Nat) (askOrderIDs bidOrderIds : List Nat)
    (expectPartial : Bool) : Option Err × World :=
  match k.validateMarketExists w.store marketID with
  | some err => (some err, w)
  | none =>
    let asks := k.getAskOrders w.store marketID askOrderIDs ""
    let bids := k.getBidOrders w.store marketID bidOrderIds ""
    if asks.2.isSome || bids.2.isSome then (errorsJoin [asks.2, bids.2], w)
    else
      match k.BuildSettlement asks.1 bids.1
          (fun denom => k.getSellerSettlementRatio w.store marketID denom) with
      | .error err => (some err, w)
      | .ok settlement =>
        match checkExpectPartial expectPartial settlement with
        | some err => (some err, w)
        | none => closeSettlement k w marketID settlement

/-! ## Vocabulary of the statements -/

/-- The sum of the assets and the sum of the prices of the provided orders, added up one order
after the other: what `sumAssetsAndPrice` returns when no sum overflows. -/
def orderTotals (orders : List Order) : Coins × Coins :=
  orders.foldl
    (fun (acc : Coins × Coins) order =>
      (Coins.plus acc.1 [order.GetAssets], Coins.plus acc.2 [order.GetPrice]))
    ([], [])

/-- The errors of a batch of collaborator calls made one after the other from the world `w`:
the call for the element at position `i` is made in the world where the calls for the elements
before it have been recorded, and the errors are listed in the order of the calls. -/
def attemptFailures {α : Type} (outcome : World → α → Option Err) (call : α → Call) (w : World)
    (xs : List α) : List Err :=
  xs.enum.filterMap (fun p => outcome ⟨w.store, w.calls ++ (xs.take p.1).map call⟩ p.2)

/-- The orders whose hold a settlement releases: the fully filled orders, then the partially
filled order if there is one. -/
def releaseTargets (settlement : Settlement) : List FilledOrder :=
  settlement.FullyFilledOrders ++ settlement.PartialOrderFilled.toList

/-- The hold-release failures of a settlement closed from the world `w`, in call order. -/
def releaseFailures (k : Keeper) (w : World) (settlement : Settlement) : List Err :=
  attemptFailures k.releaseHoldOnOrder Call.releaseHoldOnOrder w (releaseTargets settlement)

/-- The world once every hold release of the settlement has been attempted. -/
def afterRelease (w : World) (settlement : Settlement) : World :=
  ⟨w.store, w.calls ++ (releaseTargets settlement).map Call.releaseHoldOnOrder⟩

/-- The collaborator call made for a transfer leg. -/
def transferCall (t : Transfer) : Call := .DoTransfer t.Inputs t.Outputs

/-- The transfer failures of a settlement, in call order; the transfers start once every hold
release has been attempted. -/
def transferFailures (k : Keeper) (w : World) (settlement : Settlement) : List Err :=
  attemptFailures (fun w1 t => k.DoTransfer w1 t.Inputs t.Outputs) transferCall
    (afterRelease w settlement) settlement.Transfers

/-- The world once every transfer leg of the settlement has been attempted. -/
def afterTransfers (w : World) (settlement : Settlement) : World :=
  ⟨w.store, (afterRelease w settlement).calls ++ settlement.Transfers.map transferCall⟩

/-- The outcome of the fee collection of a settlement, attempted after its transfers. -/
def feeFailure (k : Keeper) (w : World) (marketID : Nat) (settlement : Settlement) : Option Err :=
  k.CollectFees (afterTransfers w settlement) marketID settlement.FeeInputs

/-- The world once the fee collection of the settlement has been attempted. -/
def afterFees (w : World) (marketID : Nat) (settlement : Settlement) : World :=
  (afterTransfers w settlement).record (.CollectFees marketID settlement.FeeInputs)

/-- Whether a call is a hold release. -/
def Call.isRelease : Call → Bool
  | .releaseHoldOnOrder _ => true
  | _ => false

/-- Whether a call is a bank transfer. -/
def Call.isTransfer : Call → Bool
  | .DoTransfer _ _ => true
  | _ => false

/-- Whether a call is a fee collection of a settlement. -/
def Call.isCollectFees : Call → Bool
  | .CollectFees _ _ => true
  | _ => false

/-- Whether a call writes or deletes an order record. -/
def Call.isOrderWrite : Call → Bool
  | .setOrderInStore _ => true
  | .deleteAndDeIndexOrder _ => true
  | _ => false

/-- Whether a call emits events. -/
def Call.isEmit : Call → Bool
  | .emitEvents _ => true
  | _ => false

/-- The order-store calls of a settlement that closes: the write of the remaining partial
order, if any, then one delete per fully filled order. -/
def storeCalls (settlement : Settlement) : List Call :=
  (settlement.PartialOrderLeft.map Call.setOrderInStore).toList ++
    settlement.FullyFilledOrders.map (fun f => Call.deleteAndDeIndexOrder f.GetOriginalOrder)

/-- The event batch of a settlement: a filled event per fully filled order, in list order, then
a partially-filled event if there is a partially filled order. -/
def eventBatch (settlement : Settlement) : List Event :=
  settlement.FullyFilledOrders.map Event.EventOrderFilled ++
    (match settlement.PartialOrderFilled with
      | some partialOrder => [Event.EventOrderPartiallyFilled partialOrder]
      | none => [])

/-- The ids of the original orders of the fully filled orders of a settlement. -/
def filledIds (settlement : Settlement) : List Nat :=
  settlement.FullyFilledOrders.map (fun f => f.order.OrderId)

/-- In a sequence of calls, no transfer comes before a hold release. -/
def NoTransferBeforeRelease (calls : List Call) : Prop :=
  calls.Pairwise (fun earlier later => ¬ (earlier.isTransfer = true ∧ later.isRelease = true))

/-- The entries of a list, each once, in the order of their first occurrence. -/
def firstSeen (l : List String) : List String := l.reverse.dedup.reverse

/-- The per-address totals of a list of (address, coin) pairs: one entry per distinct address,
in first-seen order, carrying the left-to-right sum of the coins paired with that address. -/
def perAddress (ps : List (String × Coin)) : List (String × Coins) :=
  (firstSeen (ps.map Prod.fst)).map
    (fun a => (a, sumCoins ((ps.filter (fun p => p.1 = a)).map Prod.snd)))

/-- The bid variants of the bid orders of a list. -/
def bidsOf (orders : List Order) : List BidOrder := orders.filterMap Order.GetBidOrder

/-- Total amount of denomination `d` debited by a list of inputs. -/
def inputTotal (ins : List Input) (d : String) : Int :=
  (ins.map (fun i => Coins.amountOf i.Coins d)).sum

/-- Total amount of denomination `d` credited by a list of outputs. -/
def outputTotal (outs : List Output) (d : String) : Int :=
  (outs.map (fun o => Coins.amountOf o.Coins d)).sum

/-- A transfer leg is balanced when, for every denomination, the sum of its input amounts
equals the sum of its output amounts. -/
def Transfer.Balanced (t : Transfer) : Prop :=
  ∀ d, inputTotal t.Inputs d = outputTotal t.Outputs d

/-- The call `FillBids k w msg` reaches `closeSettlement` with the fetched `orders` and the
settlement `settlement`: the request passes every validation, the fetch of the bid orders
returns `orders` without error, and the settlement built from them is `settlement`. -/
def FillBidsReaches (k : Keeper) (w : World) (msg : MsgFillBidsRequest) (orders : List Order)
    (settlement : Settlement) : Prop :=
  k.validateBasicFillBids msg = none ∧
  validateAcceptingOrdersAndCanUserSettle k w.store msg.MarketId = none ∧
  k.validateUserCanCreateAsk w msg.MarketId msg.Seller = none ∧
  k.validateCreateAskFees w.store msg.MarketId msg.AskOrderCreationFee
    msg.SellerSettlementFlatFee = none ∧
  k.getBidOrders w.store msg.MarketId msg.BidOrderIds msg.Seller = (orders, none) ∧
  fillBidsSettlement k w.store msg orders = some (.ok settlement)

/-- The ask variants of the ask orders of a list. -/
def asksOf (orders : List Order) : List AskOrder := orders.filterMap Order.GetAskOrder

/-- The call `FillAsks k w msg` reaches `closeSettlement` with the fetched `orders` and the
settlement `settlement`: the request passes every validation, the fetch of the ask orders
returns `orders` without error, and the settlement built from them is `settlement`. -/
def FillAsksReaches (k : Keeper) (w : World) (msg : MsgFillAsksRequest) (orders : List Order)
    (settlement : Settlement) : Prop :=
  k.validateBasicFillAsks msg = none ∧
  validateAcceptingOrdersAndCanUserSettle k w.store msg.MarketId = none ∧
  k.validateUserCanCreateBid w msg.MarketId msg.Buyer = none ∧
  k.validateCreateBidFees w.store msg.MarketId msg.BidOrderCreationFee msg.TotalPrice
    msg.BuyerSettlementFees = none ∧
  k.getAskOrders w.store msg.MarketId msg.AskOrderIds msg.Buyer = (orders, none) ∧
  fillAsksSettlement k w.store msg orders = some (.ok settlement)

/-- The per-address totals of a list of (address, coins) contributions added one after the
other: a contribution without coins counts for nothing; there is one entry per address that
contributed coins, in first-seen order, carrying the coins of its contributions added up in
order, starting from no coins. -/
def perAddressAmounts (ps : List (String × List Coin)) : List (String × Coins) :=
  (firstSeen ((ps.filter (fun p => !p.2.isEmpty)).map Prod.fst)).map
    (fun a => (a, (((ps.filter (fun p => !p.2.isEmpty)).filter (fun p => p.1 = a)).map
      Prod.snd).foldl Coins.plus []))

/-- The seller ratio fees of the coins of a total price: the fee calculated on each coin,
where one is returned. -/
def sellerRatioFees (k : Keeper) (store : KVStore) (marketID : Nat) (totalPrice : Coins) :
    List Coin :=
  totalPrice.filterMap (fun price => (k.calculateSellerSettlementRatioFee store marketID price).1)

/-- The total seller fee of a `FillBids` call: the flat fee, if supplied, then the ratio fee of
each coin of the summed price of the fetched orders, added up. -/
def totalSellerFee (k : Keeper) (store : KVStore) (msg : MsgFillBidsRequest)
    (orders : List Order) : Coins :=
  sumCoins (msg.SellerSettlementFlatFee.toList ++
    sellerRatioFees k store msg.MarketId (sumCoins (orders.map Order.GetPrice)))

/-- The (buyer, buyer settlement fees) contributions of the bids of a list of orders. -/
def buyerFeePairs (orders : List Order) : List (String × List Coin) :=
  (bidsOf orders).map (fun b => (b.Buyer, b.BuyerSettlementFees))

/-- The fees of the seller of one ask order in `FillAsks`: the settlement fees of the order,
plus the ratio fee calculated on the price of this order when there is one. -/
def askSellerFees (k : Keeper) (store : KVStore) (marketID : Nat) (a : AskOrder) : Coins :=
  match (k.calculateSellerSettlementRatioFee store marketID a.Price).1 with
  | some sellerRatioFee => Coins.plus a.GetSettlementFees [sellerRatioFee]
  | none => a.GetSettlementFees

/-- The (seller, seller fees) contributions of the asks of a list of orders. -/
def sellerFeePairs (k : Keeper) (store : KVStore) (marketID : Nat) (orders : List Order) :
    List (String × List Coin) :=
  (asksOf orders).map (fun a => (a.Seller, askSellerFees k store marketID a))

/-- The bank inputs of a list of (address, total) entries. -/
def entryInputs (es : List (String × Coins)) : List Input :=
  es.map (fun e => ⟨e.1, e.2⟩)

/-- Whether a call is the collection of a single fee (`CollectFee`). -/
def Call.isCollectFee : Call → Bool
  | .CollectFee _ _ _ => true
  | _ => false

/-- The errors of the ratio-fee loop of `FillBids` over the coins of a total price: the error
of each failed calculation, wrapped, in the order of the coins. -/
def ratioFeeErrors (k : Keeper) (store : KVStore) (marketID : Nat) (totalPrice : Coins) :
    List Err :=
  totalPrice.filterMap (fun price =>
    (k.calculateSellerSettlementRatioFee store marketID price).2.map
      (fun rerr => Err.wrapf "error calculating seller settlement ratio fee: %w" [] rerr))

/-- The errors of the order loop of `FillAsks`: the error of each failed ratio-fee calculation,
made on the price of an ask order, wrapped with the id of the order, in the order of the
orders. -/
def askRatioFeeErrors (k : Keeper) (store : KVStore) (marketID : Nat) (orders : List Order) :
    List Err :=
  orders.filterMap (fun o => o.GetAskOrder.bind (fun a =>
    (k.calculateSellerSettlementRatioFee store marketID a.Price).2.map
      (fun rerr => Err.wrapf "error calculating seller settlement ratio fee for order %d: %w"
        [.num o.OrderId] rerr)))

/-- Whether the coins `cs` can be added up one after the other by `Coins.Add`, starting from no
coins, without an overflow. -/
def addsUp (cs : List Coin) : Bool :=
  (cs.foldlM (fun total c => Coins.Add total [c]) []).isSome

/-! ## Sample data: the scenarios of the specification (§8) -/

/-- Bid B1: buyer X, 10 unit-A assets, 100 unit-D price. -/
def bidB1 : Order := ⟨1, .bidOrder ⟨1, "X", ⟨"A", 10⟩, ⟨"D", 100⟩, []⟩⟩

/-- Bid B2: buyer Y, 5 unit-A assets, 50 unit-D price. -/
def bidB2 : Order := ⟨2, .bidOrder ⟨1, "Y", ⟨"A", 5⟩, ⟨"D", 50⟩, []⟩⟩

/-- Ask A1: seller S, 10 unit-A assets, 100 unit-D price. -/
def askA1 : Order := ⟨3, .askOrder ⟨1, "S", ⟨"A", 10⟩, ⟨"D", 100⟩, none⟩⟩

/-- Bid B3: buyer X, 6 unit-A assets, 60 unit-D price. -/
def bidB3 : Order := ⟨4, .bidOrder ⟨1, "X", ⟨"A", 6⟩, ⟨"D", 60⟩, []⟩⟩

/-- What is left of ask A1 once 6 unit-A have been filled. -/
def askA1Left : Order := ⟨3, .askOrder ⟨1, "S", ⟨"A", 4⟩, ⟨"D", 40⟩, none⟩⟩

/-- A store holding B1, B2, A1 and B3. -/
def sampleStore : KVStore :=
  ⟨fun id =>
    if id = 1 then some bidB1 else if id = 2 then some bidB2
    else if id = 3 then some askA1 else if id = 4 then some bidB3 else none⟩

/-- A world with the sample store and no call made yet. -/
def sampleWorld : World := ⟨sampleStore, []⟩

/-- The settlement of ask A1 against bid B3: B3 is filled, A1 is filled for 6 unit-A and 4
unit-A are left. -/
def partialSettlement : Settlement :=
  ⟨[⟨[⟨"S", [⟨"A", 6⟩]⟩], [⟨"X", [⟨"A", 6⟩]⟩]⟩, ⟨[⟨"X", [⟨"D", 60⟩]⟩], [⟨"S", [⟨"D", 60⟩]⟩]⟩],
    [], [⟨bidB3, ⟨"D", 60⟩, []⟩], some ⟨askA1, ⟨"D", 60⟩, []⟩, some askA1Left⟩

/-- The settlement of B1 and B2 filled by seller S. -/
def fillSettlement : Settlement :=
  ⟨[⟨[⟨"S", [⟨"A", 15⟩]⟩], [⟨"X", [⟨"A", 10⟩]⟩, ⟨"Y", [⟨"A", 5⟩]⟩]⟩,
      ⟨[⟨"X", [⟨"D", 100⟩]⟩, ⟨"Y", [⟨"D", 50⟩]⟩], [⟨"S", [⟨"D", 150⟩]⟩]⟩],
    [], [⟨bidB1, ⟨"D", 100⟩, []⟩, ⟨bidB2, ⟨"D", 50⟩, []⟩], none, none⟩

/-- A keeper in a market that accepts everything: the validations pass, the fetchers return the
stored records of the requested ids, no fee ratio is configured, `BuildSettlement` answers with
`partialSettlement`, and every collaborator succeeds. -/
def sampleKeeper : Keeper where
  validateBasicFillBids := fun _ => none
  validateBasicFillAsks := fun _ => none
  validateMarketExists := fun _ _ => none
  validateMarketIsAcceptingOrders := fun _ _ => none
  isUserSettlementAllowed := fun _ _ => true
  validateUserCanCreateAsk := fun _ _ _ => none
  validateUserCanCreateBid := fun _ _ _ => none
  validateCreateAskFees := fun _ _ _ _ => none
  validateCreateBidFees := fun _ _ _ _ _ => none
  getAskOrders := fun store _ ids _ => (ids.filterMap store.orders, none)
  getBidOrders := fun store _ ids _ => (ids.filterMap store.orders, none)
  calculateSellerSettlementRatioFee := fun _ _ _ => (none, none)
  getSellerSettlementRatio := fun _ _ _ => (none, none)
  BuildSettlement := fun _ _ _ => .ok partialSettlement
  releaseHoldOnOrder := fun _ _ => none
  DoTransfer := fun _ _ _ => none
  CollectFees := fun _ _ _ => none
  CollectFee := fun _ _ _ _ => none
  setOrderInStore := fun _ _ => none

/-- The sample keeper, except that only the hold of order 2 can be released. -/
def heldKeeper : Keeper :=
  { sampleKeeper with
    releaseHoldOnOrder := fun _ order =>
      if order.order.OrderId = 2 then none else some (.new "no hold to release") }

/-- The sample keeper, except that every bank transfer fails. -/
def brokeKeeper : Keeper :=
  { sampleKeeper with DoTransfer := fun _ _ _ => some (.new "insufficient funds") }

/-- The request of seller S to fill B1 and B2 for 15 unit-A, without fees. -/
def sampleFillBids : MsgFillBidsRequest := ⟨"S", 1, [⟨"A", 15⟩], [1, 2], none, none⟩

/-- The same request with a wrong total of 14 unit-A. -/
def staleFillBids : MsgFillBidsRequest := ⟨"S", 1, [⟨"A", 14⟩], [1, 2], none, none⟩

/-- The request of buyer X to fill A1 for 100 unit-D, without fees. -/
def sampleFillAsks : MsgFillAsksRequest := ⟨"X", 1, ⟨"D", 100⟩, [3], [], none⟩

/-- Ask A2: seller T, 4 unit-A assets, 40 unit-D price. -/
def askA2 : Order := ⟨5, .askOrder ⟨1, "T", ⟨"A", 4⟩, ⟨"D", 40⟩, none⟩⟩

/-- Ask A3: seller S again, 1 unit-A assets, 10 unit-D price. -/
def askA3 : Order := ⟨6, .askOrder ⟨1, "S", ⟨"A", 1⟩, ⟨"D", 10⟩, none⟩⟩

/-- A store holding the asks A1, A2 and A3. -/
def askStore : KVStore :=
  ⟨fun id =>
    if id = 3 then some askA1 else if id = 5 then some askA2
    else if id = 6 then some askA3 else none⟩

/-- A world with the ask store and no call made yet. -/
def askWorld : World := ⟨askStore, []⟩

/-- The request of buyer X to fill A1, A2 and A3 for 150 unit-D, without fees. -/
def threeFillAsks : MsgFillAsksRequest := ⟨"X", 1, ⟨"D", 150⟩, [3, 5, 6], [], none⟩

/-- The same request with a wrong total of 149 unit-D. -/
def staleFillAsks : MsgFillAsksRequest := ⟨"X", 1, ⟨"D", 149⟩, [3, 5, 6], [], none⟩

/-- The settlement of A1, A2 and A3 filled by buyer X. -/
def askSettlement : Settlement :=
  ⟨[⟨[⟨"S", [⟨"A", 11⟩]⟩, ⟨"T", [⟨"A", 4⟩]⟩], [⟨"X", [⟨"A", 15⟩]⟩]⟩,
      ⟨[⟨"X", [⟨"D", 150⟩]⟩], [⟨"S", [⟨"D", 110⟩]⟩, ⟨"T", [⟨"D", 40⟩]⟩]⟩],
    [], [⟨askA1, ⟨"D", 100⟩, []⟩, ⟨askA2, ⟨"D", 40⟩, []⟩, ⟨askA3, ⟨"D", 10⟩, []⟩], none, none⟩

/-- The sample keeper in a market that charges sellers a ratio fee of 1 unit-D on every
calculation made on a unit-D price. -/
def ratioKeeper : Keeper :=
  { sampleKeeper with
    calculateSellerSettlementRatioFee := fun _ _ price =>
      if price.Denom = "D" then (some ⟨"D", 1⟩, none) else (none, none) }

/-- The sample keeper in a market that is not accepting orders. -/
def closedKeeper : Keeper :=
  { sampleKeeper with
    validateMarketIsAcceptingOrders := fun _ marketID =>
      some (.errorf "market %d is not accepting orders" [.num marketID]) }

/-- Bid B4: buyer X, 1 unit-A assets, 10 unit-D price, with 3 unit-F of buyer fees. -/
def bidB4 : Order := ⟨7, .bidOrder ⟨1, "X", ⟨"A", 1⟩, ⟨"D", 10⟩, [⟨"F", 3⟩]⟩⟩

/-- Bid B5: buyer Y, 2 unit-A assets, 20 unit-D price, with 4 unit-F of buyer fees. -/
def bidB5 : Order := ⟨8, .bidOrder ⟨1, "Y", ⟨"A", 2⟩, ⟨"D", 20⟩, [⟨"F", 4⟩]⟩⟩

/-- A store holding the bids B4 and B5. -/
def feeStore : KVStore :=
  ⟨fun id => if id = 7 then some bidB4 else if id = 8 then some bidB5 else none⟩

/-- A world with the fee store and no call made yet. -/
def feeWorld : World := ⟨feeStore, []⟩

/-- The request of seller S to fill B4 and B5 for 3 unit-A, with a flat settlement fee of 5
unit-F and an ask creation fee of 2 unit-F. -/
def feeFillBids : MsgFillBidsRequest :=
  ⟨"S", 1, [⟨"A", 3⟩], [7, 8], some ⟨"F", 5⟩, some ⟨"F", 2⟩⟩

/-- The settlement of B4 and B5 filled by seller S in the market of `ratioKeeper`. -/
def feeSettlement : Settlement :=
  ⟨[⟨[⟨"S", [⟨"A", 3⟩]⟩], [⟨"X", [⟨"A", 1⟩]⟩, ⟨"Y", [⟨"A", 2⟩]⟩]⟩,
      ⟨[⟨"X", [⟨"D", 10⟩]⟩, ⟨"Y", [⟨"D", 20⟩]⟩], [⟨"S", [⟨"D", 30⟩]⟩]⟩],
    [⟨"X", [⟨"F", 3⟩]⟩, ⟨"Y", [⟨"F", 4⟩]⟩, ⟨"S", [⟨"D", 1⟩, ⟨"F", 5⟩]⟩],
    [⟨bidB4, ⟨"D", 10⟩, [⟨"F", 3⟩]⟩, ⟨bidB5, ⟨"D", 20⟩, [⟨"F", 4⟩]⟩], none, none⟩

/-- The request of buyer X to fill A1, A2 and A3 for 150 unit-D, with 7 unit-F of buyer
settlement fees. -/
def feeFillAsks : MsgFillAsksRequest := ⟨"X", 1, ⟨"D", 150⟩, [3, 5, 6], [⟨"F", 7⟩], none⟩

/-- The settlement of A1, A2 and A3 filled by buyer X in the market of `ratioKeeper`. -/
def feeAskSettlement : Settlement :=
  ⟨[⟨[⟨"S", [⟨"A", 11⟩]⟩, ⟨"T", [⟨"A", 4⟩]⟩], [⟨"X", [⟨"A", 15⟩]⟩]⟩,
      ⟨[⟨"X", [⟨"D", 150⟩]⟩], [⟨"S", [⟨"D", 110⟩]⟩, ⟨"T", [⟨"D", 40⟩]⟩]⟩],
    [⟨"S", [⟨"D", 2⟩]⟩, ⟨"T", [⟨"D", 1⟩]⟩, ⟨"X", [⟨"F", 7⟩]⟩],
    [⟨askA1, ⟨"D", 100⟩, [⟨"D", 1⟩]⟩, ⟨askA2, ⟨"D", 40⟩, [⟨"D", 1⟩]⟩,
      ⟨askA3, ⟨"D", 10⟩, [⟨"D", 1⟩]⟩], none, none⟩

/-- Bid B6: buyer Y, 1 unit-A assets, 5 unit-E price. -/
def bidB6 : Order := ⟨9, .bidOrder ⟨1, "Y", ⟨"A", 1⟩, ⟨"E", 5⟩, []⟩⟩

/-- A world whose store holds B1 and B6, bids priced in two denominations. -/
def mixedWorld : World :=
  ⟨⟨fun id => if id = 1 then some bidB1 else if id = 9 then some bidB6 else none⟩, []⟩

/-- The request of seller S to fill B1 and B6 for 11 unit-A, without fees. -/
def mixedFillBids : MsgFillBidsRequest := ⟨"S", 1, [⟨"A", 11⟩], [1, 9], none, none⟩

/-- The sample keeper with a bank that refuses every transfer with an input of S. -/
def frozenSellerKeeper : Keeper :=
  { sampleKeeper with
    DoTransfer := fun _ inputs _ =>
      if inputs.any (fun i => decide (i.Address = "S")) then some (.new "account of S is frozen")
      else none }

/-- A bid of buyer X for 2^255 unit-A, priced 1 unit-D. -/
def hugeBid1 : Order :=
  ⟨10, .bidOrder ⟨1, "X",
    ⟨"A", 57896044618658097711785492504343953926634992332820282019728792003956564819968⟩,
    ⟨"D", 1⟩, []⟩⟩

/-- A bid of buyer Y for 2^255 unit-A, priced 1 unit-D. -/
def hugeBid2 : Order :=
  ⟨11, .bidOrder ⟨1, "Y",
    ⟨"A", 57896044618658097711785492504343953926634992332820282019728792003956564819968⟩,
    ⟨"D", 1⟩, []⟩⟩

/-- An ask of seller S for 1 unit-A, priced 2^255 unit-D. -/
def hugeAsk1 : Order :=
  ⟨12, .askOrder ⟨1, "S", ⟨"A", 1⟩,
    ⟨"D", 57896044618658097711785492504343953926634992332820282019728792003956564819968⟩,
    none⟩⟩

/-- An ask of seller T for 1 unit-A, priced 2^255 unit-D. -/
def hugeAsk2 : Order :=
  ⟨13, .askOrder ⟨1, "T", ⟨"A", 1⟩,
    ⟨"D", 57896044618658097711785492504343953926634992332820282019728792003956564819968⟩,
    none⟩⟩

/-- A world whose store holds the two bids and the two asks of 2^255. -/
def hugeWorld : World :=
  ⟨⟨fun id =>
    if id = 10 then some hugeBid1 else if id = 11 then some hugeBid2
    else if id = 12 then some hugeAsk1 else if id = 13 then some hugeAsk2 else none⟩, []⟩

/-- The request of seller S to fill the two bids of 2^255 unit-A for 15 unit-A. -/
def hugeFillBids : MsgFillBidsRequest := ⟨"S", 1, [⟨"A", 15⟩], [10, 11], none, none⟩

/-- The request of buyer X to fill the two asks priced 2^255 unit-D for 150 unit-D. -/
def hugeFillAsks : MsgFillAsksRequest := ⟨"X", 1, ⟨"D", 150⟩, [12, 13], [], none⟩

/-- The sample keeper in a market with a seller ratio fee of 1 unit-F on a unit-E price and no
ratio for a unit-D price. -/
def partRatioKeeper : Keeper :=
  { sampleKeeper with
    calculateSellerSettlementRatioFee := fun _ _ price =>
      if price.Denom = "E" then (some ⟨"F", 1⟩, none)
      else (none, some (.new "no seller settlement fee ratio found")) }

/-- The request of seller S to fill B1 and B6 for 11 unit-A, with a flat fee of 2^256 - 1
unit-F, the largest amount of an `sdk.Int`. -/
def maxFeeFillBids : MsgFillBidsRequest :=
  ⟨"S", 1, [⟨"A", 11⟩], [1, 9],
    some ⟨"F",
      115792089237316195423570985008687907853269984665640564039457584007913129639935⟩,
    none⟩

/-- The sample keeper, except that no order can be fetched. -/
def missingKeeper : Keeper :=
  { sampleKeeper with
    getAskOrders := fun _ _ _ _ => ([], some (.new "ask orders not found"))
    getBidOrders := fun _ _ _ _ => ([], some (.new "bid orders not found")) }

/-- The sample keeper with a bid-order fetcher that uses its last argument: the fetch fails
when one of the fetched bids has that address as buyer. -/
def selfTradeKeeper : Keeper :=
  { sampleKeeper with
    getBidOrders := fun store _ ids seller =>
      if (ids.filterMap store.orders).any
          (fun o => match o.GetBidOrder with
            | some b => decide (b.Buyer = seller)
            | none => false) then
        ([], some (.new "bid order has the seller as buyer"))
      else (ids.filterMap store.orders, none) }

/-- The request of X, the buyer of B1, to fill B1 and B2 as a seller. -/
def selfFillBids : MsgFillBidsRequest := ⟨"X", 1, [⟨"A", 15⟩], [1, 2], none, none⟩

/-- The sample keeper in a market where every ratio-fee calculation fails. -/
def badRatioKeeper : Keeper :=
  { sampleKeeper with
    calculateSellerSettlementRatioFee := fun _ _ _ => (none, some (.new "no ratio found")) }

/-- The sample keeper, except that no order can be written to the store. -/
def readOnlyKeeper : Keeper :=
  { sampleKeeper with setOrderInStore := fun _ _ => some (.new "store is read-only") }

end Exchange

/-!
# Store loaders of upgrades (`app/upgrades.go`)

The `upgrades` table and `GetUpgradeStoreLoader`. The handlers of the table are not modelled,
only whether an entry defines one; the log lines written by `GetUpgradeStoreLoader` are not
modelled. The module names are constants of other packages and are parameters here.
-/

namespace App

/-- A store rename, `storetypes.StoreRename`. -/
structure StoreRename where
  OldKey : String
  NewKey : String
  deriving DecidableEq, Repr

/-- Source structure `appUpgrade`: the modules added, deleted and renamed during an upgrade,
and whether a handler is defined. -/
structure appUpgrade where
  Added : List String
  Deleted : List String
  Renamed : List StoreRename
  Handler : Bool
  deriving DecidableEq, Repr

/-- The module names used by the `upgrades` table, constants of the module packages. -/
structure ModuleNames where
  icq : String
  oracle : String
  ibchooks : String
  hold : String
  exchange : String
  ibcratelimit : String
  crisis : String
  deriving DecidableEq, Repr

/-- Source table `upgrades`, entries in source order. -/
def upgrades (n : ModuleNames) : List (String × appUpgrade) :=
  [("saffron-rc1", ⟨[n.icq, n.oracle, n.ibchooks, n.hold, n.exchange], [], [], true⟩),
    ("saffron-rc2", ⟨[], [], [], true⟩),
    ("saffron-rc3", ⟨[], [], [], true⟩),
    ("saffron", ⟨[n.icq, n.oracle, n.ibchooks, n.hold, n.exchange], [], [], true⟩),
    ("tourmaline-rc1", ⟨[n.ibcratelimit], [], [], true⟩),
    ("tourmaline-rc2", ⟨[], [], [], false⟩),
    ("tourmaline-rc3", ⟨[], [], [], true⟩),
    ("tourmaline", ⟨[n.ibcratelimit], [], [], true⟩),
    ("umber-rc1", ⟨[n.crisis], [], [], true⟩),
    ("umber", ⟨[n.crisis], [], [], true⟩)]

/-- An upgrade plan, `upgradetypes.Plan`: its name and height. -/
structure Plan where
  Name : String
  Height : Int
  deriving DecidableEq, Repr

/-- The store changes of an upgrade, `storetypes.StoreUpgrades`. -/
structure StoreUpgrades where
  Added : List String
  Renamed : List StoreRename
  Deleted : List String
  deriving DecidableEq, Repr

/-- The store loader returned by the library function `upgradetypes.UpgradeStoreLoader`,
identified by the height and the store upgrades it was built from. -/
structure StoreLoader where
  upgradeHeight : Int
  storeUpgrades : StoreUpgrades
  deriving DecidableEq, Repr

/-- The library function `upgradetypes.UpgradeStoreLoader`. -/
def UpgradeStoreLoader (upgradeHeight : Int) (storeUpgrades : StoreUpgrades) : StoreLoader :=
  ⟨upgradeHeight, storeUpgrades⟩

/-- Source function `GetUpgradeStoreLoader`: a store loader for use in an upgrade; nil (`none`)
if no upgrade info is found or the upgrade does not need a store loader. -/
def GetUpgradeStoreLoader (n : ModuleNames) (info : Plan) : Option StoreLoader :=
  match (upgrades n).lookup info.Name with
  | none => none
  | some upgrade =>
    if upgrade.Renamed.length = 0 ∧ upgrade.Deleted.length = 0 ∧ upgrade.Added.length = 0 then
      none
    else
      some (UpgradeStoreLoader info.Height ⟨upgrade.Added, upgrade.Renamed, upgrade.Deleted⟩)

/-- Module names for the examples. -/
def sampleNames : ModuleNames :=
  ⟨"interchainquery", "oracle", "ibchooks", "hold", "exchange", "ratelimitedibc", "crisis"⟩

end App

/-!
# The rate-limit middleware (`x/ibcratelimit/ibc_middleware.go`)

`ValidateReceiverAddress`, `RevertSentPacket`, `OnTimeoutPacket` and `SendPacket`. The SDK
context is observed through the sequence of calls made to the collaborators of the middleware
(the wrapped channel and app, the contract functions, the event manager); the outcome of a
collaborator is a function of the context at the time of the call and of the arguments. A Go
string or byte slice is a Lean string and `len` is its size in bytes.
-/

namespace IBCRateLimit

/-- A client height, `clienttypes.Height`. -/
structure Height where
  RevisionNumber : Nat
  RevisionHeight : Nat
  deriving DecidableEq, Repr

/-- A channel packet, `channeltypes.Packet`, with the fields of `channeltypes.NewPacket`. -/
structure Packet where
  Data : String
  Sequence : Nat
  SourcePort : String
  SourceChannel : String
  DestinationPort : String
  DestinationChannel : String
  TimeoutHeight : Height
  TimeoutTimestamp : Nat
  deriving DecidableEq, Repr

/-- The library constructor `channeltypes.NewPacket`. -/
def NewPacket (data : String) (sequence : Nat) (sourcePort sourceChannel destinationPort
    destinationChannel : String) (timeoutHeight : Height) (timeoutTimestamp : Nat) : Packet :=
  ⟨data, sequence, sourcePort, sourceChannel, destinationPort, destinationChannel,
    timeoutHeight, timeoutTimestamp⟩

/-- The data of a fungible token packet, `transfertypes.FungibleTokenPacketData`. -/
structure FungibleTokenPacketData where
  Denom : String
  Amount : String
  Sender : String
  Receiver : String
  Memo : String
  deriving DecidableEq, Repr

/-- A Go error of the middleware: an error reported by a collaborator, the registered error
`sdkerrors.ErrInvalidAddress`, and `errorsmod.Wrap`/`Wrapf` of an error with a description. -/
inductive Error where
  | reported (text : String)
  | ErrInvalidAddress
  | Wrap (cause : Error) (description : String)
  deriving DecidableEq, Repr

/-- The bad-revert event of the middleware (`types.EventBadRevert`) with its failure type and
packet data attributes. -/
structure Event where
  failureType : String
  packet : String
  deriving DecidableEq, Repr

/-- A call to a collaborator of the middleware. -/
inductive Call where
  | channelSendPacket (chanCap : Nat) (sourcePort sourceChannel : String)
      (timeoutHeight : Height) (timeoutTimestamp : Nat) (data : String)
  | appOnTimeoutPacket (packet : Packet) (relayer : String)
  | CheckAndUpdateRateLimits (msgType contract : String) (packet : Packet)
  | UndoSendRateLimit (contract : String) (packet : Packet)
  | EmitEvent (event : Event)
  deriving DecidableEq, Repr

/-- The SDK context, observed through the collaborator calls made so far, oldest first. -/
structure Context where
  calls : List Call
  deriving DecidableEq, Repr

/-- Appends a collaborator call to the context. -/
def Context.record (ctx : Context) (c : Call) : Context := ⟨ctx.calls ++ [c]⟩

/-- The collaborators of `IBCMiddleware`: the configured contract address
(`im.keeper.GetContractAddress`), the wrapped channel and app, and the contract functions
`CheckAndUpdateRateLimits` and `UndoSendRateLimit` of the package. -/
structure IBCMiddleware where
  GetContractAddress : Context → String
  channelSendPacket : Context → Nat → String → String → Height → Nat → String →
    Nat × Option Error
  appOnTimeoutPacket : Context → Packet → String → Option Error
  CheckAndUpdateRateLimits : Context → String → String → Packet → Option Error
  UndoSendRateLimit : Context → String → Packet → Option Error

/-- Source function `ValidateReceiverAddress`; `unmarshal` is `json.Unmarshal` into a
`FungibleTokenPacketData`. -/
def ValidateReceiverAddress (unmarshal : String → Except Error FungibleTokenPacketData)
    (packet : Packet) : Option Error :=
  match unmarshal packet.Data with
  | .error err => some err
  | .ok packetData =>
    if packetData.Receiver.utf8ByteSize ≥ 4096 then
      some (.Wrap .ErrInvalidAddress
        "IBC Receiver address too long. Max supported length is 4096")
    else none

/-- Source function `IBCMiddleware.RevertSentPacket`: notifies the contract that a sent packet
was not properly received. -/
def RevertSentPacket (im : IBCMiddleware) (ctx : Context) (packet : Packet) :
    Option Error × Context :=
  if im.GetContractAddress ctx = "" then (none, ctx)
  else
    (im.UndoSendRateLimit ctx (im.GetContractAddress ctx) packet,
      ctx.record (.UndoSendRateLimit (im.GetContractAddress ctx) packet))

/-- Source function `IBCMiddleware.OnTimeoutPacket`. -/
def OnTimeoutPacket (im : IBCMiddleware) (ctx : Context) (packet : Packet) (relayer : String) :
    Option Error × Context :=
  let reverted := RevertSentPacket im ctx packet
  let ctx1 :=
    match reverted.1 with
    | some _ => reverted.2.record (.EmitEvent ⟨"timeout", packet.Data⟩)
    | none => reverted.2
  (im.appOnTimeoutPacket ctx1 packet relayer, ctx1.record (.appOnTimeoutPacket packet relayer))

/-- Source function `IBCMiddleware.SendPacket`: called when sending packets. -/
def SendPacket (im : IBCMiddleware) (ctx : Context) (chanCap : Nat)
    (sourcePort sourceChannel : String) (timeoutHeight : Height) (timeoutTimestamp : Nat)
    (data : String) : (Nat × Option Error) × Context :=
  if im.GetContractAddress ctx = "" then
    (im.channelSendPacket ctx chanCap sourcePort sourceChannel timeoutHeight timeoutTimestamp
        data,
      ctx.record (.channelSendPacket chanCap sourcePort sourceChannel timeoutHeight
        timeoutTimestamp data))
  else
    let packet := NewPacket data 0 sourcePort sourceChannel "" "" timeoutHeight timeoutTimestamp
    let ctx1 := ctx.record
      (.CheckAndUpdateRateLimits "send_packet" (im.GetContractAddress ctx) packet)
    match im.CheckAndUpdateRateLimits ctx "send_packet" (im.GetContractAddress ctx) packet with
    | some err =>
      ((0, some (.Wrap err "rate limit SendPacket failed to authorize transfer")), ctx1)
    | none =>
      (im.channelSendPacket ctx1 chanCap sourcePort sourceChannel timeoutHeight
          timeoutTimestamp data,
        ctx1.record (.channelSendPacket chanCap sourcePort sourceChannel timeoutHeight
          timeoutTimestamp data))

/-- Whether a call is the `OnTimeoutPacket` of the wrapped app. -/
def Call.isAppTimeout : Call → Bool
  | .appOnTimeoutPacket _ _ => true
  | _ => false

/-- Whether a call is the `SendPacket` of the wrapped channel. -/
def Call.isChannelSend : Call → Bool
  | .channelSendPacket _ _ _ _ _ _ => true
  | _ => false

/-- An unmarshaller for the examples: the data of the packet is the receiver. -/
def receiverIsData (data : String) : Except Error FungibleTokenPacketData :=
  .ok ⟨"nhash", "1", "sender", data, ""⟩

/-- A packet for the examples with the given data. -/
def packetOf (data : String) : Packet := ⟨data, 1, "transfer", "channel-0", "transfer",
  "channel-1", ⟨0, 0⟩, 0⟩

/-- A middleware for the examples: the contract `contract` is configured, the channel and the
app succeed, and the contract refuses everything. -/
def refusingMiddleware (contract : String) : IBCMiddleware where
  GetContractAddress := fun _ => contract
  channelSendPacket := fun _ _ _ _ _ _ _ => (7, none)
  appOnTimeoutPacket := fun _ _ _ => none
  CheckAndUpdateRateLimits := fun _ _ _ _ => some (.reported "rate limit exceeded")
  UndoSendRateLimit := fun _ _ _ => some (.reported "contract error")

/-- A receiver address of 4096 bytes. -/
def longReceiver : String := String.mk (List.replicate 4096 'a')

/-- A receiver address of 4095 bytes. -/
def fittingReceiver : String := String.mk (List.replicate 4095 'a')

/-- The context before any call. -/
def emptyContext : Context := ⟨[]⟩
end IBCRateLimit

/-!
# The bypass flag of the sanction module (`x/sanction`)

Only the tests of `WithBypass`, `WithoutBypass` and `HasBypass` are among the sources
(`send_restriction_test.go`); the functions are modelled from what the tests and their names
say, on a context that carries values by key.
-/

namespace Sanction

/-- A value stored in a context. -/
inductive ContextValue where
  | bool (b : Bool)
  | other (tag : String)
  deriving DecidableEq, Repr

/-- The SDK context as far as its values by key go (`ctx.Value(key)`). -/
structure Context where
  Value : String → Option ContextValue

/-- The library constructor `sdk.NewContext`: a context without values. -/
def NewContext : Context := ⟨fun _ => none⟩

/-- The library method `ctx.WithValue(key, value)`: a copy of the context with the value set. -/
def Context.WithValue (ctx : Context) (key : String) (value : ContextValue) : Context :=
  ⟨fun k => if k = key then some value else ctx.Value k⟩

/-- Modelled from the spec: `WithBypass` of x/sanction (`send_restriction.go`, not among the
sources; the specification is silent on it and the tests of `send_restriction_test.go` are its
description): a copy of the context that has the bypass, the value under `bypassKey` being
`true`. -/
def WithBypass (bypassKey : String) (ctx : Context) : Context :=
  ctx.WithValue bypassKey (.bool true)

/-- Modelled from the spec: `WithoutBypass` of x/sanction (`send_restriction.go`, not among the
sources; described by its tests): a copy of the context that does not have the bypass, the
value under `bypassKey` being `false`. -/
def WithoutBypass (bypassKey : String) (ctx : Context) : Context :=
  ctx.WithValue bypassKey (.bool false)

/-- Modelled from the spec: `HasBypass` of x/sanction (`send_restriction.go`, not among the
sources; described by its tests): whether the context has the bypass, that is, whether the
value under `bypassKey` is the boolean `true`. -/
def HasBypass (bypassKey : String) (ctx : Context) : Bool :=
  match ctx.Value bypassKey with
  | some (.bool b) => b
  | _ => false

end Sanction

namespace Exchange

/-! ## Collaborator batches -/

theorem attemptFailures_nil {α : Type} (outcome : World → α → Option Err) (call : α → Call)
    (w : World) : attemptFailures outcome call w [] = [] := rfl

theorem attemptFailures_cons {α : Type} (outcome : World → α → Option Err) (call : α → Call)
    (w : World) (x : α) (xs : List α) :
    attemptFailures outcome call w (x :: xs) =
      (outcome w x).toList ++ attemptFailures outcome call (w.record (call x)) xs := by
  unfold attemptFailures
  rw [List.enum_cons', List.filterMap_cons]
  have h0 : (⟨w.store, w.calls ++ List.map call (List.take 0 (x :: xs))⟩ : World) = w := by
    cases w; simp
  have hrest : List.filterMap
      (fun p : Nat × α => outcome ⟨w.store, w.calls ++ List.map call (List.take p.1 (x :: xs))⟩ p.2)
      (List.map (Prod.map (fun n => n + 1) id) xs.enum) =
      List.filterMap
        (fun p : Nat × α => outcome ⟨(w.record (call x)).store,
          (w.record (call x)).calls ++ List.map call (List.take p.1 xs)⟩ p.2) xs.enum := by
    rw [List.filterMap_map]
    apply List.filterMap_congr
    intro p _
    simp [World.record, List.append_assoc]
  simp only [h0, hrest]
  cases outcome w x <;> simp

theorem foldl_attempts {α : Type} (outcome : World → α → Option Err) (call : α → Call)
    (step : List Err × World → α → List Err × World)
    (hstep : ∀ acc x, step acc x = (acc.1 ++ (outcome acc.2 x).toList, acc.2.record (call x)))
    (xs : List α) (acc : List Err × World) :
    xs.foldl step acc =
      (acc.1 ++ attemptFailures outcome call acc.2 xs,
        ⟨acc.2.store, acc.2.calls ++ xs.map call⟩) := by
  induction xs generalizing acc with
  | nil =>
    obtain ⟨errs, w⟩ := acc
    cases w
    simp [attemptFailures_nil]
  | cons x xs ih =>
    rw [List.foldl_cons, ih, hstep, attemptFailures_cons]
    simp [World.record, List.append_assoc]

theorem releaseHolds_eq (k : Keeper) (w : World) (settlement : Settlement) :
    releaseHolds k w settlement =
      (releaseFailures k w settlement, afterRelease w settlement) := by
  have h := foldl_attempts k.releaseHoldOnOrder Call.releaseHoldOnOrder (releaseStep k)
    (fun _ _ => rfl) (releaseTargets settlement) ([], w)
  simp only [List.nil_append] at h
  rw [releaseFailures, afterRelease, ← h]
  unfold releaseHolds releaseTargets
  cases settlement.PartialOrderFilled <;> simp [List.foldl_append]

theorem transferAndCollect_eq (k : Keeper) (w : World) (marketID : Nat)
    (settlement : Settlement) :
    transferAndCollect k (afterRelease w settlement) marketID settlement =
      (transferFailures k w settlement ++ (feeFailure k w marketID settlement).toList,
        afterFees w marketID settlement) := by
  have h := foldl_attempts (fun w1 (t : Transfer) => k.DoTransfer w1 t.Inputs t.Outputs)
    transferCall (transferStep k) (fun _ _ => rfl) settlement.Transfers
    ([], afterRelease w settlement)
  simp only [List.nil_append] at h
  unfold transferAndCollect collectFeesStep
  rw [h]
  rfl

/-- When a hold release fails, `closeSettlement` stops after the release phase. -/
theorem closeSettlement_of_release_failed (k : Keeper) (w : World) (marketID : Nat)
    (settlement : Settlement) (e : Err) (es : List Err)
    (h : releaseFailures k w settlement = e :: es) :
    closeSettlement k w marketID settlement =
      (some (Err.join (e :: es)), afterRelease w settlement) := by
  unfold closeSettlement
  simp only [releaseHolds_eq, h]

/-- When the releases succeed and a transfer or the fee collection fails, `closeSettlement`
stops after the fee collection. -/
theorem closeSettlement_of_move_failed (k : Keeper) (w : World) (marketID : Nat)
    (settlement : Settlement) (e : Err) (es : List Err)
    (h1 : releaseFailures k w settlement = [])
    (h2 : transferFailures k w settlement ++ (feeFailure k w marketID settlement).toList =
      e :: es) :
    closeSettlement k w marketID settlement =
      (some (Err.join (e :: es)), afterFees w marketID settlement) := by
  unfold closeSettlement
  simp only [releaseHolds_eq, h1, transferAndCollect_eq, h2]

/-- When the releases, the transfers and the fee collection succeed, `closeSettlement` goes on
to the order store. -/
theorem closeSettlement_of_moved (k : Keeper) (w : World) (marketID : Nat)
    (settlement : Settlement)
    (h1 : releaseFailures k w settlement = [])
    (h2 : transferFailures k w settlement = [])
    (h3 : feeFailure k w marketID settlement = none) :
    closeSettlement k w marketID settlement =
      match settlement.PartialOrderLeft with
      | some left =>
        match setOrderInStore k (afterFees w marketID settlement) left with
        | (some err, w1) =>
          (some (.wrapf "could not update partial %s order %d: %w"
            [.str (match left.body with | .askOrder _ => "ask" | .bidOrder _ => "bid"),
              .num left.OrderId] err), w1)
        | (none, w1) => (none, deleteAndEmit w1 settlement)
      | none => (none, deleteAndEmit (afterFees w marketID settlement) settlement) := by
  unfold closeSettlement
  simp only [releaseHolds_eq, h1, transferAndCollect_eq, h2, h3, Option.toList, List.append_nil]

/-! ## The order store phase -/

theorem deleteLoop_calls (fs : List FilledOrder) (w : World) :
    (fs.foldl (fun w1 f => deleteAndDeIndexOrder w1 f.GetOriginalOrder) w).calls =
      w.calls ++ fs.map (fun f => Call.deleteAndDeIndexOrder f.GetOriginalOrder) := by
  induction fs generalizing w with
  | nil => simp
  | cons f fs ih =>
    rw [List.foldl_cons, ih]
    simp [deleteAndDeIndexOrder, World.record, List.append_assoc]

theorem deleteLoop_orders (fs : List FilledOrder) (w : World) (id : Nat) :
    (fs.foldl (fun w1 f => deleteAndDeIndexOrder w1 f.GetOriginalOrder) w).store.orders id =
      if id ∈ fs.map (fun f => f.order.OrderId) then none else w.store.orders id := by
  induction fs generalizing w with
  | nil => simp
  | cons f fs ih =>
    rw [List.foldl_cons, ih]
    by_cases h1 : id ∈ fs.map (fun f => f.order.OrderId)
    · simp [h1]
    · by_cases h2 : id = f.order.OrderId
      · simp [h2, deleteAndDeIndexOrder, World.record, KVStore.delete,
          FilledOrder.GetOriginalOrder]
      · have h3 : ¬ id ∈ List.map (fun f => f.order.OrderId) (f :: fs) := by
          simp only [List.map_cons, List.mem_cons, not_or]
          exact ⟨h2, h1⟩
        simp only [h1, h3, if_false]
        simp [deleteAndDeIndexOrder, World.record, KVStore.delete,
          FilledOrder.GetOriginalOrder, h2]

theorem deleteAndEmit_calls (w : World) (settlement : Settlement) :
    (deleteAndEmit w settlement).calls =
      w.calls ++ settlement.FullyFilledOrders.map
        (fun f => Call.deleteAndDeIndexOrder f.GetOriginalOrder) ++
        [Call.emitEvents (eventBatch settlement)] := by
  unfold deleteAndEmit emitEvents World.record
  simp only [deleteLoop_calls]
  have : settlementEvents settlement = eventBatch settlement := by
    unfold settlementEvents eventBatch NewEventOrderFilled NewEventOrderPartiallyFilled
    cases settlement.PartialOrderFilled <;> rfl
  rw [this]

theorem deleteAndEmit_orders (w : World) (settlement : Settlement) (id : Nat) :
    (deleteAndEmit w settlement).store.orders id =
      if id ∈ filledIds settlement then none else w.store.orders id := by
  unfold deleteAndEmit emitEvents World.record filledIds
  simp only [deleteLoop_orders]

/-- What a nil return of `closeSettlement` says about its collaborators: nothing failed. -/
theorem closeSettlement_nil_cases (k : Keeper) (w : World) (marketID : Nat)
    (settlement : Settlement) (h : (closeSettlement k w marketID settlement).1 = none) :
    releaseFailures k w settlement = [] ∧ transferFailures k w settlement = [] ∧
      feeFailure k w marketID settlement = none ∧
      ∀ left, settlement.PartialOrderLeft = some left → k.setOrderInStore w.store left = none := by
  rcases hr : releaseFailures k w settlement with _ | ⟨e, es⟩
  · rcases hm : transferFailures k w settlement ++
        (feeFailure k w marketID settlement).toList with _ | ⟨e, es⟩
    · obtain ⟨ht, hf⟩ := List.append_eq_nil.mp hm
      have hf2 : feeFailure k w marketID settlement = none := by
        cases hfe : feeFailure k w marketID settlement with
        | none => rfl
        | some e => rw [hfe] at hf; simp at hf
      refine ⟨rfl, ht, hf2, ?_⟩
      intro left hleft
      rw [closeSettlement_of_moved k w marketID settlement hr ht hf2] at h
      simp only [hleft, setOrderInStore] at h
      have hstore : (afterFees w marketID settlement).store = w.store := rfl
      rw [hstore] at h
      cases hs : k.setOrderInStore w.store left with
      | none => rfl
      | some err => rw [hs] at h; simp at h
    · rw [closeSettlement_of_move_failed k w marketID settlement e es hr hm] at h
      simp at h
  · rw [closeSettlement_of_release_failed k w marketID settlement e es hr] at h
    simp at h

/-- The calls of a `closeSettlement` that returns nil. -/
theorem closeSettlement_nil_calls (k : Keeper) (w : World) (marketID : Nat)
    (settlement : Settlement) (h : (closeSettlement k w marketID settlement).1 = none) :
    (closeSettlement k w marketID settlement).2.calls =
      (afterFees w marketID settlement).calls ++ storeCalls settlement ++
        [Call.emitEvents (eventBatch settlement)] := by
  obtain ⟨h1, h2, h3, h4⟩ := closeSettlement_nil_cases k w marketID settlement h
  rw [closeSettlement_of_moved k w marketID settlement h1 h2 h3]
  unfold storeCalls
  cases hleft : settlement.PartialOrderLeft with
  | none => simp [deleteAndEmit_calls]
  | some left =>
    have hs := h4 left hleft
    have hstore : (afterFees w marketID settlement).store = w.store := rfl
    simp only [setOrderInStore, hstore, hs, deleteAndEmit_calls]
    simp [World.record, List.append_assoc]

/-- The order records after a `closeSettlement` that returns nil. -/
theorem closeSettlement_nil_orders (k : Keeper) (w : World) (marketID : Nat)
    (settlement : Settlement) (h : (closeSettlement k w marketID settlement).1 = none)
    (id : Nat) :
    (closeSettlement k w marketID settlement).2.store.orders id =
      if id ∈ filledIds settlement then none
      else match settlement.PartialOrderLeft with
        | some left => if id = left.OrderId then some left else w.store.orders id
        | none => w.store.orders id := by
  obtain ⟨h1, h2, h3, h4⟩ := closeSettlement_nil_cases k w marketID settlement h
  rw [closeSettlement_of_moved k w marketID settlement h1 h2 h3]
  cases hleft : settlement.PartialOrderLeft with
  | none =>
    simp only [deleteAndEmit_orders]
    rfl
  | some left =>
    have hs := h4 left hleft
    have hstore : (afterFees w marketID settlement).store = w.store := rfl
    simp only [setOrderInStore, hstore, hs, deleteAndEmit_orders]
    rfl

/-- The four ways in which `closeSettlement` ends: a hold release failed; a transfer or the fee
collection failed; the write of the remaining partial order failed; nothing failed. -/
theorem closeSettlement_cases (k : Keeper) (w : World) (marketID : Nat)
    (settlement : Settlement) :
    (∃ e es, releaseFailures k w settlement = e :: es ∧
      closeSettlement k w marketID settlement =
        (some (Err.join (e :: es)), afterRelease w settlement)) ∨
    (∃ e es, releaseFailures k w settlement = [] ∧
      transferFailures k w settlement ++ (feeFailure k w marketID settlement).toList = e :: es ∧
      closeSettlement k w marketID settlement =
        (some (Err.join (e :: es)), afterFees w marketID settlement)) ∨
    (∃ left err, releaseFailures k w settlement = [] ∧ transferFailures k w settlement = [] ∧
      feeFailure k w marketID settlement = none ∧ settlement.PartialOrderLeft = some left ∧
      (closeSettlement k w marketID settlement).1 = some err ∧
      (closeSettlement k w marketID settlement).2 =
        (afterFees w marketID settlement).record (.setOrderInStore left)) ∨
    (releaseFailures k w settlement = [] ∧ transferFailures k w settlement = [] ∧
      feeFailure k w marketID settlement = none ∧
      (closeSettlement k w marketID settlement).1 = none) := by
  rcases hr : releaseFailures k w settlement with _ | ⟨e, es⟩
  · rcases hm : transferFailures k w settlement ++
        (feeFailure k w marketID settlement).toList with _ | ⟨e, es⟩
    · obtain ⟨ht, hf⟩ := List.append_eq_nil.mp hm
      have hf2 : feeFailure k w marketID settlement = none := by
        cases hfe : feeFailure k w marketID settlement with
        | none => rfl
        | some e => rw [hfe] at hf; simp at hf
      have hc := closeSettlement_of_moved k w marketID settlement hr ht hf2
      cases hleft : settlement.PartialOrderLeft with
      | none =>
        right; right; right
        rw [hc]
        simp [hleft, ht, hf2]
      | some left =>
        cases hs : k.setOrderInStore (afterFees w marketID settlement).store left with
        | none =>
          right; right; right
          rw [hc]
          simp [hleft, ht, hf2, setOrderInStore, hs]
        | some err =>
          right; right; left
          rw [hc]
          simp [hleft, ht, hf2, setOrderInStore, hs]
    · right; left
      exact ⟨e, es, rfl, rfl, closeSettlement_of_move_failed k w marketID settlement e es hr hm⟩
  · left
    exact ⟨e, es, rfl, closeSettlement_of_release_failed k w marketID settlement e es hr⟩

theorem storeCalls_kind (settlement : Settlement) (c : Call) (h : c ∈ storeCalls settlement) :
    c.isOrderWrite = true := by
  unfold storeCalls at h
  rcases List.mem_append.mp h with h1 | h1
  · cases hleft : settlement.PartialOrderLeft with
    | none => rw [hleft] at h1; simp at h1
    | some left =>
      rw [hleft] at h1
      simp at h1
      rw [h1]; rfl
  · obtain ⟨f, _, hf⟩ := List.mem_map.mp h1
    rw [← hf]; rfl

/-- The calls of `closeSettlement`: only the releases when one of them failed; otherwise the
releases, the transfers and the fee collection, followed by order-store calls and events. -/
theorem closeSettlement_calls_shape (k : Keeper) (w : World) (marketID : Nat)
    (settlement : Settlement) :
    (releaseFailures k w settlement ≠ [] ∧
      (closeSettlement k w marketID settlement).2.calls = (afterRelease w settlement).calls) ∨
    (releaseFailures k w settlement = [] ∧
      ∃ tail, (closeSettlement k w marketID settlement).2.calls =
          (afterFees w marketID settlement).calls ++ tail ∧
        ∀ c ∈ tail, c.isOrderWrite = true ∨ c.isEmit = true) := by
  rcases closeSettlement_cases k w marketID settlement with
    ⟨e, es, hr, hc⟩ | ⟨e, es, hr, _, hc⟩ | ⟨left, err, hr, _, _, _, _, hc⟩ | ⟨hr, _, _, hc⟩
  · left
    rw [hr, hc]
    exact ⟨List.cons_ne_nil _ _, rfl⟩
  · right
    refine ⟨hr, [], ?_, ?_⟩
    · rw [hc]; simp
    · intro c h; simp at h
  · right
    refine ⟨hr, [Call.setOrderInStore left], ?_, ?_⟩
    · rw [hc]; rfl
    · intro c h
      simp at h
      rw [h]; left; rfl
  · right
    refine ⟨hr, storeCalls settlement ++ [Call.emitEvents (eventBatch settlement)], ?_, ?_⟩
    · rw [closeSettlement_nil_calls k w marketID settlement hc, List.append_assoc]
    · intro c h
      rcases List.mem_append.mp h with h1 | h1
      · left; exact storeCalls_kind settlement c h1
      · simp at h1
        rw [h1]; right; rfl

/-- A `closeSettlement` that returns an error has left the order store as it was. -/
theorem closeSettlement_store_of_error (k : Keeper) (w : World) (marketID : Nat)
    (settlement : Settlement) (h : (closeSettlement k w marketID settlement).1 ≠ none) :
    (closeSettlement k w marketID settlement).2.store = w.store := by
  rcases closeSettlement_cases k w marketID settlement with
    ⟨e, es, _, hc⟩ | ⟨e, es, _, _, hc⟩ | ⟨left, err, _, _, _, _, _, hc⟩ | ⟨_, _, _, hc⟩
  · rw [hc]; rfl
  · rw [hc]; rfl
  · rw [hc]; rfl
  · exact absurd hc h

/-- The calls of `closeSettlement` start with one release per release target, and no release
is made afterwards. -/
theorem closeSettlement_calls_split (k : Keeper) (w : World) (marketID : Nat)
    (settlement : Settlement) :
    ∃ rest, (closeSettlement k w marketID settlement).2.calls =
        w.calls ++ (settlement.FullyFilledOrders ++
          settlement.PartialOrderFilled.toList).map Call.releaseHoldOnOrder ++ rest ∧
      ∀ c ∈ rest, c.isRelease = false := by
  rcases closeSettlement_calls_shape k w marketID settlement with ⟨_, hc⟩ | ⟨_, tail, hc, ht⟩
  · exact ⟨[], by rw [hc]; simp [afterRelease, releaseTargets], by simp⟩
  · refine ⟨settlement.Transfers.map transferCall ++
      [Call.CollectFees marketID settlement.FeeInputs] ++ tail, ?_, ?_⟩
    · rw [hc]
      simp [afterFees, afterTransfers, afterRelease, releaseTargets, World.record,
        List.append_assoc]
    · intro c hcm
      rcases List.mem_append.mp hcm with h1 | h1
      · rcases List.mem_append.mp h1 with h2 | h2
        · obtain ⟨t, _, ht2⟩ := List.mem_map.mp h2
          rw [← ht2]; rfl
        · simp at h2
          rw [h2]; rfl
      · rcases ht c h1 with h2 | h2 <;> cases c <;> simp_all [Call.isOrderWrite, Call.isEmit,
          Call.isRelease]

/-- A sequence of calls made of releases followed by calls that are not releases has no
transfer before a release. -/
theorem noTransferBeforeRelease_of_split (releases rest : List Call)
    (h1 : ∀ c ∈ releases, c.isTransfer = false) (h2 : ∀ c ∈ rest, c.isRelease = false) :
    NoTransferBeforeRelease (releases ++ rest) := by
  unfold NoTransferBeforeRelease
  rw [List.pairwise_append]
  refine ⟨?_, ?_, ?_⟩
  · apply List.pairwise_of_forall_mem_list
    intro a ha b _ hab
    rw [h1 a ha] at hab
    exact Bool.false_ne_true hab.1
  · apply List.pairwise_of_forall_mem_list
    intro a _ b hb hab
    rw [h2 b hb] at hab
    exact Bool.false_ne_true hab.2
  · intro a ha b _ hab
    rw [h1 a ha] at hab
    exact Bool.false_ne_true hab.1

/-- The calls of `closeSettlement` never have a transfer before a release. -/
theorem closeSettlement_trace (k : Keeper) (w : World) (marketID : Nat)
    (settlement : Settlement) :
    ∃ trace, (closeSettlement k w marketID settlement).2.calls = w.calls ++ trace ∧
      NoTransferBeforeRelease trace := by
  obtain ⟨rest, hc, hrest⟩ := closeSettlement_calls_split k w marketID settlement
  refine ⟨(settlement.FullyFilledOrders ++
    settlement.PartialOrderFilled.toList).map Call.releaseHoldOnOrder ++ rest, ?_, ?_⟩
  · rw [hc, List.append_assoc]
  · apply noTransferBeforeRelease_of_split _ _ _ hrest
    intro c hcm
    obtain ⟨o, _, ho⟩ := List.mem_map.mp hcm
    rw [← ho]; rfl

/-- The calls of the end of `FillBids` and `FillAsks` never have a transfer before a
release. -/
theorem closeAndCollectCreationFee_trace (k : Keeper) (w : World) (marketID : Nat)
    (payer : String) (creationFee : Option Coin) (settlement : Settlement) :
    ∃ trace, (closeAndCollectCreationFee k w marketID payer creationFee settlement).2.calls =
        w.calls ++ trace ∧ NoTransferBeforeRelease trace := by
  obtain ⟨rest, hc, hrest⟩ := closeSettlement_calls_split k w marketID settlement
  have hrel : ∀ c ∈ (settlement.FullyFilledOrders ++
      settlement.PartialOrderFilled.toList).map Call.releaseHoldOnOrder,
      c.isTransfer = false := by
    intro c hcm
    obtain ⟨o, _, ho⟩ := List.mem_map.mp hcm
    rw [← ho]; rfl
  unfold closeAndCollectCreationFee
  rcases hcs : closeSettlement k w marketID settlement with ⟨res, w1⟩
  rw [hcs] at hc
  simp only at hc
  have hplain : ∃ trace, w1.calls = w.calls ++ trace ∧ NoTransferBeforeRelease trace :=
    ⟨_, by rw [hc, List.append_assoc], noTransferBeforeRelease_of_split _ _ hrel hrest⟩
  have hfee : ∀ fee : Coin, ∃ trace,
      (w1.record (.CollectFee marketID payer [fee])).calls = w.calls ++ trace ∧
        NoTransferBeforeRelease trace := by
    intro fee
    refine ⟨(settlement.FullyFilledOrders ++
      settlement.PartialOrderFilled.toList).map Call.releaseHoldOnOrder ++
      (rest ++ [Call.CollectFee marketID payer [fee]]), ?_, ?_⟩
    · simp [World.record, hc, List.append_assoc]
    · apply noTransferBeforeRelease_of_split _ _ hrel
      intro c hcm
      rcases List.mem_append.mp hcm with h1 | h1
      · exact hrest c h1
      · simp at h1
        rw [h1]; rfl
  cases res with
  | some err => exact hplain
  | none =>
    cases creationFee with
    | none => exact hplain
    | some fee =>
      simp only
      cases k.CollectFee w1 marketID payer [fee] with
      | none => exact hfee fee
      | some err => exact hfee fee

/-- A `FillBids` that returns either left the world as it was or ended with closing a
settlement and collecting the creation fee. -/
theorem FillBids_result (k : Keeper) (w : World) (msg : MsgFillBidsRequest)
    (r : Option Err × World) (h : FillBids k w msg = some r) :
    r.2 = w ∨ ∃ settlement, r = closeAndCollectCreationFee k w msg.MarketId msg.Seller
      msg.AskOrderCreationFee settlement := by
  unfold FillBids at h
  repeat' split at h
  all_goals first
    | (simp only [Option.some.injEq] at h; subst h; left; rfl)
    | (simp only [Option.some.injEq] at h; subst h; right; exact ⟨_, rfl⟩)
    | simp at h

/-- A `FillAsks` that returns either left the world as it was or ended with closing a
settlement and collecting the creation fee. -/
theorem FillAsks_result (k : Keeper) (w : World) (msg : MsgFillAsksRequest)
    (r : Option Err × World) (h : FillAsks k w msg = some r) :
    r.2 = w ∨ ∃ settlement, r = closeAndCollectCreationFee k w msg.MarketId msg.Buyer
      msg.BidOrderCreationFee settlement := by
  unfold FillAsks at h
  repeat' split at h
  all_goals first
    | (simp only [Option.some.injEq] at h; subst h; left; rfl)
    | (simp only [Option.some.injEq] at h; subst h; right; exact ⟨_, rfl⟩)
    | simp at h

/-- A `SettleOrders` either leaves the world as it was or is the closing of a settlement. -/
theorem SettleOrders_result (k : Keeper) (w : World) (marketID : Nat)
    (askOrderIDs bidOrderIds : List Nat) (expectPartial : Bool) :
    (SettleOrders k w marketID askOrderIDs bidOrderIds expectPartial).2 = w ∨
      ∃ settlement, SettleOrders k w marketID askOrderIDs bidOrderIds expectPartial =
        closeSettlement k w marketID settlement := by
  unfold SettleOrders
  dsimp only
  repeat' split
  all_goals first
    | (left; rfl)
    | (right; exact ⟨_, rfl⟩)

/-- Every `closeSettlement` makes at least one collaborator call. -/
theorem closeSettlement_makes_call (k : Keeper) (w : World) (marketID : Nat)
    (settlement : Settlement) :
    (closeSettlement k w marketID settlement).2.calls ≠ w.calls := by
  intro heq
  rcases closeSettlement_calls_shape k w marketID settlement with ⟨hne, hc⟩ | ⟨_, tail, hc, _⟩
  · rw [hc] at heq
    have hlen := congrArg List.length heq
    simp only [afterRelease, List.length_append, List.length_map] at hlen
    have hnil : releaseTargets settlement = [] := List.length_eq_zero.mp (by omega)
    apply hne
    unfold releaseFailures
    rw [hnil]
    rfl
  · rw [hc] at heq
    have hlen := congrArg List.length heq
    simp only [afterFees, afterTransfers, afterRelease, World.record, List.length_append,
      List.length_map, List.length_singleton] at hlen
    omega

/-! ## Claims on `closeSettlement` -/

/-- C4, as amended: in `closeSettlement`, when the hold releases all succeed, `CollectFees` is
called exactly once, right after the last transfer leg, whether or not a transfer leg failed;
when a transfer leg failed, `closeSettlement` returns the join of the transfer failures and of
the fee-collection failure, if any, and what does not start is the order-store phase: the calls
end with the fee collection and the store is unchanged. -/
theorem closeSettlement_collects_fees_after_transfers (k : Keeper) (w : World) (marketID : Nat)
    (settlement : Settlement) (hr : releaseFailures k w settlement = []) :
    (∃ tail, (closeSettlement k w marketID settlement).2.calls =
        w.calls ++ (releaseTargets settlement).map Call.releaseHoldOnOrder ++
          settlement.Transfers.map transferCall ++
          [Call.CollectFees marketID settlement.FeeInputs] ++ tail ∧
        ∀ c ∈ tail, c.isCollectFees = false) ∧
    (transferFailures k w settlement ≠ [] →
      closeSettlement k w marketID settlement =
        (some (Err.join (transferFailures k w settlement ++
            (feeFailure k w marketID settlement).toList)),
          ⟨w.store, w.calls ++ (releaseTargets settlement).map Call.releaseHoldOnOrder ++
            settlement.Transfers.map transferCall ++
            [Call.CollectFees marketID settlement.FeeInputs]⟩)) := by
  constructor
  · rcases closeSettlement_calls_shape k w marketID settlement with ⟨h, _⟩ | ⟨_, tail, hc, ht⟩
    · exact absurd hr h
    · refine ⟨tail, hc, ?_⟩
      intro c hcm
      rcases ht c hcm with h1 | h1 <;> cases c <;> simp_all [Call.isOrderWrite, Call.isEmit,
        Call.isCollectFees]
  · intro ht
    rcases hm : transferFailures k w settlement ++
        (feeFailure k w marketID settlement).toList with _ | ⟨e, es⟩
    · exact absurd (List.append_eq_nil.mp hm).1 ht
    · rw [closeSettlement_of_move_failed k w marketID settlement e es hr hm]
      rfl

/-- C4, witness: with a bank that refuses every transfer, the fees of the sample settlement are
still collected after both legs failed, and both failures are returned. -/
theorem closeSettlement_collects_fees_after_transfers_witness :
    releaseFailures brokeKeeper sampleWorld fillSettlement = [] ∧
    transferFailures brokeKeeper sampleWorld fillSettlement ≠ [] ∧
    closeSettlement brokeKeeper sampleWorld 1 fillSettlement =
      (some (Err.join (transferFailures brokeKeeper sampleWorld fillSettlement ++
          (feeFailure brokeKeeper sampleWorld 1 fillSettlement).toList)),
        ⟨sampleWorld.store,
          sampleWorld.calls ++ (releaseTargets fillSettlement).map Call.releaseHoldOnOrder ++
            fillSettlement.Transfers.map transferCall ++
            [Call.CollectFees 1 fillSettlement.FeeInputs]⟩) :=
  have ht : transferFailures brokeKeeper sampleWorld fillSettlement ≠ [] := by
    rw [show transferFailures brokeKeeper sampleWorld fillSettlement =
      [Err.new "insufficient funds", Err.new "insufficient funds"] from rfl]
    exact List.cons_ne_nil _ _
  ⟨rfl, ht,
    (closeSettlement_collects_fees_after_transfers brokeKeeper sampleWorld 1 fillSettlement
      rfl).2 ht⟩

/-- C4, counterexample to the claim as stated: the hold releases of the sample settlement all
succeed, both transfer legs fail, and `CollectFees` is called all the same. -/
theorem closeSettlement_fee_phase_not_skipped :
    releaseFailures brokeKeeper sampleWorld fillSettlement = [] ∧
    transferFailures brokeKeeper sampleWorld fillSettlement =
      [Err.new "insufficient funds", Err.new "insufficient funds"] ∧
    Call.CollectFees 1 fillSettlement.FeeInputs ∈
      (closeSettlement brokeKeeper sampleWorld 1 fillSettlement).2.calls :=
  ⟨rfl, rfl, by decide⟩

/-- C5: `closeSettlement` attempts a hold release once for every fully filled order and once
for the partially filled order when present, whatever the outcome of the earlier releases, and
makes no other release; if a release fails it returns the join of all the release failures, and
the releases are its only calls: no transfer, no fee collection, no order write or delete, no
event, and the store is unchanged. -/
theorem closeSettlement_releases_every_hold (k : Keeper) (w : World) (marketID : Nat)
    (settlement : Settlement) :
    (∃ rest, (closeSettlement k w marketID settlement).2.calls =
        w.calls ++ (settlement.FullyFilledOrders ++
          settlement.PartialOrderFilled.toList).map Call.releaseHoldOnOrder ++ rest ∧
        ∀ c ∈ rest, c.isRelease = false) ∧
    (releaseFailures k w settlement ≠ [] →
      closeSettlement k w marketID settlement =
        (some (Err.join (releaseFailures k w settlement)),
          ⟨w.store, w.calls ++ (settlement.FullyFilledOrders ++
            settlement.PartialOrderFilled.toList).map Call.releaseHoldOnOrder⟩)) := by
  constructor
  · exact closeSettlement_calls_split k w marketID settlement
  · intro hne
    rcases hr : releaseFailures k w settlement with _ | ⟨e, es⟩
    · exact absurd hr hne
    · rw [closeSettlement_of_release_failed k w marketID settlement e es hr]
      rfl

/-- C5, witness: the hold of B1 cannot be released, the release of B2 is attempted all the same,
and nothing else is done. -/
theorem closeSettlement_releases_every_hold_witness :
    releaseFailures heldKeeper sampleWorld fillSettlement ≠ [] ∧
    closeSettlement heldKeeper sampleWorld 1 fillSettlement =
      (some (Err.join (releaseFailures heldKeeper sampleWorld fillSettlement)),
        ⟨sampleWorld.store, sampleWorld.calls ++ (fillSettlement.FullyFilledOrders ++
          fillSettlement.PartialOrderFilled.toList).map Call.releaseHoldOnOrder⟩) :=
  have hne : releaseFailures heldKeeper sampleWorld fillSettlement ≠ [] := by
    rw [show releaseFailures heldKeeper sampleWorld fillSettlement =
      [Err.new "no hold to release"] from rfl]
    exact List.cons_ne_nil _ _
  ⟨hne, (closeSettlement_releases_every_hold heldKeeper sampleWorld 1 fillSettlement).2 hne⟩

/-- C7: `closeSettlement` writes or deletes an order record only if every hold release, every
transfer leg and the fee collection succeeded: if any of them fails, it returns an error, the
order store is exactly as on entry and none of its calls writes or deletes an order or emits
events; and when the releases succeed and a transfer leg or the fee collection fails, the
error is the join of the transfer failures and the fee-collection failure. -/
theorem closeSettlement_store_untouched_on_failure (k : Keeper) (w : World) (marketID : Nat)
    (settlement : Settlement) :
    ((releaseFailures k w settlement ≠ [] ∨ transferFailures k w settlement ≠ [] ∨
        feeFailure k w marketID settlement ≠ none) →
      ∃ err trace, closeSettlement k w marketID settlement =
          (some err, ⟨w.store, w.calls ++ trace⟩) ∧
        ∀ c ∈ trace, c.isOrderWrite = false ∧ c.isEmit = false) ∧
    (releaseFailures k w settlement = [] →
      (transferFailures k w settlement ≠ [] ∨ feeFailure k w marketID settlement ≠ none) →
      closeSettlement k w marketID settlement =
        (some (Err.join (transferFailures k w settlement ++
            (feeFailure k w marketID settlement).toList)),
          ⟨w.store, w.calls ++ (releaseTargets settlement).map Call.releaseHoldOnOrder ++
            settlement.Transfers.map transferCall ++
            [Call.CollectFees marketID settlement.FeeInputs]⟩)) := by
  have hmove : releaseFailures k w settlement = [] →
      (transferFailures k w settlement ≠ [] ∨ feeFailure k w marketID settlement ≠ none) →
      closeSettlement k w marketID settlement =
        (some (Err.join (transferFailures k w settlement ++
            (feeFailure k w marketID settlement).toList)),
          ⟨w.store, w.calls ++ (releaseTargets settlement).map Call.releaseHoldOnOrder ++
            settlement.Transfers.map transferCall ++
            [Call.CollectFees marketID settlement.FeeInputs]⟩) := by
    intro hr hfail
    rcases hm : transferFailures k w settlement ++
        (feeFailure k w marketID settlement).toList with _ | ⟨e, es⟩
    · obtain ⟨ht, hf⟩ := List.append_eq_nil.mp hm
      rcases hfail with h | h
      · exact absurd ht h
      · cases hfe : feeFailure k w marketID settlement with
        | none => exact absurd hfe h
        | some e => rw [hfe] at hf; simp at hf
    · rw [closeSettlement_of_move_failed k w marketID settlement e es hr hm]
      rfl
  refine ⟨?_, hmove⟩
  intro hfail
  rcases hr : releaseFailures k w settlement with _ | ⟨e, es⟩
  · have hfail2 : transferFailures k w settlement ≠ [] ∨
        feeFailure k w marketID settlement ≠ none := by
      rcases hfail with h | h
      · exact absurd hr h
      · exact h
    refine ⟨Err.join (transferFailures k w settlement ++
        (feeFailure k w marketID settlement).toList),
      (releaseTargets settlement).map Call.releaseHoldOnOrder ++
        settlement.Transfers.map transferCall ++
        [Call.CollectFees marketID settlement.FeeInputs], ?_, ?_⟩
    · rw [hmove hr hfail2]
      simp [List.append_assoc]
    · intro c hc
      rcases List.mem_append.mp hc with h1 | h1
      · rcases List.mem_append.mp h1 with h2 | h2
        · obtain ⟨o, _, ho⟩ := List.mem_map.mp h2
          rw [← ho]; exact ⟨rfl, rfl⟩
        · obtain ⟨t, _, ht2⟩ := List.mem_map.mp h2
          rw [← ht2]; exact ⟨rfl, rfl⟩
      · simp at h1
        rw [h1]; exact ⟨rfl, rfl⟩
  · refine ⟨Err.join (e :: es), (releaseTargets settlement).map Call.releaseHoldOnOrder, ?_, ?_⟩
    · rw [closeSettlement_of_release_failed k w marketID settlement e es hr]
      rfl
    · intro c hc
      obtain ⟨o, _, ho⟩ := List.mem_map.mp hc
      rw [← ho]; exact ⟨rfl, rfl⟩

/-- C7, witness: every transfer of the sample settlement fails; the two failures are returned
joined and the store is the one of entry. -/
theorem closeSettlement_store_untouched_on_failure_witness :
    releaseFailures brokeKeeper sampleWorld fillSettlement = [] ∧
    (transferFailures brokeKeeper sampleWorld fillSettlement ≠ [] ∨
      feeFailure brokeKeeper sampleWorld 1 fillSettlement ≠ none) ∧
    closeSettlement brokeKeeper sampleWorld 1 fillSettlement =
      (some (Err.join (transferFailures brokeKeeper sampleWorld fillSettlement ++
          (feeFailure brokeKeeper sampleWorld 1 fillSettlement).toList)),
        ⟨sampleWorld.store,
          sampleWorld.calls ++ (releaseTargets fillSettlement).map Call.releaseHoldOnOrder ++
            fillSettlement.Transfers.map transferCall ++
            [Call.CollectFees 1 fillSettlement.FeeInputs]⟩) :=
  have ht : transferFailures brokeKeeper sampleWorld fillSettlement ≠ [] ∨
      feeFailure brokeKeeper sampleWorld 1 fillSettlement ≠ none := by
    left
    rw [show transferFailures brokeKeeper sampleWorld fillSettlement =
      [Err.new "insufficient funds", Err.new "insufficient funds"] from rfl]
    exact List.cons_ne_nil _ _
  ⟨rfl, ht,
    (closeSettlement_store_untouched_on_failure brokeKeeper sampleWorld 1 fillSettlement).2
      rfl ht⟩

/-- C8: after a `closeSettlement` that returns nil, the store holds no record under the id of
any original order of `FullyFilledOrders`; when `PartialOrderLeft` is present, the store holds
`PartialOrderLeft` under its order id, in place of the previous record of that order; every
other order record is unchanged. The order that is split is not one of the fully filled orders
(the remainder is excluded from deletion, §4.4), which is how the statement on
`PartialOrderLeft` reads its settlement. -/
theorem closeSettlement_store_after_success (k : Keeper) (w : World) (marketID : Nat)
    (settlement : Settlement) (h : (closeSettlement k w marketID settlement).1 = none) :
    (∀ f ∈ settlement.FullyFilledOrders,
      (closeSettlement k w marketID settlement).2.store.orders f.GetOriginalOrder.OrderId =
        none) ∧
    (∀ left, settlement.PartialOrderLeft = some left →
      (∀ f ∈ settlement.FullyFilledOrders, f.GetOriginalOrder.OrderId ≠ left.OrderId) →
      (closeSettlement k w marketID settlement).2.store.orders left.OrderId = some left) ∧
    (∀ id, (∀ f ∈ settlement.FullyFilledOrders, f.GetOriginalOrder.OrderId ≠ id) →
      (∀ left, settlement.PartialOrderLeft = some left → left.OrderId ≠ id) →
      (closeSettlement k w marketID settlement).2.store.orders id = w.store.orders id) := by
  have hmem : ∀ id, id ∈ filledIds settlement ↔
      ∃ f ∈ settlement.FullyFilledOrders, f.GetOriginalOrder.OrderId = id := by
    intro id
    simp [filledIds, FilledOrder.GetOriginalOrder]
  refine ⟨?_, ?_, ?_⟩
  · intro f hf
    rw [closeSettlement_nil_orders k w marketID settlement h]
    rw [if_pos ((hmem _).mpr ⟨f, hf, rfl⟩)]
  · intro left hleft hne
    rw [closeSettlement_nil_orders k w marketID settlement h]
    have hnot : ¬ left.OrderId ∈ filledIds settlement := by
      intro hin
      obtain ⟨f, hf, hid⟩ := (hmem _).mp hin
      exact hne f hf hid
    rw [if_neg hnot, hleft]
    simp
  · intro id hne hleft
    rw [closeSettlement_nil_orders k w marketID settlement h]
    have hnot : ¬ id ∈ filledIds settlement := by
      intro hin
      obtain ⟨f, hf, hid⟩ := (hmem _).mp hin
      exact hne f hf hid
    rw [if_neg hnot]
    cases hl : settlement.PartialOrderLeft with
    | none => rfl
    | some left =>
      have := hleft left hl
      simp [Ne.symm this]

/-- C8, witness: closing the settlement of ask A1 against bid B3 deletes B3, stores what is left
of A1 under id 3 and leaves B1 as it was. -/
theorem closeSettlement_store_after_success_witness :
    (closeSettlement sampleKeeper sampleWorld 1 partialSettlement).1 = none ∧
    (closeSettlement sampleKeeper sampleWorld 1 partialSettlement).2.store.orders 4 = none ∧
    (closeSettlement sampleKeeper sampleWorld 1 partialSettlement).2.store.orders 3 =
      some askA1Left ∧
    (closeSettlement sampleKeeper sampleWorld 1 partialSettlement).2.store.orders 1 =
      sampleWorld.store.orders 1 :=
  have h := closeSettlement_store_after_success sampleKeeper sampleWorld 1 partialSettlement rfl
  ⟨rfl, h.1 ⟨bidB3, ⟨"D", 60⟩, []⟩ (by decide),
    h.2.1 askA1Left rfl (by decide),
    h.2.2 1 (by decide) (by decide)⟩

/-- C9: a `closeSettlement` that returns nil emits exactly one batch of events, as its last
call: one order-filled event per entry of `FullyFilledOrders`, in the order of that list,
followed by one partially-filled event if `PartialOrderFilled` is present and none otherwise,
so the batch has as many events as `FullyFilledOrders` has entries, or one more. -/
theorem closeSettlement_emits_one_batch (k : Keeper) (w : World) (marketID : Nat)
    (settlement : Settlement) (h : (closeSettlement k w marketID settlement).1 = none) :
    (∃ before, (closeSettlement k w marketID settlement).2.calls =
        w.calls ++ before ++
          [Call.emitEvents (settlement.FullyFilledOrders.map Event.EventOrderFilled ++
            (match settlement.PartialOrderFilled with
              | some partialOrder => [Event.EventOrderPartiallyFilled partialOrder]
              | none => []))] ∧
        ∀ c ∈ before, c.isEmit = false) ∧
    (settlement.FullyFilledOrders.map Event.EventOrderFilled ++
        (match settlement.PartialOrderFilled with
          | some partialOrder => [Event.EventOrderPartiallyFilled partialOrder]
          | none => [])).length =
      settlement.FullyFilledOrders.length +
        (if settlement.PartialOrderFilled.isSome then 1 else 0) := by
  constructor
  · refine ⟨(releaseTargets settlement).map Call.releaseHoldOnOrder ++
      settlement.Transfers.map transferCall ++
      [Call.CollectFees marketID settlement.FeeInputs] ++ storeCalls settlement, ?_, ?_⟩
    · rw [closeSettlement_nil_calls k w marketID settlement h]
      simp [eventBatch, afterFees, afterTransfers, afterRelease, World.record,
        List.append_assoc]
    · intro c hc
      rcases List.mem_append.mp hc with h1 | h1
      · rcases List.mem_append.mp h1 with h2 | h2
        · rcases List.mem_append.mp h2 with h3 | h3
          · obtain ⟨o, _, ho⟩ := List.mem_map.mp h3
            rw [← ho]; rfl
          · obtain ⟨t, _, ht2⟩ := List.mem_map.mp h3
            rw [← ht2]; rfl
        · simp at h2
          rw [h2]; rfl
      · have := storeCalls_kind settlement c h1
        cases c <;> simp_all [Call.isOrderWrite, Call.isEmit]
  · cases settlement.PartialOrderFilled <;> simp

/-- C9, witness: closing the settlement of B1 and B2 ends with one batch of two filled
events. -/
theorem closeSettlement_emits_one_batch_witness :
    (closeSettlement sampleKeeper sampleWorld 1 fillSettlement).1 = none ∧
    ∃ before, (closeSettlement sampleKeeper sampleWorld 1 fillSettlement).2.calls =
        sampleWorld.calls ++ before ++
          [Call.emitEvents (fillSettlement.FullyFilledOrders.map Event.EventOrderFilled ++
            (match fillSettlement.PartialOrderFilled with
              | some partialOrder => [Event.EventOrderPartiallyFilled partialOrder]
              | none => []))] ∧
        ∀ c ∈ before, c.isEmit = false :=
  ⟨rfl, (closeSettlement_emits_one_batch sampleKeeper sampleWorld 1 fillSettlement rfl).1⟩

/-! ## Coin arithmetic -/

theorem amountOf_nil (d : String) : Coins.amountOf [] d = 0 := rfl

theorem amountOf_cons (c : Coin) (cs : Coins) (d : String) :
    Coins.amountOf (c :: cs) d = (if c.Denom = d then c.Amount else 0) + Coins.amountOf cs d := by
  unfold Coins.amountOf
  by_cases h : c.Denom = d <;> simp [List.filter_cons, h]

theorem amountOf_append (a b : Coins) (d : String) :
    Coins.amountOf (a ++ b) d = Coins.amountOf a d + Coins.amountOf b d := by
  unfold Coins.amountOf
  simp [List.filter_append]

theorem amountOf_eq_zero_of_not_mem (cs : Coins) (d : String)
    (h : d ∉ cs.map Coin.Denom) : Coins.amountOf cs d = 0 := by
  induction cs with
  | nil => rfl
  | cons c cs ih =>
    simp only [List.map_cons, List.mem_cons, not_or] at h
    rw [amountOf_cons, ih h.2, if_neg (fun hc => h.1 hc.symm)]
    simp

theorem amountOf_filterMap_nodup (amt : String → Int) (l : List String) (hl : l.Nodup)
    (d : String) :
    Coins.amountOf
      (l.filterMap (fun x => if amt x = 0 then none else some (Coin.mk x (amt x)))) d =
      if d ∈ l then amt d else 0 := by
  induction l with
  | nil => simp [amountOf_nil]
  | cons x xs ih =>
    obtain ⟨hx, hxs⟩ := List.nodup_cons.mp hl
    rw [List.filterMap_cons]
    by_cases h0 : amt x = 0
    · simp only [h0, if_true]
      rw [ih hxs]
      by_cases hd : d = x
      · subst hd
        simp [hx, h0]
      · simp [hd]
    · simp only [h0, if_false]
      rw [amountOf_cons, ih hxs]
      by_cases hd : x = d
      · subst hd
        simp [hx]
      · have hd2 : ¬ d = x := fun h => hd h.symm
        simp [hd, hd2]

theorem sortedDenoms_nodup (cs : Coins) : (Coins.sortedDenoms cs).Nodup :=
  (List.perm_insertionSort denomLE _).nodup_iff.mpr (List.nodup_dedup _)

theorem mem_sortedDenoms (cs : Coins) (d : String) :
    d ∈ Coins.sortedDenoms cs ↔ d ∈ cs.map Coin.Denom := by
  unfold Coins.sortedDenoms
  rw [(List.perm_insertionSort denomLE _).mem_iff, List.mem_dedup]

/-- The library addition of coins adds the amounts of every denomination. -/
theorem amountOf_Add (a b : Coins) (d : String) :
    Coins.amountOf (Coins.plus a b) d = Coins.amountOf a d + Coins.amountOf b d := by
  unfold Coins.plus
  rw [amountOf_filterMap_nodup (fun x => Coins.amountOf (a ++ b) x) _ (sortedDenoms_nodup _) d]
  by_cases h : d ∈ Coins.sortedDenoms (a ++ b)
  · rw [if_pos h, amountOf_append]
  · rw [if_neg h, ← amountOf_append]
    exact (amountOf_eq_zero_of_not_mem _ _ (fun hm => h ((mem_sortedDenoms _ _).mpr hm))).symm

theorem amountOf_of_perm (a b : Coins) (h : a.Perm b) (d : String) :
    Coins.amountOf a d = Coins.amountOf b d := by
  unfold Coins.amountOf
  exact ((h.filter _).map _).sum_eq

/-- Coin collections that pass `CoinsEquals` hold the same amount of every denomination. -/
theorem amountOf_of_CoinsEquals (a b : Coins) (h : CoinsEquals a b = true) (d : String) :
    Coins.amountOf a d = Coins.amountOf b d := by
  unfold CoinsEquals at h
  have heq : Coins.Sort a = Coins.Sort b := of_decide_eq_true h
  have ha : (Coins.Sort a).Perm a := List.perm_insertionSort _ a
  have hb : (Coins.Sort b).Perm b := List.perm_insertionSort _ b
  exact amountOf_of_perm a b (ha.symm.trans (heq ▸ hb)) d

theorem amountOf_sumCoins_aux (cs : List Coin) (total : Coins) (d : String) :
    Coins.amountOf (cs.foldl (fun total c => Coins.plus total [c]) total) d =
      Coins.amountOf total d + Coins.amountOf cs d := by
  induction cs generalizing total with
  | nil => simp [amountOf_nil]
  | cons c cs ih =>
    rw [List.foldl_cons, ih, amountOf_Add, amountOf_cons c cs, amountOf_cons c [], amountOf_nil]
    ring

theorem amountOf_sumCoins (cs : List Coin) (d : String) :
    Coins.amountOf (sumCoins cs) d = Coins.amountOf cs d := by
  unfold sumCoins
  rw [amountOf_sumCoins_aux, amountOf_nil, zero_add]

theorem orderTotals_eq_aux (orders : List Order) (acc : Coins × Coins) :
    orders.foldl
        (fun (acc : Coins × Coins) order =>
          (Coins.plus acc.1 [order.GetAssets], Coins.plus acc.2 [order.GetPrice])) acc =
      ((orders.map Order.GetAssets).foldl (fun total c => Coins.plus total [c]) acc.1,
        (orders.map Order.GetPrice).foldl (fun total c => Coins.plus total [c]) acc.2) := by
  induction orders generalizing acc with
  | nil => rfl
  | cons o os ih => rw [List.foldl_cons, ih]; rfl

/-- The two results of `orderTotals` are the sum of the assets and the sum of the prices
of the orders. -/
theorem orderTotals_eq (orders : List Order) :
    orderTotals orders =
      (sumCoins (orders.map Order.GetAssets), sumCoins (orders.map Order.GetPrice)) := by
  unfold orderTotals sumCoins
  exact orderTotals_eq_aux orders ([], [])

/-! ## Sums within the range of `sdk.Int` -/

theorem Add_eq_plus (a b c : Coins) (h : Coins.Add a b = some c) : c = Coins.plus a b := by
  unfold Coins.Add at h
  split at h
  · exact (Option.some.inj h).symm
  · simp at h

theorem sumAssetsAndPrice_aux (orders : List Order) (acc t : Coins × Coins)
    (h : orders.foldlM
      (fun (acc : Coins × Coins) order =>
        match Coins.Add acc.1 [order.GetAssets] with
        | none => none
        | some totalAssets =>
          match Coins.Add acc.2 [order.GetPrice] with
          | none => none
          | some totalPrice => some (totalAssets, totalPrice)) acc = some t) :
    t = orders.foldl
      (fun (acc : Coins × Coins) order =>
        (Coins.plus acc.1 [order.GetAssets], Coins.plus acc.2 [order.GetPrice])) acc := by
  induction orders generalizing acc with
  | nil =>
    simp only [List.foldlM_nil, pure, Option.some.injEq] at h
    exact h.symm
  | cons o os ih =>
    rw [List.foldlM_cons] at h
    cases h1 : Coins.Add acc.1 [o.GetAssets] with
    | none => simp [h1, bind] at h
    | some totalAssets =>
      cases h2 : Coins.Add acc.2 [o.GetPrice] with
      | none => simp [h1, h2, bind] at h
      | some totalPrice =>
        simp only [h1, h2, bind, Option.bind] at h
        rw [List.foldl_cons, ← Add_eq_plus _ _ _ h1, ← Add_eq_plus _ _ _ h2]
        exact ih _ h

/-- When `sumAssetsAndPrice` returns, it returns the sums of the assets and of the prices. -/
theorem sumAssetsAndPrice_eq_orderTotals (orders : List Order) (t : Coins × Coins)
    (h : sumAssetsAndPrice orders = some t) : t = orderTotals orders :=
  sumAssetsAndPrice_aux orders ([], []) t h

theorem sellerRatioFees_cons (k : Keeper) (store : KVStore) (marketID : Nat) (price : Coin)
    (prices : Coins) :
    sellerRatioFees k store marketID (price :: prices) =
      (k.calculateSellerSettlementRatioFee store marketID price).1.toList ++
        sellerRatioFees k store marketID prices := by
  unfold sellerRatioFees
  cases h : (k.calculateSellerSettlementRatioFee store marketID price).1 <;>
    simp [List.filterMap_cons, h]

theorem ratioFeeErrors_cons (k : Keeper) (store : KVStore) (marketID : Nat) (price : Coin)
    (prices : Coins) :
    ratioFeeErrors k store marketID (price :: prices) =
      ((k.calculateSellerSettlementRatioFee store marketID price).2.map
        (fun rerr =>
          Err.wrapf "error calculating seller settlement ratio fee: %w" [] rerr)).toList ++
        ratioFeeErrors k store marketID prices := by
  unfold ratioFeeErrors
  cases h : (k.calculateSellerSettlementRatioFee store marketID price).2 <;>
    simp [List.filterMap_cons, h]

/-- The ratio-fee loop of `FillBids`: its errors are the wrapped errors of the failed
calculations, and its fee is the sum of the returned fees, the loop panicking exactly when
adding up the fees does. -/
theorem ratioFee_fold (k : Keeper) (store : KVStore) (marketID : Nat) (prices : Coins)
    (acc : List Err × Coins) :
    prices.foldlM (ratioFeeStep k store marketID) acc =
      ((sellerRatioFees k store marketID prices).foldlM
        (fun total c => Coins.Add total [c]) acc.2).map
        (fun fee => (acc.1 ++ ratioFeeErrors k store marketID prices, fee)) := by
  induction prices generalizing acc with
  | nil => simp [sellerRatioFees, ratioFeeErrors]
  | cons price prices ih =>
    rw [List.foldlM_cons, sellerRatioFees_cons, ratioFeeErrors_cons]
    cases h1 : (k.calculateSellerSettlementRatioFee store marketID price).1 with
    | none =>
      have hstep : ratioFeeStep k store marketID acc price =
          some (acc.1 ++ ((k.calculateSellerSettlementRatioFee store marketID price).2.map
            (fun rerr =>
              Err.wrapf "error calculating seller settlement ratio fee: %w" [] rerr)).toList,
            acc.2) := by
        simp [ratioFeeStep, h1]
      rw [hstep]
      simp only [bind, Option.bind, ih, Option.toList, List.nil_append, List.append_assoc]
    | some fee =>
      cases hadd : Coins.Add acc.2 [fee] with
      | none =>
        have hstep : ratioFeeStep k store marketID acc price = none := by
          simp [ratioFeeStep, h1, hadd]
        rw [hstep]
        simp [bind, hadd]
      | some total =>
        have hstep : ratioFeeStep k store marketID acc price =
            some (acc.1 ++ ((k.calculateSellerSettlementRatioFee store marketID price).2.map
              (fun rerr =>
                Err.wrapf "error calculating seller settlement ratio fee: %w" [] rerr)).toList,
              total) := by
          simp [ratioFeeStep, h1, hadd]
        rw [hstep]
        simp [bind, hadd, ih, List.append_assoc]

theorem foldlM_Add_eq_foldl (cs : List Coin) (total fee : Coins)
    (h : cs.foldlM (fun total c => Coins.Add total [c]) total = some fee) :
    fee = cs.foldl (fun total c => Coins.plus total [c]) total := by
  induction cs generalizing total with
  | nil =>
    simp only [List.foldlM_nil, pure, Option.some.injEq] at h
    exact h.symm
  | cons c cs ih =>
    rw [List.foldlM_cons] at h
    cases h1 : Coins.Add total [c] with
    | none => simp [h1, bind] at h
    | some t1 =>
      simp only [h1, bind, Option.bind] at h
      rw [List.foldl_cons, ← Add_eq_plus _ _ _ h1]
      exact ih _ h

/-- The total seller fee as the fold of the ratio fees over the flat fee. -/
theorem totalSellerFee_eq_fold (k : Keeper) (store : KVStore) (msg : MsgFillBidsRequest)
    (orders : List Order) :
    (sellerRatioFees k store msg.MarketId (orderTotals orders).2).foldl
      (fun total c => Coins.plus total [c])
      (msg.SellerSettlementFlatFee.toList.foldl (fun total c => Coins.plus total [c]) []) =
      totalSellerFee k store msg orders := by
  rw [orderTotals_eq]
  unfold totalSellerFee sumCoins
  rw [List.foldl_append]

/-- The flat fee with which the seller fee of `FillBids` starts. -/
theorem flatFee_start (flat : Option Coin) :
    (match flat with
      | some f => Coins.Add [] [f]
      | none => some []) = flat.toList.foldlM (fun total c => Coins.Add total [c]) [] := by
  cases flat with
  | none => rfl
  | some f =>
    cases h : Coins.Add [] [f] <;> simp [h, bind]

/-- The parts of a settlement built by `FillBids`: the sums did not overflow, the total assets
matched, the order loop went through, and the settlement is read off the accumulators. -/
theorem fillBidsSettlement_parts (k : Keeper) (store : KVStore) (msg : MsgFillBidsRequest)
    (orders : List Order) (settlement : Settlement)
    (h : fillBidsSettlement k store msg orders = some (.ok settlement)) :
    sumAssetsAndPrice orders = some (orderTotals orders) ∧
    CoinsEquals (orderTotals orders).1 msg.TotalAssets = true ∧
    ∃ loop, orders.foldlM fillBidsStep FillLoop.init = some loop ∧
      settlement =
        ⟨[⟨[⟨msg.Seller, msg.TotalAssets⟩], loop.assetsAddrIdx.GetAsOutputs⟩,
            ⟨loop.priceAddrIdx.GetAsInputs, [⟨msg.Seller, (orderTotals orders).2⟩]⟩],
          (loop.feeAddrIdx.Add msg.Seller (totalSellerFee k store msg orders)).GetAsInputs,
          loop.FullyFilledOrders, none, none⟩ := by
  unfold fillBidsSettlement at h
  cases hs : sumAssetsAndPrice orders with
  | none => rw [hs] at h; simp at h
  | some totals =>
    have ht := sumAssetsAndPrice_eq_orderTotals orders totals hs
    subst ht
    rw [hs] at h
    simp only at h
    cases hce : CoinsEquals (orderTotals orders).1 msg.TotalAssets with
    | false => rw [hce] at h; simp at h
    | true =>
      rw [hce] at h
      simp only [Bool.not_true, Bool.false_eq_true, if_false, ratioFee_fold,
        List.nil_append] at h
      refine ⟨rfl, rfl, ?_⟩
      split at h
      · simp at h
      · rename_i flatFee hflat0
        have hflat : msg.SellerSettlementFlatFee.toList.foldlM
            (fun total c => Coins.Add total [c]) [] = some flatFee := by
          rw [← hflat0]
          exact (flatFee_start msg.SellerSettlementFlatFee).symm
        cases hloop : orders.foldlM fillBidsStep FillLoop.init with
        | none => rw [hloop] at h; simp at h
        | some loop =>
          rw [hloop] at h
          simp only at h
          cases hfee : (sellerRatioFees k store msg.MarketId (orderTotals orders).2).foldlM
              (fun total c => Coins.Add total [c]) flatFee with
          | none => rw [hfee] at h; simp at h
          | some fee =>
            rw [hfee] at h
            simp only [Option.map_some'] at h
            have h1 := foldlM_Add_eq_foldl _ _ _ hflat
            have h2 := foldlM_Add_eq_foldl _ _ _ hfee
            rw [h1, totalSellerFee_eq_fold] at h2
            subst h2
            cases herrs : ratioFeeErrors k store msg.MarketId (orderTotals orders).2 with
            | cons e es => rw [herrs] at h; simp at h
            | nil =>
              rw [herrs] at h
              simp only [Option.some.injEq, Except.ok.injEq] at h
              exact ⟨loop, rfl, h.symm⟩

/-- What a step of the order loop of `FillAsks` returns when it returns. -/
theorem fillAsksStep_eq (k : Keeper) (store : KVStore) (marketID : Nat)
    (acc acc1 : List Err × FillLoop) (order : Order)
    (h : fillAsksStep k store marketID acc order = some acc1) :
    ∃ askOrder, order.GetAskOrder = some askOrder ∧
      acc1 =
        (acc.1 ++ ((k.calculateSellerSettlementRatioFee store marketID askOrder.Price).2.map
          (fun rerr =>
            Err.wrapf "error calculating seller settlement ratio fee for order %d: %w"
              [.num order.OrderId] rerr)).toList,
          ⟨acc.2.feeAddrIdx.Add askOrder.Seller (askSellerFees k store marketID askOrder),
            acc.2.assetsAddrIdx.Add askOrder.Seller [askOrder.Assets],
            acc.2.priceAddrIdx.Add askOrder.Seller [askOrder.Price],
            acc.2.FullyFilledOrders ++
              [NewFilledOrder order askOrder.Price (askSellerFees k store marketID askOrder)]⟩) := by
  unfold fillAsksStep at h
  cases ha : order.GetAskOrder with
  | none => rw [ha] at h; simp at h
  | some askOrder =>
    rw [ha] at h
    simp only at h
    refine ⟨askOrder, rfl, ?_⟩
    split at h
    · simp at h
    · rename_i sellerFees hfees
      have hs : sellerFees = askSellerFees k store marketID askOrder := by
        unfold askSellerFees
        cases hr : (k.calculateSellerSettlementRatioFee store marketID askOrder.Price).1 with
        | none =>
          simp only [hr, Option.some.injEq] at hfees
          exact hfees.symm
        | some fee =>
          simp only [hr] at hfees
          exact Add_eq_plus _ _ _ hfees
      subst hs
      simp only [Option.some.injEq] at h
      exact h.symm

/-- A step of the order loop of `FillAsks` on an ask order whose fees add up without overflow. -/
theorem fillAsksStep_of_ask (k : Keeper) (store : KVStore) (marketID : Nat)
    (acc : List Err × FillLoop) (order : Order) (askOrder : AskOrder)
    (ha : order.GetAskOrder = some askOrder)
    (hadd : ∀ fee, (k.calculateSellerSettlementRatioFee store marketID askOrder.Price).1 =
      some fee → (Coins.Add askOrder.GetSettlementFees [fee]).isSome = true) :
    ∃ loop, fillAsksStep k store marketID acc order =
      some (acc.1 ++ ((k.calculateSellerSettlementRatioFee store marketID askOrder.Price).2.map
        (fun rerr =>
          Err.wrapf "error calculating seller settlement ratio fee for order %d: %w"
            [.num order.OrderId] rerr)).toList, loop) := by
  unfold fillAsksStep
  rw [ha]
  cases hr : (k.calculateSellerSettlementRatioFee store marketID askOrder.Price).1 with
  | none =>
    simp only [hr]
    exact ⟨_, rfl⟩
  | some fee =>
    obtain ⟨c, hc⟩ := Option.isSome_iff_exists.mp (hadd fee hr)
    simp only [hr, hc]
    exact ⟨_, rfl⟩

/-- The order loop of `FillBids` goes through when every order is a bid. -/
theorem fillBids_loop_total (orders : List Order) (acc : FillLoop)
    (h : ∀ o ∈ orders, o.GetBidOrder.isSome = true) :
    ∃ loop, orders.foldlM fillBidsStep acc = some loop := by
  induction orders generalizing acc with
  | nil => exact ⟨acc, rfl⟩
  | cons o os ih =>
    obtain ⟨b, hb⟩ := Option.isSome_iff_exists.mp (h o (List.mem_cons_self _ _))
    rw [List.foldlM_cons]
    simp only [fillBidsStep, hb, Option.some_bind, bind, Option.bind]
    exact ih _ (fun o1 h1 => h o1 (List.mem_cons_of_mem _ h1))

/-- The order loop of `FillAsks` goes through when every order is an ask whose fees add up
without overflow, and its errors are the wrapped errors of the failed ratio-fee calculations,
in the order of the orders. -/
theorem fillAsks_loop_errors (k : Keeper) (store : KVStore) (marketID : Nat)
    (orders : List Order) (acc : List Err × FillLoop)
    (h : ∀ o ∈ orders, o.GetAskOrder.isSome = true)
    (hadd : ∀ a ∈ asksOf orders, ∀ fee,
      (k.calculateSellerSettlementRatioFee store marketID a.Price).1 = some fee →
      (Coins.Add a.GetSettlementFees [fee]).isSome = true) :
    ∃ loop, orders.foldlM (fillAsksStep k store marketID) acc =
      some (acc.1 ++ askRatioFeeErrors k store marketID orders, loop) := by
  induction orders generalizing acc with
  | nil => exact ⟨acc.2, by simp [askRatioFeeErrors]⟩
  | cons o os ih =>
    obtain ⟨a, ha⟩ := Option.isSome_iff_exists.mp (h o (List.mem_cons_self _ _))
    have hasks : asksOf (o :: os) = a :: asksOf os := by
      unfold asksOf
      rw [List.filterMap_cons, ha]
    obtain ⟨l1, h1⟩ := fillAsksStep_of_ask k store marketID acc o a ha
      (hadd a (by rw [hasks]; exact List.mem_cons_self _ _))
    obtain ⟨loop, hl⟩ := ih (acc.1 ++
        ((k.calculateSellerSettlementRatioFee store marketID a.Price).2.map
          (fun rerr =>
            Err.wrapf "error calculating seller settlement ratio fee for order %d: %w"
              [.num o.OrderId] rerr)).toList, l1)
      (fun o1 h1 => h o1 (List.mem_cons_of_mem _ h1))
      (fun a1 h1 => hadd a1 (by rw [hasks]; exact List.mem_cons_of_mem _ h1))
    refine ⟨loop, ?_⟩
    rw [List.foldlM_cons, h1]
    simp only [bind, Option.bind, hl]
    unfold askRatioFeeErrors
    cases h2 : (k.calculateSellerSettlementRatioFee store marketID a.Price).2 <;>
      simp [List.filterMap_cons, ha, h2]

/-- The ratio-fee loop in `FillBids`: once the sums are made and the total assets match, the
call panics when the seller fees do not add up, and returns the join of the ratio-fee errors
when they add up and there is an error. -/
theorem fillBidsSettlement_fee_errors (k : Keeper) (store : KVStore) (msg : MsgFillBidsRequest)
    (orders : List Order) (totals : Coins × Coins)
    (hs : sumAssetsAndPrice orders = some totals)
    (hce : CoinsEquals totals.1 msg.TotalAssets = true)
    (hbids : ∀ o ∈ orders, o.GetBidOrder.isSome = true) :
    (addsUp (msg.SellerSettlementFlatFee.toList ++
        sellerRatioFees k store msg.MarketId totals.2) = false →
      fillBidsSettlement k store msg orders = none) ∧
    (addsUp (msg.SellerSettlementFlatFee.toList ++
        sellerRatioFees k store msg.MarketId totals.2) = true →
      ∀ e es, ratioFeeErrors k store msg.MarketId totals.2 = e :: es →
      fillBidsSettlement k store msg orders = some (.error (Err.join (e :: es)))) := by
  obtain ⟨loop, hloop⟩ := fillBids_loop_total orders FillLoop.init hbids
  have happ : addsUp (msg.SellerSettlementFlatFee.toList ++
      sellerRatioFees k store msg.MarketId totals.2) =
      ((msg.SellerSettlementFlatFee.toList.foldlM
        (fun total c => Coins.Add total [c]) []).bind
        (fun flatFee => (sellerRatioFees k store msg.MarketId totals.2).foldlM
          (fun total c => Coins.Add total [c]) flatFee)).isSome := by
    unfold addsUp
    rw [List.foldlM_append]
    rfl
  rw [happ]
  unfold fillBidsSettlement
  rw [hs]
  simp only [hce, Bool.not_true, Bool.false_eq_true, if_false, ratioFee_fold, List.nil_append,
    hloop]
  split
  · rename_i hflat0
    have hflat : msg.SellerSettlementFlatFee.toList.foldlM
        (fun total c => Coins.Add total [c]) [] = none := by
      rw [← hflat0]
      exact (flatFee_start msg.SellerSettlementFlatFee).symm
    rw [hflat]
    simp
  · rename_i flatFee hflat0
    have hflat : msg.SellerSettlementFlatFee.toList.foldlM
        (fun total c => Coins.Add total [c]) [] = some flatFee := by
      rw [← hflat0]
      exact (flatFee_start msg.SellerSettlementFlatFee).symm
    rw [hflat]
    cases hfee : (sellerRatioFees k store msg.MarketId totals.2).foldlM
        (fun total c => Coins.Add total [c]) flatFee with
    | none => simp [hfee]
    | some fee =>
      simp only [Option.some_bind, hfee, Option.isSome_some, Option.map_some']
      refine ⟨fun hc => by simp at hc, fun _ e es he => ?_⟩
      rw [he]

theorem denoms_Add_nodup (a b : Coins) : ((Coins.plus a b).map Coin.Denom).Nodup := by
  unfold Coins.plus
  have hsub : ∀ l : List String, l.Nodup →
      ((l.filterMap (fun d =>
        if Coins.amountOf (a ++ b) d = 0 then none
        else some (Coin.mk d (Coins.amountOf (a ++ b) d)))).map Coin.Denom).Nodup := by
    intro l hl
    induction l with
    | nil => simp
    | cons x xs ih =>
      obtain ⟨hx, hxs⟩ := List.nodup_cons.mp hl
      rw [List.filterMap_cons]
      by_cases h0 : Coins.amountOf (a ++ b) x = 0
      · simp only [h0, if_true]
        exact ih hxs
      · simp only [h0, if_false, List.map_cons]
        refine List.nodup_cons.mpr ⟨?_, ih hxs⟩
        intro hmem
        obtain ⟨c, hc, hcd⟩ := List.mem_map.mp hmem
        obtain ⟨d, hd, hfd⟩ := List.mem_filterMap.mp hc
        by_cases hz : Coins.amountOf (a ++ b) d = 0
        · simp [hz] at hfd
        · simp only [hz, if_false, Option.some.injEq] at hfd
          rw [← hfd] at hcd
          simp only at hcd
          exact hx (hcd ▸ hd)
  exact hsub _ (sortedDenoms_nodup _)

/-- A sum of coins lists every denomination once. -/
theorem denoms_sumCoins_nodup (cs : List Coin) : ((sumCoins cs).map Coin.Denom).Nodup := by
  rcases List.eq_nil_or_concat cs with h | ⟨l, c, h⟩
  · rw [h]; simp [sumCoins]
  · rw [h, List.concat_eq_append]
    unfold sumCoins
    rw [List.foldl_append]
    exact denoms_Add_nodup _ _

/-! ## Sums that do not overflow -/

theorem inIntRange_of_between (x y : Int) (h0 : 0 ≤ x) (hxy : x ≤ y)
    (hy : inIntRange y = true) : inIntRange x = true := by
  unfold inIntRange at *
  simp only [decide_eq_true_eq] at *
  generalize 2 ^ MaxBitLen = bound at *
  omega

theorem inIntRange_zero : inIntRange 0 = true := by decide

/-- In coins that list every denomination once, at most one coin has a given denomination. -/
theorem filter_denom_of_nodup (l : Coins) (hl : (l.map Coin.Denom).Nodup) (d : String) :
    l.filter (fun c => c.Denom = d) = [] ∨
      ∃ x, x ∈ l ∧ x.Denom = d ∧ l.filter (fun c => c.Denom = d) = [x] := by
  induction l with
  | nil => left; rfl
  | cons a l ih =>
    rw [List.map_cons, List.nodup_cons] at hl
    by_cases ha : a.Denom = d
    · right
      refine ⟨a, List.mem_cons_self _ _, ha, ?_⟩
      have hnil : l.filter (fun c => c.Denom = d) = [] := by
        rw [List.filter_eq_nil_iff]
        intro c hc hcd
        simp only [decide_eq_true_eq] at hcd
        exact hl.1 (List.mem_map.mpr ⟨c, hc, hcd.trans ha.symm⟩)
      rw [List.filter_cons, if_pos (by simpa using ha), hnil]
    · rcases ih hl.2 with h | ⟨x, hx, hxd, hf⟩
      · left
        rw [List.filter_cons, if_neg (by simpa using ha), h]
      · right
        refine ⟨x, List.mem_cons_of_mem _ hx, hxd, ?_⟩
        rw [List.filter_cons, if_neg (by simpa using ha), hf]

/-- In coins that list every denomination once, the amount of a denomination is the amount of
its coin. -/
theorem amountOf_of_mem_nodup (l : Coins) (hl : (l.map Coin.Denom).Nodup) (x : Coin)
    (hx : x ∈ l) : Coins.amountOf l x.Denom = x.Amount := by
  rcases filter_denom_of_nodup l hl x.Denom with h | ⟨y, _, _, hf⟩
  · have : x ∈ l.filter (fun c => c.Denom = x.Denom) := by
      rw [List.mem_filter]
      exact ⟨hx, by simp⟩
    rw [h] at this
    simp at this
  · have hmem : x ∈ l.filter (fun c => c.Denom = x.Denom) := by
      rw [List.mem_filter]
      exact ⟨hx, by simp⟩
    rw [hf, List.mem_singleton] at hmem
    unfold Coins.amountOf
    rw [hf, hmem]
    simp

/-- Adding one coin to coins that list every denomination once does not overflow when the
amounts at hand and the new amount of the denomination of the coin are in range. -/
theorem Add_single_of_inRange (total : Coins) (c : Coin)
    (hn : (total.map Coin.Denom).Nodup)
    (hr : ∀ x ∈ total, inIntRange x.Amount = true)
    (hc : inIntRange c.Amount = true)
    (hsum : inIntRange (Coins.amountOf total c.Denom + c.Amount) = true) :
    Coins.Add total [c] = some (Coins.plus total [c]) := by
  have hall : Coins.sumsInRange (total ++ [c]) = true := by
    unfold Coins.sumsInRange
    rw [List.all_eq_true]
    intro c0 _
    rw [List.filter_append]
    by_cases hd : c.Denom = c0.Denom
    · have hfc : [c].filter (fun c1 => c1.Denom = c0.Denom) = [c] := by
        simp [List.filter_cons, hd]
      rw [hfc]
      rcases filter_denom_of_nodup total hn c0.Denom with h | ⟨x, hx, hxd, hf⟩
      · rw [h]
        simp [List.scanl, inIntRange_zero, hc]
      · rw [hf]
        have hxa : Coins.amountOf total c.Denom = x.Amount := by
          rw [hd, ← hxd]
          exact amountOf_of_mem_nodup total hn x hx
        rw [hxa] at hsum
        simp [List.scanl, inIntRange_zero, hr x hx, hsum]
    · have hfc : [c].filter (fun c1 => c1.Denom = c0.Denom) = [] := by
        simp [List.filter_cons, hd]
      rw [hfc]
      rcases filter_denom_of_nodup total hn c0.Denom with h | ⟨x, hx, _, hf⟩
      · rw [h]
        simp [List.scanl, inIntRange_zero]
      · rw [hf]
        simp [List.scanl, inIntRange_zero, hr x hx]
  unfold Coins.Add
  rw [hall]
  rfl

theorem amountOf_nonneg (cs : Coins) (h : ∀ c ∈ cs, 0 ≤ c.Amount) (d : String) :
    0 ≤ Coins.amountOf cs d := by
  induction cs with
  | nil => simp [amountOf_nil]
  | cons c cs ih =>
    rw [amountOf_cons]
    have h1 := h c (List.mem_cons_self _ _)
    have h2 := ih (fun x hx => h x (List.mem_cons_of_mem _ hx))
    by_cases hd : c.Denom = d
    · rw [if_pos hd]; omega
    · rw [if_neg hd]; omega

/-- Coins with non-negative amounts whose total per denomination is in the range of `sdk.Int`
add up without overflow, to their sum. -/
theorem foldlM_Add_of_bounded (cs : List Coin) (h0 : ∀ c ∈ cs, 0 ≤ c.Amount)
    (hb : ∀ d, inIntRange (Coins.amountOf cs d) = true) :
    cs.foldlM (fun total c => Coins.Add total [c]) [] = some (sumCoins cs) := by
  induction cs using List.reverseRecOn with
  | nil => rfl
  | append_singleton cs c ih =>
    have h0cs : ∀ x ∈ cs, 0 ≤ x.Amount := fun x hx => h0 x (List.mem_append_left _ hx)
    have hc0 : 0 ≤ c.Amount := h0 c (List.mem_append_right _ (List.mem_singleton_self _))
    have hle : ∀ d, Coins.amountOf cs d ≤ Coins.amountOf (cs ++ [c]) d := by
      intro d
      rw [amountOf_append]
      have := amountOf_nonneg [c] (fun x hx => by
        rw [List.mem_singleton] at hx; rw [hx]; exact hc0) d
      omega
    have hbcs : ∀ d, inIntRange (Coins.amountOf cs d) = true := fun d =>
      inIntRange_of_between _ _ (amountOf_nonneg cs h0cs d) (hle d) (hb d)
    rw [List.foldlM_append, ih h0cs hbcs]
    simp only [bind, Option.bind, List.foldlM_cons, List.foldlM_nil, pure]
    have hadd := Add_single_of_inRange (sumCoins cs) c (denoms_sumCoins_nodup cs)
      (fun x hx => by
        rw [← amountOf_of_mem_nodup (sumCoins cs) (denoms_sumCoins_nodup cs) x hx,
          amountOf_sumCoins]
        exact hbcs x.Denom)
      (by
        have h1 := hb c.Denom
        rw [amountOf_append, amountOf_cons, amountOf_nil, if_pos rfl] at h1
        refine inIntRange_of_between _ _ hc0 ?_ h1
        have := amountOf_nonneg cs h0cs c.Denom
        omega)
      (by
        have h1 := hb c.Denom
        rw [amountOf_append, amountOf_cons, amountOf_nil, if_pos rfl] at h1
        rw [amountOf_sumCoins]
        simpa using h1)
    rw [hadd]
    unfold sumCoins
    rw [List.foldl_append]
    rfl

theorem sumAssetsAndPrice_of_sums (orders : List Order) (acc sums : Coins × Coins)
    (ha : (orders.map Order.GetAssets).foldlM (fun total c => Coins.Add total [c]) acc.1 =
      some sums.1)
    (hp : (orders.map Order.GetPrice).foldlM (fun total c => Coins.Add total [c]) acc.2 =
      some sums.2) :
    orders.foldlM
      (fun (acc : Coins × Coins) order =>
        match Coins.Add acc.1 [order.GetAssets] with
        | none => none
        | some totalAssets =>
          match Coins.Add acc.2 [order.GetPrice] with
          | none => none
          | some totalPrice => some (totalAssets, totalPrice)) acc = some sums := by
  induction orders generalizing acc with
  | nil =>
    simp only [List.map_nil, List.foldlM_nil, pure, Option.some.injEq] at ha hp
    simp only [List.foldlM_nil, pure, Option.some.injEq]
    exact Prod.ext ha hp
  | cons o os ih =>
    rw [List.map_cons, List.foldlM_cons] at ha hp
    rw [List.foldlM_cons]
    cases h1 : Coins.Add acc.1 [o.GetAssets] with
    | none => rw [h1] at ha; simp [bind] at ha
    | some totalAssets =>
      cases h2 : Coins.Add acc.2 [o.GetPrice] with
      | none => rw [h2] at hp; simp [bind] at hp
      | some totalPrice =>
        rw [h1] at ha
        rw [h2] at hp
        simp only [bind, Option.bind] at ha hp ⊢
        exact ih (totalAssets, totalPrice) ha hp

/-- The sums of `sumAssetsAndPrice` are made without overflow when the assets and the prices
are non-negative and their totals per denomination are in the range of `sdk.Int`. -/
theorem sumAssetsAndPrice_of_bounded (orders : List Order)
    (h0 : ∀ o ∈ orders, 0 ≤ o.GetAssets.Amount ∧ 0 ≤ o.GetPrice.Amount)
    (hb : ∀ d, inIntRange (Coins.amountOf (orders.map Order.GetAssets) d) = true ∧
      inIntRange (Coins.amountOf (orders.map Order.GetPrice) d) = true) :
    sumAssetsAndPrice orders =
      some (sumCoins (orders.map Order.GetAssets), sumCoins (orders.map Order.GetPrice)) := by
  unfold sumAssetsAndPrice
  apply sumAssetsAndPrice_of_sums
  · apply foldlM_Add_of_bounded
    · intro c hc
      obtain ⟨o, ho, hoc⟩ := List.mem_map.mp hc
      rw [← hoc]
      exact (h0 o ho).1
    · exact fun d => (hb d).1
  · apply foldlM_Add_of_bounded
    · intro c hc
      obtain ⟨o, ho, hoc⟩ := List.mem_map.mp hc
      rw [← hoc]
      exact (h0 o ho).2
    · exact fun d => (hb d).2

/-! ## The accumulator -/

theorem addEntry_total (es : List (String × Coins)) (addr : String) (coins : List Coin)
    (d : String) :
    ((addEntry es addr coins).map (fun e => Coins.amountOf e.2 d)).sum =
      (es.map (fun e => Coins.amountOf e.2 d)).sum + Coins.amountOf coins d := by
  induction es with
  | nil => simp [addEntry, amountOf_Add, amountOf_nil]
  | cons e es ih =>
    unfold addEntry
    by_cases h : e.1 = addr
    · simp only [h, if_true, List.map_cons, List.sum_cons, amountOf_Add]
      ring
    · simp only [h, if_false, List.map_cons, List.sum_cons, ih]
      ring

theorem firstSeen_snoc (l : List String) (x : String) :
    firstSeen (l ++ [x]) = if x ∈ l then firstSeen l else firstSeen l ++ [x] := by
  unfold firstSeen
  rw [List.reverse_append, List.reverse_singleton, List.singleton_append]
  by_cases h : x ∈ l
  · rw [if_pos h, List.dedup_cons_of_mem (List.mem_reverse.mpr h)]
  · rw [if_neg h, List.dedup_cons_of_not_mem (fun hm => h (List.mem_reverse.mp hm)),
      List.reverse_cons]

theorem mem_firstSeen (l : List String) (x : String) : x ∈ firstSeen l ↔ x ∈ l := by
  unfold firstSeen
  rw [List.mem_reverse, List.mem_dedup, List.mem_reverse]

theorem firstSeen_nodup (l : List String) : (firstSeen l).Nodup := by
  unfold firstSeen
  exact List.nodup_reverse.mpr (List.nodup_dedup _)

theorem addEntry_map_of_not_mem (l : List String) (g : String → Coins) (x : String)
    (cs : List Coin) (h : x ∉ l) :
    addEntry (l.map (fun a => (a, g a))) x cs =
      l.map (fun a => (a, g a)) ++ [(x, Coins.plus [] cs)] := by
  induction l with
  | nil => rfl
  | cons a l ih =>
    simp only [List.mem_cons, not_or] at h
    simp only [List.map_cons, addEntry]
    rw [if_neg (fun hc => h.1 hc.symm), ih h.2]
    rfl

theorem addEntry_map_of_mem (l : List String) (g : String → Coins) (x : String)
    (cs : List Coin) (hl : l.Nodup) (h : x ∈ l) :
    addEntry (l.map (fun a => (a, g a))) x cs =
      l.map (fun a => (a, if a = x then Coins.plus (g a) cs else g a)) := by
  induction l with
  | nil => simp at h
  | cons a l ih =>
    obtain ⟨ha, hl2⟩ := List.nodup_cons.mp hl
    simp only [List.map_cons, addEntry]
    by_cases hax : a = x
    · subst hax
      rw [if_pos rfl]
      simp only [if_true]
      congr 1
      apply List.map_congr_left
      intro b hb
      have : ¬ b = a := fun hba => ha (hba ▸ hb)
      simp [this]
    · rw [if_neg hax]
      have hxl : x ∈ l := by
        rcases List.mem_cons.mp h with h1 | h1
        · exact absurd h1.symm hax
        · exact h1
      rw [ih hl2 hxl]
      simp [hax]

/-- Adding the pairs of a list one by one to an empty accumulator yields the per-address
totals in first-seen order. -/
theorem accumulate_eq_perAddress (ps : List (String × Coin)) :
    ps.foldl (fun es p => addEntry es p.1 [p.2]) [] = perAddress ps := by
  induction ps using List.reverseRecOn with
  | nil => rfl
  | append_singleton ps p ih =>
    rw [List.foldl_append, ih]
    simp only [List.foldl_cons, List.foldl_nil]
    unfold perAddress
    rw [List.map_append, List.map_singleton, firstSeen_snoc]
    by_cases h : p.1 ∈ ps.map Prod.fst
    · rw [if_pos h, addEntry_map_of_mem _ _ _ _ (firstSeen_nodup _) ((mem_firstSeen _ _).mpr h)]
      apply List.map_congr_left
      intro a _
      by_cases hap : a = p.1
      · subst hap
        simp [List.filter_append, sumCoins, List.foldl_append]
      · have hpa : ¬ p.1 = a := fun hc => hap hc.symm
        simp [List.filter_append, hap, hpa]
    · rw [if_neg h, addEntry_map_of_not_mem _ _ _ _ (fun hm => h ((mem_firstSeen _ _).mp hm)),
        List.map_append]
      congr 1
      · apply List.map_congr_left
        intro a ha
        have hap : ¬ p.1 = a := by
          intro hc
          exact h (hc ▸ (mem_firstSeen _ _).mp ha)
        simp [List.filter_append, hap]
      · have hnone : ps.filter (fun q => q.1 = p.1) = [] := by
          rw [List.filter_eq_nil_iff]
          intro q hq hq1
          exact h (List.mem_map.mpr ⟨q, hq, of_decide_eq_true hq1⟩)
        simp [List.filter_append, hnone, sumCoins]

/-! ## The order loop of `FillBids` -/

theorem fillBidsStep_some (acc acc1 : FillLoop) (order : Order)
    (h : fillBidsStep acc order = some acc1) :
    ∃ bidOrder, order.GetBidOrder = some bidOrder ∧ order.GetAssets = bidOrder.Assets ∧
      order.GetPrice = bidOrder.Price ∧
      acc1.assetsAddrIdx.entries =
        addEntry acc.assetsAddrIdx.entries bidOrder.Buyer [bidOrder.Assets] ∧
      acc1.priceAddrIdx.entries =
        addEntry acc.priceAddrIdx.entries bidOrder.Buyer [bidOrder.Price] := by
  unfold fillBidsStep at h
  cases hb : order.GetBidOrder with
  | none => rw [hb] at h; simp at h
  | some bidOrder =>
    rw [hb] at h
    simp only [Option.some.injEq] at h
    subst h
    refine ⟨bidOrder, rfl, ?_, ?_, rfl, rfl⟩
    · unfold Order.GetBidOrder at hb
      unfold Order.GetAssets
      cases hbody : order.body with
      | askOrder a => rw [hbody] at hb; simp at hb
      | bidOrder b => rw [hbody] at hb; simp at hb; rw [hb]
    · unfold Order.GetBidOrder at hb
      unfold Order.GetPrice
      cases hbody : order.body with
      | askOrder a => rw [hbody] at hb; simp at hb
      | bidOrder b => rw [hbody] at hb; simp at hb; rw [hb]

/-- The accumulators after the order loop of `FillBids`, when it does not panic: every order
is a bid, and each accumulator received the (buyer, coin) pairs of the bids in order. -/
theorem fillBids_loop_entries (orders : List Order) (acc loop : FillLoop)
    (h : orders.foldlM fillBidsStep acc = some loop) :
    orders.map Order.GetBidOrder = (bidsOf orders).map some ∧
    orders.map Order.GetAssets = (bidsOf orders).map BidOrder.Assets ∧
    orders.map Order.GetPrice = (bidsOf orders).map BidOrder.Price ∧
    loop.assetsAddrIdx.entries =
      ((bidsOf orders).map (fun b => (b.Buyer, b.Assets))).foldl
        (fun es p => addEntry es p.1 [p.2]) acc.assetsAddrIdx.entries ∧
    loop.priceAddrIdx.entries =
      ((bidsOf orders).map (fun b => (b.Buyer, b.Price))).foldl
        (fun es p => addEntry es p.1 [p.2]) acc.priceAddrIdx.entries := by
  induction orders generalizing acc with
  | nil =>
    simp only [List.foldlM_nil, pure, Option.some.injEq] at h
    subst h
    simp [bidsOf]
  | cons o os ih =>
    rw [List.foldlM_cons] at h
    cases hstep : fillBidsStep acc o with
    | none => rw [hstep] at h; simp at h
    | some acc1 =>
      rw [hstep] at h
      simp only [Option.some_bind, bind, Option.bind] at h
      obtain ⟨b, hb, hassets, hprice, hae, hpe⟩ := fillBidsStep_some acc acc1 o hstep
      obtain ⟨i1, i2, i3, i4, i5⟩ := ih acc1 h
      have hbids : bidsOf (o :: os) = b :: bidsOf os := by
        unfold bidsOf
        rw [List.filterMap_cons, hb]
      rw [hbids]
      refine ⟨?_, ?_, ?_, ?_, ?_⟩
      · simp [hb, i1]
      · simp [hassets, i2]
      · simp [hprice, i3]
      · rw [i4, hae]; rfl
      · rw [i5, hpe]; rfl

/-- What a settlement built by `FillBids` looks like: the total assets matched, the order loop
went through, and the legs are read off the accumulators. -/
theorem fillBidsSettlement_ok (k : Keeper) (store : KVStore) (msg : MsgFillBidsRequest)
    (orders : List Order) (settlement : Settlement)
    (h : fillBidsSettlement k store msg orders = some (.ok settlement)) :
    CoinsEquals (orderTotals orders).1 msg.TotalAssets = true ∧
    ∃ loop, orders.foldlM fillBidsStep FillLoop.init = some loop ∧
      settlement.Transfers =
        [⟨[⟨msg.Seller, msg.TotalAssets⟩], loop.assetsAddrIdx.GetAsOutputs⟩,
          ⟨loop.priceAddrIdx.GetAsInputs, [⟨msg.Seller, (orderTotals orders).2⟩]⟩] := by
  obtain ⟨_, hce, loop, hloop, hset⟩ := fillBidsSettlement_parts k store msg orders settlement h
  exact ⟨hce, loop, hloop, by rw [hset]⟩

/-- A call of `FillBids` that reaches `closeSettlement` returns what closing the settlement and
collecting the creation fee return. -/
theorem FillBids_of_reaches (k : Keeper) (w : World) (msg : MsgFillBidsRequest)
    (orders : List Order) (settlement : Settlement)
    (h : FillBidsReaches k w msg orders settlement) :
    FillBids k w msg =
      some (closeAndCollectCreationFee k w msg.MarketId msg.Seller msg.AskOrderCreationFee
        settlement) := by
  obtain ⟨h1, h2, h3, h4, h5, h6⟩ := h
  unfold FillBids
  simp only [h1, h2, h3, h4, h5, h6]

theorem foldl_addEntry_total (ps : List (String × Coin)) (es : List (String × Coins))
    (d : String) :
    ((ps.foldl (fun es p => addEntry es p.1 [p.2]) es).map
        (fun e => Coins.amountOf e.2 d)).sum =
      (es.map (fun e => Coins.amountOf e.2 d)).sum + Coins.amountOf (ps.map Prod.snd) d := by
  induction ps generalizing es with
  | nil => simp [amountOf_nil]
  | cons p ps ih =>
    rw [List.foldl_cons, ih, addEntry_total, List.map_cons, amountOf_cons p.2 (ps.map Prod.snd),
      amountOf_cons p.2 [], amountOf_nil]
    ring

/-! ## Claims on `FillBids` and `SettleOrders` -/

/-- C1, as amended: for a `FillBids` request that passes the validations and whose bid orders
are all fetched: when the sums of the assets and of the prices of the fetched orders are made
without leaving the 256 bits of an `sdk.Int`, which is the case when the amounts are
non-negative and their totals per denomination fit, `sumAssetsAndPrice` returns them, and if
`TotalAssets` is not coin-equal to the sum of the assets the request is answered with an error
and the world is the one of entry: no hold release, transfer, fee collection, order write or
delete, or event emission was made, and the store is unchanged; when a sum overflows,
`sumAssetsAndPrice` panics before the comparison and `FillBids` returns nothing. -/
theorem FillBids_rejects_total_assets_mismatch (k : Keeper) (w : World)
    (msg : MsgFillBidsRequest) (orders : List Order)
    (hbasic : k.validateBasicFillBids msg = none)
    (hmarket : validateAcceptingOrdersAndCanUserSettle k w.store msg.MarketId = none)
    (huser : k.validateUserCanCreateAsk w msg.MarketId msg.Seller = none)
    (hfees : k.validateCreateAskFees w.store msg.MarketId msg.AskOrderCreationFee
      msg.SellerSettlementFlatFee = none)
    (hfetch : k.getBidOrders w.store msg.MarketId msg.BidOrderIds msg.Seller = (orders, none)) :
    ((∀ o ∈ orders, 0 ≤ o.GetAssets.Amount ∧ 0 ≤ o.GetPrice.Amount) →
      (∀ d, inIntRange (Coins.amountOf (orders.map Order.GetAssets) d) = true ∧
        inIntRange (Coins.amountOf (orders.map Order.GetPrice) d) = true) →
      sumAssetsAndPrice orders ≠ none) ∧
    (sumAssetsAndPrice orders ≠ none →
      sumAssetsAndPrice orders =
        some (sumCoins (orders.map Order.GetAssets), sumCoins (orders.map Order.GetPrice)) ∧
      (CoinsEquals (sumCoins (orders.map Order.GetAssets)) msg.TotalAssets = false →
        FillBids k w msg =
          some (some (.errorf "total assets %q does not equal sum of bid order assets %q"
            [.coins msg.TotalAssets, .coins (sumCoins (orders.map Order.GetAssets))]), w))) ∧
    (sumAssetsAndPrice orders = none → FillBids k w msg = none) := by
  refine ⟨?_, ?_, ?_⟩
  · intro h0 hb
    rw [sumAssetsAndPrice_of_bounded orders h0 hb]
    exact Option.some_ne_none _
  · intro hsome
    obtain ⟨t, ht⟩ := Option.ne_none_iff_exists'.mp hsome
    have heq := sumAssetsAndPrice_eq_orderTotals orders t ht
    rw [orderTotals_eq] at heq
    subst heq
    refine ⟨ht, fun hne => ?_⟩
    have hbuild : fillBidsSettlement k w.store msg orders =
        some (.error (.errorf "total assets %q does not equal sum of bid order assets %q"
          [.coins msg.TotalAssets, .coins (sumCoins (orders.map Order.GetAssets))])) := by
      unfold fillBidsSettlement
      rw [ht]
      simp only [hne, Bool.not_false, if_true]
    unfold FillBids
    simp only [hbasic, hmarket, huser, hfees, hfetch, hbuild]
  · intro hnone
    have hbuild : fillBidsSettlement k w.store msg orders = none := by
      unfold fillBidsSettlement
      rw [hnone]
    unfold FillBids
    simp only [hbasic, hmarket, huser, hfees, hfetch, hbuild]

/-- C1, witness: seller S asks to fill B1 and B2, which hold 15 unit-A, for 14 unit-A. -/
theorem FillBids_rejects_total_assets_mismatch_witness :
    sumAssetsAndPrice [bidB1, bidB2] ≠ none ∧
    FillBids sampleKeeper sampleWorld staleFillBids =
      some (some (.errorf "total assets %q does not equal sum of bid order assets %q"
        [.coins staleFillBids.TotalAssets,
          .coins (sumCoins ([bidB1, bidB2].map Order.GetAssets))]), sampleWorld) :=
  ⟨by decide,
    ((FillBids_rejects_total_assets_mismatch sampleKeeper sampleWorld staleFillBids
      [bidB1, bidB2] rfl rfl rfl rfl rfl).2.1 (by decide)).2 (by decide)⟩

/-- C1, counterexample to the claim as stated: seller S asks to fill two bids of 2^255 unit-A
each for 15 unit-A. The request passes the validations, both bids are fetched, each amount is
a value of `sdk.Int`, and 15 unit-A is not the sum of the assets; but that sum, 2^256 unit-A,
does not fit an `sdk.Int`: `sumAssetsAndPrice` panics and `FillBids` returns no error. -/
theorem FillBids_panics_on_asset_overflow :
    sampleKeeper.getBidOrders hugeWorld.store hugeFillBids.MarketId hugeFillBids.BidOrderIds
      hugeFillBids.Seller = ([hugeBid1, hugeBid2], none) ∧
    inIntRange hugeBid1.GetAssets.Amount = true ∧
    inIntRange hugeBid2.GetAssets.Amount = true ∧
    CoinsEquals (sumCoins ([hugeBid1, hugeBid2].map Order.GetAssets))
      hugeFillBids.TotalAssets = false ∧
    sumAssetsAndPrice [hugeBid1, hugeBid2] = none ∧
    FillBids sampleKeeper hugeWorld hugeFillBids = none ∧
    ¬ ∃ err, FillBids sampleKeeper hugeWorld hugeFillBids = some (some err, hugeWorld) := by
  have hnone : FillBids sampleKeeper hugeWorld hugeFillBids = none := rfl
  refine ⟨rfl, by decide, by decide, by decide, by decide, hnone, ?_⟩
  rintro ⟨err, herr⟩
  rw [hnone] at herr
  cases herr

/-- C2: in a `SettleOrders` call where the market exists, both fetches succeed and
`BuildSettlement` returns a settlement: if `expectPartial` differs from the presence of
`PartialOrderFilled`, the call returns an error and the world is the one of entry, so
`closeSettlement` was not invoked; if they agree, the call is the call of `closeSettlement` on
that settlement; and a collaborator call is made exactly when they agree. -/
theorem SettleOrders_checks_expectPartial (k : Keeper) (w : World) (marketID : Nat)
    (askOrderIDs bidOrderIds : List Nat) (expectPartial : Bool) (settlement : Settlement)
    (hmarket : k.validateMarketExists w.store marketID = none)
    (hasks : (k.getAskOrders w.store marketID askOrderIDs "").2 = none)
    (hbids : (k.getBidOrders w.store marketID bidOrderIds "").2 = none)
    (hbuild : k.BuildSettlement (k.getAskOrders w.store marketID askOrderIDs "").1
      (k.getBidOrders w.store marketID bidOrderIds "").1
      (fun denom => k.getSellerSettlementRatio w.store marketID denom) = .ok settlement) :
    (expectPartial ≠ settlement.PartialOrderFilled.isSome →
      ∃ err, SettleOrders k w marketID askOrderIDs bidOrderIds expectPartial = (some err, w)) ∧
    (expectPartial = settlement.PartialOrderFilled.isSome →
      SettleOrders k w marketID askOrderIDs bidOrderIds expectPartial =
        closeSettlement k w marketID settlement) ∧
    ((SettleOrders k w marketID askOrderIDs bidOrderIds expectPartial).2.calls ≠ w.calls ↔
      expectPartial = settlement.PartialOrderFilled.isSome) := by
  have hcall := closeSettlement_makes_call k w marketID settlement
  unfold SettleOrders
  simp only [hmarket, hasks, hbids, hbuild, Option.isSome_none, Bool.or_self, Bool.false_eq_true,
    if_false]
  cases expectPartial <;> cases hp : settlement.PartialOrderFilled <;>
    simp [checkExpectPartial, hp, hcall]

/-- C2, witness: `BuildSettlement` answers with a settlement that has a partial order; with
`expectPartial` false the call fails and changes nothing, with `expectPartial` true it is the
call of `closeSettlement`. -/
theorem SettleOrders_checks_expectPartial_witness :
    (∃ err, SettleOrders sampleKeeper sampleWorld 1 [3] [4] false = (some err, sampleWorld)) ∧
    SettleOrders sampleKeeper sampleWorld 1 [3] [4] true =
      closeSettlement sampleKeeper sampleWorld 1 partialSettlement :=
  ⟨(SettleOrders_checks_expectPartial sampleKeeper sampleWorld 1 [3] [4] false
      partialSettlement rfl rfl rfl rfl).1 (by decide),
    (SettleOrders_checks_expectPartial sampleKeeper sampleWorld 1 [3] [4] true
      partialSettlement rfl rfl rfl rfl).2.1 (by decide)⟩

/-- C3: in a `FillBids` call that reaches `closeSettlement`, every transfer leg of the
settlement is balanced: for every denomination the sum of the input amounts of the leg equals
the sum of its output amounts. -/
theorem FillBids_transfers_balanced (k : Keeper) (w : World) (msg : MsgFillBidsRequest)
    (orders : List Order) (settlement : Settlement)
    (h : FillBidsReaches k w msg orders settlement) :
    FillBids k w msg =
      some (closeAndCollectCreationFee k w msg.MarketId msg.Seller msg.AskOrderCreationFee
        settlement) ∧
    ∀ t ∈ settlement.Transfers, ∀ d, inputTotal t.Inputs d = outputTotal t.Outputs d := by
  refine ⟨FillBids_of_reaches k w msg orders settlement h, ?_⟩
  obtain ⟨hce, loop, hloop, hlegs⟩ := fillBidsSettlement_ok k w.store msg orders settlement h.2.2.2.2.2
  obtain ⟨_, hassets, hprice, hae, hpe⟩ := fillBids_loop_entries orders FillLoop.init loop hloop
  intro t ht d
  rw [hlegs] at ht
  have hA : (loop.assetsAddrIdx.entries.map (fun e => Coins.amountOf e.2 d)).sum =
      Coins.amountOf msg.TotalAssets d := by
    rw [hae, foldl_addEntry_total, List.map_map]
    have : (Prod.snd ∘ fun b : BidOrder => (b.Buyer, b.Assets)) = BidOrder.Assets := rfl
    rw [this, ← hassets, ← amountOf_of_CoinsEquals _ _ hce d, orderTotals_eq,
      amountOf_sumCoins]
    simp [FillLoop.init, NewIndexedAddrAmts]
  have hP : (loop.priceAddrIdx.entries.map (fun e => Coins.amountOf e.2 d)).sum =
      Coins.amountOf (orderTotals orders).2 d := by
    rw [hpe, foldl_addEntry_total, List.map_map]
    have : (Prod.snd ∘ fun b : BidOrder => (b.Buyer, b.Price)) = BidOrder.Price := rfl
    rw [this, ← hprice, orderTotals_eq, amountOf_sumCoins]
    simp [FillLoop.init, NewIndexedAddrAmts]
  simp only [List.mem_cons, List.mem_singleton, List.not_mem_nil, or_false] at ht
  rcases ht with ht | ht
  · subst ht
    simp only [inputTotal, outputTotal, IndexedAddrAmts.GetAsOutputs, List.map_map,
      List.map_cons, List.map_nil, List.sum_cons, List.sum_nil, add_zero]
    exact hA.symm
  · subst ht
    simp only [inputTotal, outputTotal, IndexedAddrAmts.GetAsInputs, List.map_map,
      List.map_cons, List.map_nil, List.sum_cons, List.sum_nil, add_zero]
    exact hP

/-- C3, witness: the two legs of the settlement of B1 and B2 are balanced. -/
theorem FillBids_transfers_balanced_witness :
    FillBidsReaches sampleKeeper sampleWorld sampleFillBids [bidB1, bidB2] fillSettlement ∧
    ∀ t ∈ fillSettlement.Transfers, ∀ d, inputTotal t.Inputs d = outputTotal t.Outputs d :=
  have h : FillBidsReaches sampleKeeper sampleWorld sampleFillBids [bidB1, bidB2]
      fillSettlement := ⟨rfl, rfl, rfl, rfl, rfl, rfl⟩
  ⟨h, (FillBids_transfers_balanced sampleKeeper sampleWorld sampleFillBids [bidB1, bidB2]
    fillSettlement h).2⟩

/-- C10: in a `FillBids` call that reaches `closeSettlement`, every fetched order is a bid and
the settlement has exactly two transfer legs, in this order: the first has the single input
(seller, `TotalAssets`) and one output per distinct buyer, in the order in which the buyers
first appear in the fetched orders, carrying the sum of the assets of the bids of that buyer;
the second has one input per distinct buyer, in the same order, carrying the sum of the prices
of the bids of that buyer, and the single output (seller, sum of all the bid prices). -/
theorem FillBids_transfer_legs (k : Keeper) (w : World) (msg : MsgFillBidsRequest)
    (orders : List Order) (settlement : Settlement)
    (h : FillBidsReaches k w msg orders settlement) :
    FillBids k w msg =
      some (closeAndCollectCreationFee k w msg.MarketId msg.Seller msg.AskOrderCreationFee
        settlement) ∧
    orders.map Order.GetBidOrder = (bidsOf orders).map some ∧
    settlement.Transfers =
      [⟨[⟨msg.Seller, msg.TotalAssets⟩],
          (perAddress ((bidsOf orders).map (fun b => (b.Buyer, b.Assets)))).map
            (fun e => ⟨e.1, e.2⟩)⟩,
        ⟨(perAddress ((bidsOf orders).map (fun b => (b.Buyer, b.Price)))).map
            (fun e => ⟨e.1, e.2⟩),
          [⟨msg.Seller, sumCoins ((bidsOf orders).map BidOrder.Price)⟩]⟩] := by
  refine ⟨FillBids_of_reaches k w msg orders settlement h, ?_⟩
  obtain ⟨_, loop, hloop, hlegs⟩ := fillBidsSettlement_ok k w.store msg orders settlement h.2.2.2.2.2
  obtain ⟨hbids, _, hprice, hae, hpe⟩ := fillBids_loop_entries orders FillLoop.init loop hloop
  refine ⟨hbids, ?_⟩
  have hinit1 : FillLoop.init.assetsAddrIdx.entries = [] := rfl
  have hinit2 : FillLoop.init.priceAddrIdx.entries = [] := rfl
  rw [hinit1, accumulate_eq_perAddress] at hae
  rw [hinit2, accumulate_eq_perAddress] at hpe
  rw [hlegs, orderTotals_eq, hprice]
  simp only [IndexedAddrAmts.GetAsOutputs, IndexedAddrAmts.GetAsInputs, hae, hpe]

/-- C10, witness: bids B1 (X, 10A, 100D) and B2 (Y, 5A, 50D) filled by S give the legs
S->X:10A, S->Y:5A and X->S:100D, Y->S:50D. -/
theorem FillBids_transfer_legs_witness :
    FillBidsReaches sampleKeeper sampleWorld sampleFillBids [bidB1, bidB2] fillSettlement ∧
    fillSettlement.Transfers =
      [⟨[⟨"S", [⟨"A", 15⟩]⟩], [⟨"X", [⟨"A", 10⟩]⟩, ⟨"Y", [⟨"A", 5⟩]⟩]⟩,
        ⟨[⟨"X", [⟨"D", 100⟩]⟩, ⟨"Y", [⟨"D", 50⟩]⟩], [⟨"S", [⟨"D", 150⟩]⟩]⟩] ∧
    fillSettlement.Transfers =
      [⟨[⟨sampleFillBids.Seller, sampleFillBids.TotalAssets⟩],
          (perAddress ((bidsOf [bidB1, bidB2]).map (fun b => (b.Buyer, b.Assets)))).map
            (fun e => ⟨e.1, e.2⟩)⟩,
        ⟨(perAddress ((bidsOf [bidB1, bidB2]).map (fun b => (b.Buyer, b.Price)))).map
            (fun e => ⟨e.1, e.2⟩),
          [⟨sampleFillBids.Seller, sumCoins ((bidsOf [bidB1, bidB2]).map BidOrder.Price)⟩]⟩] :=
  have h : FillBidsReaches sampleKeeper sampleWorld sampleFillBids [bidB1, bidB2]
      fillSettlement := ⟨rfl, rfl, rfl, rfl, rfl, rfl⟩
  ⟨h, rfl, (FillBids_transfer_legs sampleKeeper sampleWorld sampleFillBids [bidB1, bidB2]
    fillSettlement h).2.2⟩

/-! ## Claim on the order of releases and transfers -/

/-- C6: in every execution of `closeSettlement`, and so in every execution of `FillBids`,
`FillAsks` and `SettleOrders`, the calls made have no `DoTransfer` before a
`releaseHoldOnOrder`: all the hold releases come before the first transfer. -/
theorem no_transfer_before_hold_release (k : Keeper) (w : World) :
    (∀ marketID settlement, ∃ trace,
      (closeSettlement k w marketID settlement).2.calls = w.calls ++ trace ∧
        NoTransferBeforeRelease trace) ∧
    (∀ msg r, FillBids k w msg = some r →
      ∃ trace, r.2.calls = w.calls ++ trace ∧ NoTransferBeforeRelease trace) ∧
    (∀ msg r, FillAsks k w msg = some r →
      ∃ trace, r.2.calls = w.calls ++ trace ∧ NoTransferBeforeRelease trace) ∧
    (∀ marketID askOrderIDs bidOrderIds expectPartial, ∃ trace,
      (SettleOrders k w marketID askOrderIDs bidOrderIds expectPartial).2.calls =
        w.calls ++ trace ∧ NoTransferBeforeRelease trace) := by
  have hnil : ∃ trace, w.calls = w.calls ++ trace ∧ NoTransferBeforeRelease trace :=
    ⟨[], by simp, List.Pairwise.nil⟩
  refine ⟨fun marketID settlement => closeSettlement_trace k w marketID settlement, ?_, ?_, ?_⟩
  · intro msg r h
    rcases FillBids_result k w msg r h with h1 | ⟨settlement, h1⟩
    · rw [h1]; exact hnil
    · rw [h1]; exact closeAndCollectCreationFee_trace k w _ _ _ settlement
  · intro msg r h
    rcases FillAsks_result k w msg r h with h1 | ⟨settlement, h1⟩
    · rw [h1]; exact hnil
    · rw [h1]; exact closeAndCollectCreationFee_trace k w _ _ _ settlement
  · intro marketID askOrderIDs bidOrderIds expectPartial
    rcases SettleOrders_result k w marketID askOrderIDs bidOrderIds expectPartial with
      h1 | ⟨settlement, h1⟩
    · rw [h1]; exact hnil
    · rw [h1]; exact closeSettlement_trace k w marketID settlement

/-- C6, witness: the calls of filling B1 and B2, and of filling A1, in the sample world. -/
theorem no_transfer_before_hold_release_witness :
    (∃ trace, (closeAndCollectCreationFee sampleKeeper sampleWorld 1 "S" none
        fillSettlement).2.calls = sampleWorld.calls ++ trace ∧
      NoTransferBeforeRelease trace) ∧
    (∃ r, FillAsks sampleKeeper sampleWorld sampleFillAsks = some r ∧
      ∃ trace, r.2.calls = sampleWorld.calls ++ trace ∧ NoTransferBeforeRelease trace) :=
  have h := no_transfer_before_hold_release sampleKeeper sampleWorld
  ⟨h.2.1 sampleFillBids _ rfl,
    ⟨(FillAsks sampleKeeper sampleWorld sampleFillAsks).get (by decide),
      by simp,
      h.2.2.1 sampleFillAsks _ (by simp)⟩⟩

/-! ## The order loop of `FillAsks` -/

theorem fillAsksStep_some (k : Keeper) (store : KVStore) (marketID : Nat)
    (acc acc1 : List Err × FillLoop) (order : Order)
    (h : fillAsksStep k store marketID acc order = some acc1) :
    ∃ askOrder, order.GetAskOrder = some askOrder ∧ order.GetAssets = askOrder.Assets ∧
      order.GetPrice = askOrder.Price ∧
      acc1.2.assetsAddrIdx.entries =
        addEntry acc.2.assetsAddrIdx.entries askOrder.Seller [askOrder.Assets] ∧
      acc1.2.priceAddrIdx.entries =
        addEntry acc.2.priceAddrIdx.entries askOrder.Seller [askOrder.Price] := by
  obtain ⟨askOrder, ha, hacc⟩ := fillAsksStep_eq k store marketID acc acc1 order h
  subst hacc
  refine ⟨askOrder, ha, ?_, ?_, rfl, rfl⟩
  · unfold Order.GetAskOrder at ha
    unfold Order.GetAssets
    cases hbody : order.body with
    | askOrder a => rw [hbody] at ha; simp at ha; rw [ha]
    | bidOrder b => rw [hbody] at ha; simp at ha
  · unfold Order.GetAskOrder at ha
    unfold Order.GetPrice
    cases hbody : order.body with
    | askOrder a => rw [hbody] at ha; simp at ha; rw [ha]
    | bidOrder b => rw [hbody] at ha; simp at ha

/-- The accumulators after the order loop of `FillAsks`, when it does not panic: every order
is an ask, and each accumulator received the (seller, coin) pairs of the asks in order. -/
theorem fillAsks_loop_entries (k : Keeper) (store : KVStore) (marketID : Nat)
    (orders : List Order) (acc loop : List Err × FillLoop)
    (h : orders.foldlM (fillAsksStep k store marketID) acc = some loop) :
    orders.map Order.GetAskOrder = (asksOf orders).map some ∧
    orders.map Order.GetAssets = (asksOf orders).map AskOrder.Assets ∧
    orders.map Order.GetPrice = (asksOf orders).map AskOrder.Price ∧
    loop.2.assetsAddrIdx.entries =
      ((asksOf orders).map (fun a => (a.Seller, a.Assets))).foldl
        (fun es p => addEntry es p.1 [p.2]) acc.2.assetsAddrIdx.entries ∧
    loop.2.priceAddrIdx.entries =
      ((asksOf orders).map (fun a => (a.Seller, a.Price))).foldl
        (fun es p => addEntry es p.1 [p.2]) acc.2.priceAddrIdx.entries := by
  induction orders generalizing acc with
  | nil =>
    simp only [List.foldlM_nil, pure, Option.some.injEq] at h
    subst h
    simp [asksOf]
  | cons o os ih =>
    rw [List.foldlM_cons] at h
    cases hstep : fillAsksStep k store marketID acc o with
    | none => rw [hstep] at h; simp at h
    | some acc1 =>
      rw [hstep] at h
      simp only [Option.some_bind, bind, Option.bind] at h
      obtain ⟨a, ha, hassets, hprice, hae, hpe⟩ :=
        fillAsksStep_some k store marketID acc acc1 o hstep
      obtain ⟨i1, i2, i3, i4, i5⟩ := ih acc1 h
      have hasks : asksOf (o :: os) = a :: asksOf os := by
        unfold asksOf
        rw [List.filterMap_cons, ha]
      rw [hasks]
      refine ⟨?_, ?_, ?_, ?_, ?_⟩
      · simp [ha, i1]
      · simp [hassets, i2]
      · simp [hprice, i3]
      · rw [i4, hae]; rfl
      · rw [i5, hpe]; rfl

/-- What a settlement built by `FillAsks` looks like: the total price matched, the order loop
went through without a fee error, and the settlement is read off the accumulators. -/
theorem fillAsksSettlement_ok (k : Keeper) (store : KVStore) (msg : MsgFillAsksRequest)
    (orders : List Order) (settlement : Settlement)
    (h : fillAsksSettlement k store msg orders = some (.ok settlement)) :
    CoinsEquals (orderTotals orders).2 [msg.TotalPrice] = true ∧
    ∃ loop, orders.foldlM (fillAsksStep k store msg.MarketId) ([], FillLoop.init) =
        some ([], loop) ∧
      settlement =
        ⟨[⟨loop.assetsAddrIdx.GetAsInputs, [⟨msg.Buyer, (orderTotals orders).1⟩]⟩,
            ⟨[⟨msg.Buyer, [msg.TotalPrice]⟩], loop.priceAddrIdx.GetAsOutputs⟩],
          (loop.feeAddrIdx.Add msg.Buyer msg.BuyerSettlementFees).GetAsInputs,
          loop.FullyFilledOrders, none, none⟩ := by
  unfold fillAsksSettlement at h
  cases hs : sumAssetsAndPrice orders with
  | none => rw [hs] at h; simp at h
  | some totals =>
    have ht := sumAssetsAndPrice_eq_orderTotals orders totals hs
    subst ht
    rw [hs] at h
    simp only at h
    cases hce : CoinsEquals (orderTotals orders).2 [msg.TotalPrice] with
    | false => rw [hce] at h; simp at h
    | true =>
      rw [hce] at h
      simp only [Bool.not_true, Bool.false_eq_true, if_false] at h
      refine ⟨rfl, ?_⟩
      cases hloop : orders.foldlM (fillAsksStep k store msg.MarketId) ([], FillLoop.init) with
      | none => rw [hloop] at h; simp at h
      | some res =>
        obtain ⟨errs, loop⟩ := res
        rw [hloop] at h
        cases errs with
        | cons e es => simp at h
        | nil =>
          simp only [Option.some.injEq, Except.ok.injEq] at h
          exact ⟨loop, rfl, h.symm⟩

/-- A call of `FillAsks` that reaches `closeSettlement` returns what closing the settlement and
collecting the creation fee return. -/
theorem FillAsks_of_reaches (k : Keeper) (w : World) (msg : MsgFillAsksRequest)
    (orders : List Order) (settlement : Settlement)
    (h : FillAsksReaches k w msg orders settlement) :
    FillAsks k w msg =
      some (closeAndCollectCreationFee k w msg.MarketId msg.Buyer msg.BidOrderCreationFee
        settlement) := by
  obtain ⟨h1, h2, h3, h4, h5, h6⟩ := h
  unfold FillAsks
  simp only [h1, h2, h3, h4, h5, h6]

/-! ## Claims on the transfers of `FillAsks` -/

/-- C16: in a `FillAsks` call that reaches `closeSettlement`, every transfer leg of the
settlement is balanced: for every denomination the sum of the input amounts of the leg equals
the sum of its output amounts. -/
theorem FillAsks_transfers_balanced (k : Keeper) (w : World) (msg : MsgFillAsksRequest)
    (orders : List Order) (settlement : Settlement)
    (h : FillAsksReaches k w msg orders settlement) :
    FillAsks k w msg =
      some (closeAndCollectCreationFee k w msg.MarketId msg.Buyer msg.BidOrderCreationFee
        settlement) ∧
    ∀ t ∈ settlement.Transfers, ∀ d, inputTotal t.Inputs d = outputTotal t.Outputs d := by
  refine ⟨FillAsks_of_reaches k w msg orders settlement h, ?_⟩
  obtain ⟨hce, loop, hloop, hst⟩ :=
    fillAsksSettlement_ok k w.store msg orders settlement h.2.2.2.2.2
  obtain ⟨_, hassets, hprice, hae, hpe⟩ :=
    fillAsks_loop_entries k w.store msg.MarketId orders ([], FillLoop.init) ([], loop) hloop
  intro t ht d
  rw [hst] at ht
  have hA : (loop.assetsAddrIdx.entries.map (fun e => Coins.amountOf e.2 d)).sum =
      Coins.amountOf (orderTotals orders).1 d := by
    rw [hae, foldl_addEntry_total, List.map_map]
    have : (Prod.snd ∘ fun a : AskOrder => (a.Seller, a.Assets)) = AskOrder.Assets := rfl
    rw [this, ← hassets, orderTotals_eq, amountOf_sumCoins]
    simp [FillLoop.init, NewIndexedAddrAmts]
  have hP : (loop.priceAddrIdx.entries.map (fun e => Coins.amountOf e.2 d)).sum =
      Coins.amountOf [msg.TotalPrice] d := by
    rw [hpe, foldl_addEntry_total, List.map_map]
    have : (Prod.snd ∘ fun a : AskOrder => (a.Seller, a.Price)) = AskOrder.Price := rfl
    rw [this, ← hprice, ← amountOf_of_CoinsEquals _ _ hce d, orderTotals_eq,
      amountOf_sumCoins]
    simp [FillLoop.init, NewIndexedAddrAmts]
  simp only [List.mem_cons, List.mem_singleton, List.not_mem_nil, or_false] at ht
  rcases ht with ht | ht
  · subst ht
    simp only [inputTotal, outputTotal, IndexedAddrAmts.GetAsInputs, List.map_map,
      List.map_cons, List.map_nil, List.sum_cons, List.sum_nil, add_zero]
    exact hA
  · subst ht
    simp only [inputTotal, outputTotal, IndexedAddrAmts.GetAsOutputs, List.map_map,
      List.map_cons, List.map_nil, List.sum_cons, List.sum_nil, add_zero]
    exact hP.symm

/-- C16, witness: the two legs of the settlement of A1, A2 and A3 are balanced. -/
theorem FillAsks_transfers_balanced_witness :
    FillAsksReaches sampleKeeper askWorld threeFillAsks [askA1, askA2, askA3] askSettlement ∧
    ∀ t ∈ askSettlement.Transfers, ∀ d, inputTotal t.Inputs d = outputTotal t.Outputs d :=
  have h : FillAsksReaches sampleKeeper askWorld threeFillAsks [askA1, askA2, askA3]
      askSettlement := ⟨rfl, rfl, rfl, rfl, rfl, rfl⟩
  ⟨h, (FillAsks_transfers_balanced sampleKeeper askWorld threeFillAsks [askA1, askA2, askA3]
    askSettlement h).2⟩

/-- C18, as amended: for a `FillAsks` request that passes the validations and whose ask orders
are all fetched: when the sums of the assets and of the prices of the fetched orders are made
without leaving the 256 bits of an `sdk.Int`, which is the case when the amounts are
non-negative and their totals per denomination fit, `sumAssetsAndPrice` returns them, and if the
single coin `TotalPrice` is not coin-equal to the sum of the prices, which is the case whenever
the prices span more than one denomination, the request is answered with an error and the
world is the one of entry: no hold release, transfer, fee collection, order write or delete, or
event emission was made; when a sum overflows, `sumAssetsAndPrice` panics before the
comparison and `FillAsks` returns nothing. -/
theorem FillAsks_rejects_total_price_mismatch (k : Keeper) (w : World)
    (msg : MsgFillAsksRequest) (orders : List Order)
    (hbasic : k.validateBasicFillAsks msg = none)
    (hmarket : validateAcceptingOrdersAndCanUserSettle k w.store msg.MarketId = none)
    (huser : k.validateUserCanCreateBid w msg.MarketId msg.Buyer = none)
    (hfees : k.validateCreateBidFees w.store msg.MarketId msg.BidOrderCreationFee msg.TotalPrice
      msg.BuyerSettlementFees = none)
    (hfetch : k.getAskOrders w.store msg.MarketId msg.AskOrderIds msg.Buyer = (orders, none)) :
    ((∀ o ∈ orders, 0 ≤ o.GetAssets.Amount ∧ 0 ≤ o.GetPrice.Amount) →
      (∀ d, inIntRange (Coins.amountOf (orders.map Order.GetAssets) d) = true ∧
        inIntRange (Coins.amountOf (orders.map Order.GetPrice) d) = true) →
      sumAssetsAndPrice orders ≠ none) ∧
    (sumAssetsAndPrice orders ≠ none →
      sumAssetsAndPrice orders =
        some (sumCoins (orders.map Order.GetAssets), sumCoins (orders.map Order.GetPrice)) ∧
      ((CoinsEquals (sumCoins (orders.map Order.GetPrice)) [msg.TotalPrice] = false ∨
        ∃ d1 d2, d1 ≠ d2 ∧ Coins.amountOf (orders.map Order.GetPrice) d1 ≠ 0 ∧
          Coins.amountOf (orders.map Order.GetPrice) d2 ≠ 0) →
        FillAsks k w msg =
          some (some (.errorf "total price %q does not equal sum of ask order prices %q"
            [.coin msg.TotalPrice, .coins (sumCoins (orders.map Order.GetPrice))]), w))) ∧
    (sumAssetsAndPrice orders = none → FillAsks k w msg = none) := by
  refine ⟨?_, ?_, ?_⟩
  · intro h0 hb
    rw [sumAssetsAndPrice_of_bounded orders h0 hb]
    exact Option.some_ne_none _
  · intro hsome
    obtain ⟨t, ht⟩ := Option.ne_none_iff_exists'.mp hsome
    have heq := sumAssetsAndPrice_eq_orderTotals orders t ht
    rw [orderTotals_eq] at heq
    subst heq
    refine ⟨ht, fun hne => ?_⟩
    have hfalse : CoinsEquals (sumCoins (orders.map Order.GetPrice)) [msg.TotalPrice] =
        false := by
      rcases hne with hne | ⟨d1, d2, hd, h1, h2⟩
      · exact hne
      · cases hce : CoinsEquals (sumCoins (orders.map Order.GetPrice)) [msg.TotalPrice] with
        | false => rfl
        | true =>
          exfalso
          have e1 := amountOf_of_CoinsEquals _ _ hce d1
          have e2 := amountOf_of_CoinsEquals _ _ hce d2
          rw [amountOf_sumCoins, amountOf_cons, amountOf_nil] at e1 e2
          by_cases hd1 : msg.TotalPrice.Denom = d1
          · by_cases hd2 : msg.TotalPrice.Denom = d2
            · exact hd (hd1.symm.trans hd2)
            · rw [if_neg hd2] at e2
              exact h2 (by simpa using e2)
          · rw [if_neg hd1] at e1
            exact h1 (by simpa using e1)
    have hbuild : fillAsksSettlement k w.store msg orders =
        some (.error (.errorf "total price %q does not equal sum of ask order prices %q"
          [.coin msg.TotalPrice, .coins (sumCoins (orders.map Order.GetPrice))])) := by
      unfold fillAsksSettlement
      rw [ht]
      simp only [hfalse, Bool.not_false, if_true]
    unfold FillAsks
    simp only [hbasic, hmarket, huser, hfees, hfetch, hbuild]
  · intro hnone
    have hbuild : fillAsksSettlement k w.store msg orders = none := by
      unfold fillAsksSettlement
      rw [hnone]
    unfold FillAsks
    simp only [hbasic, hmarket, huser, hfees, hfetch, hbuild]

/-- C18, witness: buyer X asks to fill A1, A2 and A3, priced 150 unit-D in all, for 149. -/
theorem FillAsks_rejects_total_price_mismatch_witness :
    sumAssetsAndPrice [askA1, askA2, askA3] ≠ none ∧
    FillAsks sampleKeeper askWorld staleFillAsks =
      some (some (.errorf "total price %q does not equal sum of ask order prices %q"
        [.coin staleFillAsks.TotalPrice,
          .coins (sumCoins ([askA1, askA2, askA3].map Order.GetPrice))]), askWorld) :=
  ⟨by decide,
    ((FillAsks_rejects_total_price_mismatch sampleKeeper askWorld staleFillAsks
      [askA1, askA2, askA3] rfl rfl rfl rfl rfl).2.1 (by decide)).2 (Or.inl (by decide))⟩

/-- C18, counterexample to the claim as stated: buyer X asks to fill two asks priced 2^255
unit-D each for 150 unit-D. The request passes the validations, both asks are fetched, each
price is a value of `sdk.Int`, and 150 unit-D is not the sum of the prices; but that sum,
2^256 unit-D, does not fit an `sdk.Int`: `sumAssetsAndPrice` panics and `FillAsks` returns no
error. -/
theorem FillAsks_panics_on_price_overflow :
    sampleKeeper.getAskOrders hugeWorld.store hugeFillAsks.MarketId hugeFillAsks.AskOrderIds
      hugeFillAsks.Buyer = ([hugeAsk1, hugeAsk2], none) ∧
    inIntRange hugeAsk1.GetPrice.Amount = true ∧
    inIntRange hugeAsk2.GetPrice.Amount = true ∧
    CoinsEquals (sumCoins ([hugeAsk1, hugeAsk2].map Order.GetPrice))
      [hugeFillAsks.TotalPrice] = false ∧
    sumAssetsAndPrice [hugeAsk1, hugeAsk2] = none ∧
    FillAsks sampleKeeper hugeWorld hugeFillAsks = none ∧
    ¬ ∃ err, FillAsks sampleKeeper hugeWorld hugeFillAsks = some (some err, hugeWorld) := by
  have hnone : FillAsks sampleKeeper hugeWorld hugeFillAsks = none := rfl
  refine ⟨rfl, by decide, by decide, by decide, by decide, hnone, ?_⟩
  rintro ⟨err, herr⟩
  rw [hnone] at herr
  cases herr

/-- C19: in a `FillAsks` call that reaches `closeSettlement`, every fetched order is an ask and
the settlement has exactly two transfer legs, in this order: the first has one input per
distinct seller, in the order in which the sellers first appear in the fetched orders,
carrying the sum of the assets of the asks of that seller, and the single output (buyer, sum
of all the ask assets); the second has the single input (buyer, `TotalPrice`) and one output
per distinct seller, in the same order, carrying the sum of the prices of the asks of that
seller. -/
theorem FillAsks_transfer_legs (k : Keeper) (w : World) (msg : MsgFillAsksRequest)
    (orders : List Order) (settlement : Settlement)
    (h : FillAsksReaches k w msg orders settlement) :
    FillAsks k w msg =
      some (closeAndCollectCreationFee k w msg.MarketId msg.Buyer msg.BidOrderCreationFee
        settlement) ∧
    orders.map Order.GetAskOrder = (asksOf orders).map some ∧
    settlement.Transfers =
      [⟨(perAddress ((asksOf orders).map (fun a => (a.Seller, a.Assets)))).map
            (fun e => ⟨e.1, e.2⟩),
          [⟨msg.Buyer, sumCoins ((asksOf orders).map AskOrder.Assets)⟩]⟩,
        ⟨[⟨msg.Buyer, [msg.TotalPrice]⟩],
          (perAddress ((asksOf orders).map (fun a => (a.Seller, a.Price)))).map
            (fun e => ⟨e.1, e.2⟩)⟩] := by
  refine ⟨FillAsks_of_reaches k w msg orders settlement h, ?_⟩
  obtain ⟨_, loop, hloop, hst⟩ :=
    fillAsksSettlement_ok k w.store msg orders settlement h.2.2.2.2.2
  obtain ⟨hasks, hassets, _, hae, hpe⟩ :=
    fillAsks_loop_entries k w.store msg.MarketId orders ([], FillLoop.init) ([], loop) hloop
  refine ⟨hasks, ?_⟩
  have hinit1 : FillLoop.init.assetsAddrIdx.entries = [] := rfl
  have hinit2 : FillLoop.init.priceAddrIdx.entries = [] := rfl
  simp only [hinit1, hinit2, accumulate_eq_perAddress] at hae hpe
  rw [hst, orderTotals_eq, hassets]
  simp only [IndexedAddrAmts.GetAsOutputs, IndexedAddrAmts.GetAsInputs, hae, hpe]

/-- C19, witness: asks A1 (S, 10A, 100D), A2 (T, 4A, 40D) and A3 (S, 1A, 10D) filled by X give
the legs S->X:11A, T->X:4A and X->S:110D, X->T:40D, sellers in first-seen order. -/
theorem FillAsks_transfer_legs_witness :
    FillAsksReaches sampleKeeper askWorld threeFillAsks [askA1, askA2, askA3] askSettlement ∧
    askSettlement.Transfers =
      [⟨[⟨"S", [⟨"A", 11⟩]⟩, ⟨"T", [⟨"A", 4⟩]⟩], [⟨"X", [⟨"A", 15⟩]⟩]⟩,
        ⟨[⟨"X", [⟨"D", 150⟩]⟩], [⟨"S", [⟨"D", 110⟩]⟩, ⟨"T", [⟨"D", 40⟩]⟩]⟩] ∧
    askSettlement.Transfers =
      [⟨(perAddress ((asksOf [askA1, askA2, askA3]).map (fun a => (a.Seller, a.Assets)))).map
            (fun e => ⟨e.1, e.2⟩),
          [⟨threeFillAsks.Buyer,
            sumCoins ((asksOf [askA1, askA2, askA3]).map AskOrder.Assets)⟩]⟩,
        ⟨[⟨threeFillAsks.Buyer, [threeFillAsks.TotalPrice]⟩],
          (perAddress ((asksOf [askA1, askA2, askA3]).map (fun a => (a.Seller, a.Price)))).map
            (fun e => ⟨e.1, e.2⟩)⟩] :=
  have h : FillAsksReaches sampleKeeper askWorld threeFillAsks [askA1, askA2, askA3]
      askSettlement := ⟨rfl, rfl, rfl, rfl, rfl, rfl⟩
  ⟨h, rfl, (FillAsks_transfer_legs sampleKeeper askWorld threeFillAsks [askA1, askA2, askA3]
    askSettlement h).2.2⟩

/-! ## Accumulating contributions of several coins -/

theorem foldl_Add_entries (ps : List (String × List Coin)) (i : IndexedAddrAmts) :
    (ps.foldl (fun i p => IndexedAddrAmts.Add i p.1 p.2) i).entries =
      (ps.filter (fun p => !p.2.isEmpty)).foldl (fun es p => addEntry es p.1 p.2) i.entries := by
  induction ps generalizing i with
  | nil => rfl
  | cons p ps ih =>
    rw [List.foldl_cons, ih]
    obtain ⟨a, cs⟩ := p
    cases cs with
    | nil => simp [IndexedAddrAmts.Add]
    | cons c cs => simp [IndexedAddrAmts.Add]

theorem accumulate_eq_general (qs : List (String × List Coin)) :
    qs.foldl (fun es p => addEntry es p.1 p.2) [] =
      (firstSeen (qs.map Prod.fst)).map
        (fun a => (a, ((qs.filter (fun p => p.1 = a)).map Prod.snd).foldl Coins.plus [])) := by
  induction qs using List.reverseRecOn with
  | nil => rfl
  | append_singleton ps p ih =>
    rw [List.foldl_append, ih]
    simp only [List.foldl_cons, List.foldl_nil]
    rw [List.map_append, List.map_singleton, firstSeen_snoc]
    by_cases h : p.1 ∈ ps.map Prod.fst
    · rw [if_pos h, addEntry_map_of_mem _ _ _ _ (firstSeen_nodup _) ((mem_firstSeen _ _).mpr h)]
      apply List.map_congr_left
      intro a _
      by_cases hap : a = p.1
      · subst hap
        simp [List.filter_append, List.foldl_append]
      · have hpa : ¬ p.1 = a := fun hc => hap hc.symm
        simp [List.filter_append, hap, hpa]
    · rw [if_neg h, addEntry_map_of_not_mem _ _ _ _ (fun hm => h ((mem_firstSeen _ _).mp hm)),
        List.map_append]
      congr 1
      · apply List.map_congr_left
        intro a ha
        have hap : ¬ p.1 = a := by
          intro hc
          exact h (hc ▸ (mem_firstSeen _ _).mp ha)
        simp [List.filter_append, hap]
      · have hnone : ps.filter (fun q => q.1 = p.1) = [] := by
          rw [List.filter_eq_nil_iff]
          intro q hq hq1
          exact h (List.mem_map.mpr ⟨q, hq, of_decide_eq_true hq1⟩)
        simp [List.filter_append, hnone]

/-- Adding contributions one by one to an empty accumulator yields the per-address amounts. -/
theorem foldl_Add_eq_perAddressAmounts (ps : List (String × List Coin)) :
    (ps.foldl (fun i p => IndexedAddrAmts.Add i p.1 p.2) NewIndexedAddrAmts).entries =
      perAddressAmounts ps := by
  rw [foldl_Add_entries, perAddressAmounts]
  exact accumulate_eq_general _

theorem addEntry_of_not_mem (es : List (String × Coins)) (addr : String) (coins : List Coin)
    (h : addr ∉ es.map Prod.fst) :
    addEntry es addr coins = es ++ [(addr, Coins.plus [] coins)] := by
  induction es with
  | nil => rfl
  | cons e es ih =>
    simp only [List.map_cons, List.mem_cons, not_or] at h
    simp only [addEntry]
    rw [if_neg (fun hc => h.1 hc.symm), ih h.2]
    rfl

theorem addEntry_fst (es : List (String × Coins)) (addr : String) (coins : List Coin) :
    (addEntry es addr coins).map Prod.fst =
      if addr ∈ es.map Prod.fst then es.map Prod.fst else es.map Prod.fst ++ [addr] := by
  induction es with
  | nil => simp [addEntry]
  | cons e es ih =>
    simp only [addEntry]
    by_cases h : e.1 = addr
    · simp [h]
    · have h2 : ¬ addr = e.1 := fun hc => h hc.symm
      rw [if_neg h, List.map_cons, ih]
      by_cases hm : addr ∈ es.map Prod.fst
      · simp [hm, h2]
      · simp [hm, h2]

theorem fillBidsStep_fees (acc acc1 : FillLoop) (order : Order)
    (h : fillBidsStep acc order = some acc1) :
    ∃ bidOrder, order.GetBidOrder = some bidOrder ∧
      acc1.feeAddrIdx = acc.feeAddrIdx.Add bidOrder.Buyer bidOrder.BuyerSettlementFees ∧
      acc1.FullyFilledOrders = acc.FullyFilledOrders ++
        [⟨order, bidOrder.Price, bidOrder.BuyerSettlementFees⟩] := by
  unfold fillBidsStep at h
  cases hb : order.GetBidOrder with
  | none => rw [hb] at h; simp at h
  | some bidOrder =>
    rw [hb] at h
    simp only [Option.some.injEq] at h
    subst h
    exact ⟨bidOrder, rfl, rfl, rfl⟩

/-- The fee accumulator and the filled orders after the order loop of `FillBids`. -/
theorem fillBids_loop_fees (orders : List Order) (acc loop : FillLoop)
    (h : orders.foldlM fillBidsStep acc = some loop) :
    loop.feeAddrIdx =
      (buyerFeePairs orders).foldl (fun i p => IndexedAddrAmts.Add i p.1 p.2)
        acc.feeAddrIdx ∧
    loop.FullyFilledOrders = acc.FullyFilledOrders ++
      orders.filterMap (fun o => o.GetBidOrder.map
        (fun b => (⟨o, b.Price, b.BuyerSettlementFees⟩ : FilledOrder))) ∧
    (orders.filterMap (fun o => o.GetBidOrder.map
        (fun b => (⟨o, b.Price, b.BuyerSettlementFees⟩ : FilledOrder)))).map
      FilledOrder.order = orders := by
  induction orders generalizing acc with
  | nil =>
    simp only [List.foldlM_nil, pure, Option.some.injEq] at h
    subst h
    simp [buyerFeePairs, bidsOf]
  | cons o os ih =>
    rw [List.foldlM_cons] at h
    cases hstep : fillBidsStep acc o with
    | none => rw [hstep] at h; simp at h
    | some acc1 =>
      rw [hstep] at h
      simp only [Option.some_bind, bind, Option.bind] at h
      obtain ⟨b, hb, hfee, hfilled⟩ := fillBidsStep_fees acc acc1 o hstep
      obtain ⟨i1, i2, i3⟩ := ih acc1 h
      refine ⟨?_, ?_, ?_⟩
      · rw [i1, hfee]
        simp [buyerFeePairs, bidsOf, List.filterMap_cons, hb]
      · rw [i2, hfilled]
        simp [List.filterMap_cons, hb]
      · simp only [List.filterMap_cons, hb, Option.map_some', List.map_cons]
        rw [i3]

/-- The whole settlement built by `FillBids`, read off the accumulators of the order loop. -/
theorem fillBidsSettlement_full (k : Keeper) (store : KVStore) (msg : MsgFillBidsRequest)
    (orders : List Order) (settlement : Settlement)
    (h : fillBidsSettlement k store msg orders = some (.ok settlement)) :
    ∃ loop, orders.foldlM fillBidsStep FillLoop.init = some loop ∧
      settlement.FeeInputs =
        (loop.feeAddrIdx.Add msg.Seller (totalSellerFee k store msg orders)).GetAsInputs ∧
      settlement.FullyFilledOrders = loop.FullyFilledOrders ∧
      settlement.PartialOrderFilled = none ∧ settlement.PartialOrderLeft = none := by
  obtain ⟨_, _, loop, hloop, hset⟩ := fillBidsSettlement_parts k store msg orders settlement h
  exact ⟨loop, hloop, by rw [hset], by rw [hset], by rw [hset], by rw [hset]⟩

/-- The fee inputs of a settlement built by `FillBids`: the contributions of the buyers, in
order, then the contribution of the seller. -/
theorem fillBids_feeInputs (k : Keeper) (store : KVStore) (msg : MsgFillBidsRequest)
    (orders : List Order) (settlement : Settlement)
    (h : fillBidsSettlement k store msg orders = some (.ok settlement)) :
    settlement.FeeInputs =
      ((IndexedAddrAmts.mk (perAddressAmounts (buyerFeePairs orders))).Add msg.Seller
        (totalSellerFee k store msg orders)).GetAsInputs := by
  obtain ⟨loop, hloop, hfi, _, _, _⟩ := fillBidsSettlement_full k store msg orders settlement h
  obtain ⟨hfee, _, _⟩ := fillBids_loop_fees orders FillLoop.init loop hloop
  have hentries : loop.feeAddrIdx = ⟨perAddressAmounts (buyerFeePairs orders)⟩ := by
    have := foldl_Add_eq_perAddressAmounts (buyerFeePairs orders)
    rw [hfee]
    cases hx : (buyerFeePairs orders).foldl (fun i p => IndexedAddrAmts.Add i p.1 p.2)
      FillLoop.init.feeAddrIdx with
    | mk entries =>
      have hinit : FillLoop.init.feeAddrIdx = NewIndexedAddrAmts := rfl
      rw [hinit] at hx
      rw [hx] at this
      simp only at this
      rw [this]
  rw [hfi, hentries]

theorem foldl_Add_eq_mk (ps : List (String × List Coin)) :
    ps.foldl (fun i p => IndexedAddrAmts.Add i p.1 p.2) NewIndexedAddrAmts =
      ⟨perAddressAmounts ps⟩ := by
  have h := foldl_Add_eq_perAddressAmounts ps
  cases hx : ps.foldl (fun i p => IndexedAddrAmts.Add i p.1 p.2) NewIndexedAddrAmts with
  | mk entries =>
    rw [hx] at h
    simp only at h
    rw [h]

/-- Adding one more contribution to the per-address amounts of a list of contributions gives
the per-address amounts of the longer list. -/
theorem Add_perAddressAmounts (ps : List (String × List Coin)) (addr : String)
    (coins : List Coin) :
    (IndexedAddrAmts.mk (perAddressAmounts ps)).Add addr coins =
      ⟨perAddressAmounts (ps ++ [(addr, coins)])⟩ := by
  rw [← foldl_Add_eq_mk (ps ++ [(addr, coins)]), List.foldl_append, foldl_Add_eq_mk ps]
  rfl

theorem perAddressAmounts_fst (ps : List (String × List Coin)) :
    (perAddressAmounts ps).map Prod.fst =
      firstSeen ((ps.filter (fun p => !p.2.isEmpty)).map Prod.fst) := by
  unfold perAddressAmounts
  rw [List.map_map]
  exact List.map_id'' (fun _ => rfl) _

theorem perAddressAmounts_fst_subset (ps : List (String × List Coin)) (a : String)
    (h : a ∈ (perAddressAmounts ps).map Prod.fst) : a ∈ ps.map Prod.fst := by
  rw [perAddressAmounts_fst, mem_firstSeen] at h
  obtain ⟨p, hp, hpa⟩ := List.mem_map.mp h
  exact List.mem_map.mpr ⟨p, (List.mem_filter.mp hp).1, hpa⟩

/-- The addresses of an accumulator after one more contribution: the address is appended
unless it is already there or contributes no coins. -/
theorem Add_addresses (es : List (String × Coins)) (addr : String) (coins : List Coin) :
    ((IndexedAddrAmts.mk es).Add addr coins).entries.map Prod.fst =
      es.map Prod.fst ++
        (if addr ∈ es.map Prod.fst ∨ coins = [] then [] else [addr]) := by
  cases coins with
  | nil => simp [IndexedAddrAmts.Add]
  | cons c cs =>
    simp only [IndexedAddrAmts.Add, addEntry_fst]
    by_cases h : addr ∈ es.map Prod.fst
    · simp [h]
    · simp [h]

/-- An address that is not yet in the accumulator and contributes coins gets the last
entry. -/
theorem Add_of_not_mem (es : List (String × Coins)) (addr : String) (coins : List Coin)
    (h : addr ∉ es.map Prod.fst) (hc : coins ≠ []) :
    ((IndexedAddrAmts.mk es).Add addr coins).entries = es ++ [(addr, Coins.plus [] coins)] := by
  cases coins with
  | nil => exact absurd rfl hc
  | cons c cs =>
    simp only [IndexedAddrAmts.Add]
    exact addEntry_of_not_mem es addr (c :: cs) h

/-! ## Claims on the fees of `FillBids` -/

/-- C11: in a `FillBids` call that reaches `closeSettlement`, the fee inputs are the
accumulated fees of the buyers to which one contribution is added for the seller: the supplied
flat settlement fee (nothing if absent) plus the seller ratio fee calculated on each coin of
the summed total price of the fetched orders (nothing for a coin without a fee); the total
price has one coin per denomination, so the ratio fee is calculated once per price
denomination, on the aggregate. -/
theorem FillBids_seller_fee (k : Keeper) (w : World) (msg : MsgFillBidsRequest)
    (orders : List Order) (settlement : Settlement)
    (h : FillBidsReaches k w msg orders settlement) :
    FillBids k w msg =
      some (closeAndCollectCreationFee k w msg.MarketId msg.Seller msg.AskOrderCreationFee
        settlement) ∧
    settlement.FeeInputs =
      ((IndexedAddrAmts.mk (perAddressAmounts (buyerFeePairs orders))).Add msg.Seller
        (sumCoins (msg.SellerSettlementFlatFee.toList ++
          (sumCoins (orders.map Order.GetPrice)).filterMap
            (fun price =>
              (k.calculateSellerSettlementRatioFee w.store msg.MarketId price).1)))).GetAsInputs ∧
    ((sumCoins (orders.map Order.GetPrice)).map Coin.Denom).Nodup ∧
    ∀ d, Coins.amountOf (totalSellerFee k w.store msg orders) d =
      Coins.amountOf msg.SellerSettlementFlatFee.toList d +
        Coins.amountOf ((sumCoins (orders.map Order.GetPrice)).filterMap
          (fun price => (k.calculateSellerSettlementRatioFee w.store msg.MarketId price).1)) d := by
  refine ⟨FillBids_of_reaches k w msg orders settlement h, ?_, denoms_sumCoins_nodup _, ?_⟩
  · exact fillBids_feeInputs k w.store msg orders settlement h.2.2.2.2.2
  · intro d
    unfold totalSellerFee sellerRatioFees
    rw [amountOf_sumCoins, amountOf_append]

/-- C11, witness: S fills B4 and B5, priced 30 unit-D in all, with a flat fee of 5 unit-F, in
a market charging 1 unit-D per calculation: the seller owes 1 unit-D and 5 unit-F. -/
theorem FillBids_seller_fee_witness :
    FillBidsReaches ratioKeeper feeWorld feeFillBids [bidB4, bidB5] feeSettlement ∧
    totalSellerFee ratioKeeper feeWorld.store feeFillBids [bidB4, bidB5] =
      [⟨"D", 1⟩, ⟨"F", 5⟩] ∧
    feeSettlement.FeeInputs =
      ((IndexedAddrAmts.mk (perAddressAmounts (buyerFeePairs [bidB4, bidB5]))).Add
        feeFillBids.Seller
        (sumCoins (feeFillBids.SellerSettlementFlatFee.toList ++
          (sumCoins ([bidB4, bidB5].map Order.GetPrice)).filterMap
            (fun price => (ratioKeeper.calculateSellerSettlementRatioFee feeWorld.store
              feeFillBids.MarketId price).1)))).GetAsInputs :=
  have h : FillBidsReaches ratioKeeper feeWorld feeFillBids [bidB4, bidB5] feeSettlement :=
    ⟨rfl, rfl, rfl, rfl, rfl, rfl⟩
  ⟨h, by decide,
    (FillBids_seller_fee ratioKeeper feeWorld feeFillBids [bidB4, bidB5] feeSettlement h).2.1⟩

/-- C12: in a `FillBids` call that reaches `closeSettlement`, the fee inputs are the
per-address amounts of the buyer settlement fees of the bids, taken in fetched order, followed
by the total fee of the seller as the last contribution: the buyers that owe fees come in
first-seen order, and the entry of the seller comes after them, last whenever the seller owes
a fee and is not one of the buyers. -/
theorem FillBids_fee_inputs_order (k : Keeper) (w : World) (msg : MsgFillBidsRequest)
    (orders : List Order) (settlement : Settlement)
    (h : FillBidsReaches k w msg orders settlement) :
    FillBids k w msg =
      some (closeAndCollectCreationFee k w msg.MarketId msg.Seller msg.AskOrderCreationFee
        settlement) ∧
    settlement.FeeInputs =
      entryInputs (perAddressAmounts
        (buyerFeePairs orders ++ [(msg.Seller, totalSellerFee k w.store msg orders)])) ∧
    settlement.FeeInputs.map Input.Address =
      firstSeen (((buyerFeePairs orders).filter (fun p => !p.2.isEmpty)).map Prod.fst) ++
        (if msg.Seller ∈ (perAddressAmounts (buyerFeePairs orders)).map Prod.fst ∨
            totalSellerFee k w.store msg orders = [] then []
          else [msg.Seller]) ∧
    (msg.Seller ∉ (bidsOf orders).map BidOrder.Buyer →
      totalSellerFee k w.store msg orders ≠ [] →
      settlement.FeeInputs =
        entryInputs (perAddressAmounts (buyerFeePairs orders)) ++
          [⟨msg.Seller, Coins.plus [] (totalSellerFee k w.store msg orders)⟩]) := by
  have hfi := fillBids_feeInputs k w.store msg orders settlement h.2.2.2.2.2
  refine ⟨FillBids_of_reaches k w msg orders settlement h, ?_, ?_, ?_⟩
  · rw [hfi, Add_perAddressAmounts]
    rfl
  · rw [hfi]
    have := Add_addresses (perAddressAmounts (buyerFeePairs orders)) msg.Seller
      (totalSellerFee k w.store msg orders)
    have h1 : ∀ i : IndexedAddrAmts,
        i.GetAsInputs.map Input.Address = i.entries.map Prod.fst := by
      intro i
      simp [IndexedAddrAmts.GetAsInputs, List.map_map, Function.comp_def]
    rw [h1, this, perAddressAmounts_fst]
  · intro hseller hfee
    have hnot : msg.Seller ∉ (perAddressAmounts (buyerFeePairs orders)).map Prod.fst := by
      intro hm
      have := perAddressAmounts_fst_subset _ _ hm
      apply hseller
      simpa [buyerFeePairs, List.map_map, Function.comp_def] using this
    rw [hfi]
    simp only [IndexedAddrAmts.GetAsInputs, Add_of_not_mem _ _ _ hnot hfee, entryInputs,
      List.map_append, List.map_cons, List.map_nil]

/-- C12, witness: the fee inputs of the settlement of B4 and B5 are those of buyers X and Y, in
this order, then the one of seller S. -/
theorem FillBids_fee_inputs_order_witness :
    FillBidsReaches ratioKeeper feeWorld feeFillBids [bidB4, bidB5] feeSettlement ∧
    feeSettlement.FeeInputs =
      [⟨"X", [⟨"F", 3⟩]⟩, ⟨"Y", [⟨"F", 4⟩]⟩, ⟨"S", [⟨"D", 1⟩, ⟨"F", 5⟩]⟩] ∧
    feeSettlement.FeeInputs =
      entryInputs (perAddressAmounts (buyerFeePairs [bidB4, bidB5])) ++
        [⟨feeFillBids.Seller,
          Coins.plus [] (totalSellerFee ratioKeeper feeWorld.store feeFillBids [bidB4, bidB5])⟩] :=
  have h : FillBidsReaches ratioKeeper feeWorld feeFillBids [bidB4, bidB5] feeSettlement :=
    ⟨rfl, rfl, rfl, rfl, rfl, rfl⟩
  ⟨h, rfl,
    (FillBids_fee_inputs_order ratioKeeper feeWorld feeFillBids [bidB4, bidB5] feeSettlement
      h).2.2.2 (by decide) (by decide)⟩

/-- C13: in a `FillBids` call that reaches `closeSettlement` with no seller flat settlement
fee, no seller ratio fee for any coin of the total price of the fetched bids, and no buyer
settlement fees on any fetched bid, the settlement has no fee input at all. -/
theorem FillBids_no_fee_inputs (k : Keeper) (w : World) (msg : MsgFillBidsRequest)
    (orders : List Order) (settlement : Settlement)
    (h : FillBidsReaches k w msg orders settlement)
    (hflat : msg.SellerSettlementFlatFee = none)
    (hratio : ∀ price ∈ sumCoins (orders.map Order.GetPrice),
      (k.calculateSellerSettlementRatioFee w.store msg.MarketId price).1 = none)
    (hbuyers : ∀ b ∈ bidsOf orders, b.BuyerSettlementFees = []) :
    settlement.FeeInputs = [] := by
  rw [fillBids_feeInputs k w.store msg orders settlement h.2.2.2.2.2]
  have htotal : totalSellerFee k w.store msg orders = [] := by
    unfold totalSellerFee sellerRatioFees
    have : (sumCoins (orders.map Order.GetPrice)).filterMap
        (fun price => (k.calculateSellerSettlementRatioFee w.store msg.MarketId price).1) =
        [] := by
      rw [List.filterMap_eq_nil_iff]
      exact hratio
    rw [this, hflat]
    rfl
  have hnone : (buyerFeePairs orders).filter (fun p => !p.2.isEmpty) = [] := by
    rw [List.filter_eq_nil_iff]
    intro p hp
    obtain ⟨b, hb, hbp⟩ := List.mem_map.mp hp
    rw [← hbp]
    simp [hbuyers b hb]
  rw [htotal]
  simp [IndexedAddrAmts.Add, IndexedAddrAmts.GetAsInputs, perAddressAmounts, hnone, firstSeen]

/-- C13, witness: the settlement of B1 and B2, filled without any fee in a market without
ratio, has zero fee inputs. -/
theorem FillBids_no_fee_inputs_witness :
    FillBidsReaches sampleKeeper sampleWorld sampleFillBids [bidB1, bidB2] fillSettlement ∧
    fillSettlement.FeeInputs = [] :=
  have h : FillBidsReaches sampleKeeper sampleWorld sampleFillBids [bidB1, bidB2]
      fillSettlement := ⟨rfl, rfl, rfl, rfl, rfl, rfl⟩
  ⟨h, FillBids_no_fee_inputs sampleKeeper sampleWorld sampleFillBids [bidB1, bidB2]
    fillSettlement h rfl (fun _ _ => rfl) (by decide)⟩

/-! ## The fees of `FillAsks` -/

theorem fillAsksStep_fees (k : Keeper) (store : KVStore) (marketID : Nat)
    (acc acc1 : List Err × FillLoop) (order : Order)
    (h : fillAsksStep k store marketID acc order = some acc1) :
    ∃ askOrder, order.GetAskOrder = some askOrder ∧
      acc1.2.feeAddrIdx =
        acc.2.feeAddrIdx.Add askOrder.Seller (askSellerFees k store marketID askOrder) ∧
      acc1.2.FullyFilledOrders = acc.2.FullyFilledOrders ++
        [⟨order, askOrder.Price, askSellerFees k store marketID askOrder⟩] := by
  obtain ⟨askOrder, ha, hacc⟩ := fillAsksStep_eq k store marketID acc acc1 order h
  subst hacc
  exact ⟨askOrder, ha, rfl, rfl⟩

/-- The fee accumulator and the filled orders after the order loop of `FillAsks`. -/
theorem fillAsks_loop_fees (k : Keeper) (store : KVStore) (marketID : Nat)
    (orders : List Order) (acc loop : List Err × FillLoop)
    (h : orders.foldlM (fillAsksStep k store marketID) acc = some loop) :
    loop.2.feeAddrIdx =
      (sellerFeePairs k store marketID orders).foldl
        (fun i p => IndexedAddrAmts.Add i p.1 p.2) acc.2.feeAddrIdx ∧
    loop.2.FullyFilledOrders = acc.2.FullyFilledOrders ++
      orders.filterMap (fun o => o.GetAskOrder.map
        (fun a => (⟨o, a.Price, askSellerFees k store marketID a⟩ : FilledOrder))) ∧
    (orders.filterMap (fun o => o.GetAskOrder.map
        (fun a => (⟨o, a.Price, askSellerFees k store marketID a⟩ : FilledOrder)))).map
      FilledOrder.order = orders := by
  induction orders generalizing acc with
  | nil =>
    simp only [List.foldlM_nil, pure, Option.some.injEq] at h
    subst h
    simp [sellerFeePairs, asksOf]
  | cons o os ih =>
    rw [List.foldlM_cons] at h
    cases hstep : fillAsksStep k store marketID acc o with
    | none => rw [hstep] at h; simp at h
    | some acc1 =>
      rw [hstep] at h
      simp only [Option.some_bind, bind, Option.bind] at h
      obtain ⟨a, ha, hfee, hfilled⟩ := fillAsksStep_fees k store marketID acc acc1 o hstep
      obtain ⟨i1, i2, i3⟩ := ih acc1 h
      refine ⟨?_, ?_, ?_⟩
      · rw [i1, hfee]
        simp [sellerFeePairs, asksOf, List.filterMap_cons, ha]
      · rw [i2, hfilled]
        simp [List.filterMap_cons, ha]
      · simp only [List.filterMap_cons, ha, Option.map_some', List.map_cons]
        rw [i3]

/-- C17: in a `FillAsks` call that reaches `closeSettlement`, the seller ratio fee is
calculated for each fetched ask order on the price of that order; the filled order of each ask
records, as realized fees, the settlement fees of the order plus that ratio fee (nothing added
when no fee is returned), and the same amount is contributed to the fee inputs for its seller;
the buyer settlement fees of the request are contributed after those of all the sellers, so
the entry of the buyer comes after them, last whenever the buyer owes fees and is not one of
the sellers. -/
theorem FillAsks_seller_fees_per_order (k : Keeper) (w : World) (msg : MsgFillAsksRequest)
    (orders : List Order) (settlement : Settlement)
    (h : FillAsksReaches k w msg orders settlement) :
    FillAsks k w msg =
      some (closeAndCollectCreationFee k w msg.MarketId msg.Buyer msg.BidOrderCreationFee
        settlement) ∧
    settlement.FullyFilledOrders =
      orders.filterMap (fun o => o.GetAskOrder.map
        (fun a => (⟨o, a.Price,
          match (k.calculateSellerSettlementRatioFee w.store msg.MarketId a.Price).1 with
          | some sellerRatioFee => Coins.plus a.GetSettlementFees [sellerRatioFee]
          | none => a.GetSettlementFees⟩ : FilledOrder))) ∧
    settlement.FullyFilledOrders.map FilledOrder.order = orders ∧
    settlement.FeeInputs =
      entryInputs (perAddressAmounts
        ((asksOf orders).map (fun a => (a.Seller,
          match (k.calculateSellerSettlementRatioFee w.store msg.MarketId a.Price).1 with
          | some sellerRatioFee => Coins.plus a.GetSettlementFees [sellerRatioFee]
          | none => a.GetSettlementFees)) ++
        [(msg.Buyer, msg.BuyerSettlementFees)])) ∧
    (msg.Buyer ∉ (asksOf orders).map AskOrder.Seller → msg.BuyerSettlementFees ≠ [] →
      settlement.FeeInputs =
        entryInputs (perAddressAmounts (sellerFeePairs k w.store msg.MarketId orders)) ++
          [⟨msg.Buyer, Coins.plus [] msg.BuyerSettlementFees⟩]) := by
  obtain ⟨_, loop, hloop, hst⟩ :=
    fillAsksSettlement_ok k w.store msg orders settlement h.2.2.2.2.2
  obtain ⟨hfee, hfilled, hord⟩ :=
    fillAsks_loop_fees k w.store msg.MarketId orders ([], FillLoop.init) ([], loop) hloop
  have hinit : FillLoop.init.feeAddrIdx = NewIndexedAddrAmts := rfl
  simp only [hinit, foldl_Add_eq_mk] at hfee
  have hfi : settlement.FeeInputs =
      ((IndexedAddrAmts.mk (perAddressAmounts (sellerFeePairs k w.store msg.MarketId
        orders))).Add msg.Buyer msg.BuyerSettlementFees).GetAsInputs := by
    rw [hst, ← hfee]
  have hff : settlement.FullyFilledOrders =
      orders.filterMap (fun o => o.GetAskOrder.map
        (fun a => (⟨o, a.Price, askSellerFees k w.store msg.MarketId a⟩ : FilledOrder))) := by
    rw [hst]
    simp only [FillLoop.init, List.nil_append] at hfilled
    exact hfilled
  refine ⟨FillAsks_of_reaches k w msg orders settlement h, hff, ?_, ?_, ?_⟩
  · rw [hff, hord]
  · rw [hfi, Add_perAddressAmounts]
    rfl
  · intro hbuyer hfees
    have hnot : msg.Buyer ∉
        (perAddressAmounts (sellerFeePairs k w.store msg.MarketId orders)).map Prod.fst := by
      intro hm
      have := perAddressAmounts_fst_subset _ _ hm
      apply hbuyer
      simpa [sellerFeePairs, List.map_map, Function.comp_def] using this
    rw [hfi]
    simp only [IndexedAddrAmts.GetAsInputs, Add_of_not_mem _ _ _ hnot hfees, entryInputs,
      List.map_append, List.map_cons, List.map_nil]

/-- C17, witness: X fills A1 (seller S), A2 (seller T) and A3 (seller S) in a market charging
1 unit-D per calculation: each order records 1 unit-D, S owes 2 unit-D, T owes 1 unit-D, and
the 7 unit-F of buyer X come last. -/
theorem FillAsks_seller_fees_per_order_witness :
    FillAsksReaches ratioKeeper askWorld feeFillAsks [askA1, askA2, askA3] feeAskSettlement ∧
    feeAskSettlement.FullyFilledOrders.map FilledOrder.actualFees =
      [[⟨"D", 1⟩], [⟨"D", 1⟩], [⟨"D", 1⟩]] ∧
    feeAskSettlement.FeeInputs =
      [⟨"S", [⟨"D", 2⟩]⟩, ⟨"T", [⟨"D", 1⟩]⟩, ⟨"X", [⟨"F", 7⟩]⟩] ∧
    feeAskSettlement.FeeInputs =
      entryInputs (perAddressAmounts (sellerFeePairs ratioKeeper askWorld.store
          feeFillAsks.MarketId [askA1, askA2, askA3])) ++
        [⟨feeFillAsks.Buyer, Coins.plus [] feeFillAsks.BuyerSettlementFees⟩] :=
  have h : FillAsksReaches ratioKeeper askWorld feeFillAsks [askA1, askA2, askA3]
      feeAskSettlement := ⟨rfl, rfl, rfl, rfl, rfl, rfl⟩
  ⟨h, rfl, rfl,
    (FillAsks_seller_fees_per_order ratioKeeper askWorld feeFillAsks [askA1, askA2, askA3]
      feeAskSettlement h).2.2.2.2 (by decide) (by decide)⟩

/-! ## Claims on the end of `FillBids` -/

/-- No call of `closeSettlement` is a `CollectFee`. -/
theorem closeSettlement_no_collectFee (k : Keeper) (w : World) (marketID : Nat)
    (settlement : Settlement) :
    ∃ trace, (closeSettlement k w marketID settlement).2.calls = w.calls ++ trace ∧
      ∀ c ∈ trace, c.isCollectFee = false := by
  rcases closeSettlement_calls_shape k w marketID settlement with ⟨_, hc⟩ | ⟨_, tail, hc, ht⟩
  · refine ⟨(releaseTargets settlement).map Call.releaseHoldOnOrder, by rw [hc]; rfl, ?_⟩
    intro c hcm
    obtain ⟨o, _, ho⟩ := List.mem_map.mp hcm
    rw [← ho]; rfl
  · refine ⟨(releaseTargets settlement).map Call.releaseHoldOnOrder ++
      settlement.Transfers.map transferCall ++
      [Call.CollectFees marketID settlement.FeeInputs] ++ tail, ?_, ?_⟩
    · rw [hc]
      simp [afterFees, afterTransfers, afterRelease, World.record, List.append_assoc]
    · intro c hcm
      rcases List.mem_append.mp hcm with h1 | h1
      · rcases List.mem_append.mp h1 with h2 | h2
        · rcases List.mem_append.mp h2 with h3 | h3
          · obtain ⟨o, _, ho⟩ := List.mem_map.mp h3
            rw [← ho]; rfl
          · obtain ⟨t, _, ht2⟩ := List.mem_map.mp h3
            rw [← ht2]; rfl
        · simp at h2
          rw [h2]; rfl
      · rcases ht c h1 with h2 | h2 <;> cases c <;> simp_all [Call.isOrderWrite, Call.isEmit,
          Call.isCollectFee]

/-- A `FillBids` that returns either returns an error and leaves the world as it was, or
reaches `closeSettlement`. -/
theorem FillBids_cases (k : Keeper) (w : World) (msg : MsgFillBidsRequest)
    (r : Option Err × World) (h : FillBids k w msg = some r) :
    (∃ e, r = (some e, w)) ∨ ∃ orders settlement, FillBidsReaches k w msg orders settlement := by
  unfold FillBids at h
  repeat' split at h
  all_goals first
    | (simp only [Option.some.injEq] at h; subst h; left; exact ⟨_, rfl⟩)
    | (right; rename_i orders _ _ settlement _; refine ⟨orders, settlement, ?_⟩
       unfold FillBidsReaches; refine ⟨?_, ?_, ?_, ?_, ?_, ?_⟩ <;> assumption)
    | simp at h

/-- A `FillAsks` that returns either returns an error and leaves the world as it was, or
reaches `closeSettlement`. -/
theorem FillAsks_cases (k : Keeper) (w : World) (msg : MsgFillAsksRequest)
    (r : Option Err × World) (h : FillAsks k w msg = some r) :
    (∃ e, r = (some e, w)) ∨ ∃ orders settlement, FillAsksReaches k w msg orders settlement := by
  unfold FillAsks at h
  repeat' split at h
  all_goals first
    | (simp only [Option.some.injEq] at h; subst h; left; exact ⟨_, rfl⟩)
    | (right; rename_i orders _ _ settlement _; refine ⟨orders, settlement, ?_⟩
       unfold FillAsksReaches; refine ⟨?_, ?_, ?_, ?_, ?_, ?_⟩ <;> assumption)
    | simp at h

/-- When the settlement closes and a creation fee is supplied, the end of `FillBids` and
`FillAsks` is the closing followed by the collection of the creation fee. -/
theorem closeAndCollectCreationFee_of_fee (k : Keeper) (w : World) (marketID : Nat)
    (payer : String) (fee : Coin) (settlement : Settlement)
    (h : (closeSettlement k w marketID settlement).1 = none) :
    ∃ res, closeAndCollectCreationFee k w marketID payer (some fee) settlement =
      (res, ⟨(closeSettlement k w marketID settlement).2.store,
        (closeSettlement k w marketID settlement).2.calls ++
          [Call.CollectFee marketID payer [fee]]⟩) := by
  unfold closeAndCollectCreationFee
  rcases hcs : closeSettlement k w marketID settlement with ⟨res, w1⟩
  rw [hcs] at h
  simp only at h
  subst h
  simp only
  cases k.CollectFee w1 marketID payer [fee] with
  | none => exact ⟨none, rfl⟩
  | some err => exact ⟨_, rfl⟩

/-- When the settlement does not close or no creation fee is supplied, the end of `FillBids`
and `FillAsks` is the closing alone. -/
theorem closeAndCollectCreationFee_of_none (k : Keeper) (w : World) (marketID : Nat)
    (payer : String) (creationFee : Option Coin) (settlement : Settlement)
    (h : creationFee = none ∨ (closeSettlement k w marketID settlement).1 ≠ none) :
    closeAndCollectCreationFee k w marketID payer creationFee settlement =
      closeSettlement k w marketID settlement := by
  unfold closeAndCollectCreationFee
  rcases hcs : closeSettlement k w marketID settlement with ⟨res, w1⟩
  rw [hcs] at h
  cases res with
  | some err => rfl
  | none =>
    rcases h with h | h
    · rw [h]
    · exact absurd rfl h

/-- C14: in `FillBids` the settlement, and so its fee inputs, do not depend on the ask order
creation fee of the request; a call that returns has either changed nothing or reached
`closeSettlement`; `closeSettlement` itself never calls `CollectFee`; when the creation fee is
present and `closeSettlement` returned nil, whose last call is the emission of the events,
`FillBids` makes exactly one more call, `CollectFee(market, seller, {fee})`, its last; and when
the fee is absent or `closeSettlement` failed, `FillBids` makes no call beyond those of
`closeSettlement`. -/
theorem FillBids_creation_fee_collected_last (k : Keeper) (w : World)
    (msg : MsgFillBidsRequest) :
    (∀ orders creationFee,
      fillBidsSettlement k w.store { msg with AskOrderCreationFee := creationFee } orders =
        fillBidsSettlement k w.store msg orders) ∧
    (∀ r, FillBids k w msg = some r →
      (∃ e, r = (some e, w)) ∨ ∃ orders settlement, FillBidsReaches k w msg orders settlement) ∧
    (∀ orders settlement, FillBidsReaches k w msg orders settlement →
      (∃ trace, (closeSettlement k w msg.MarketId settlement).2.calls = w.calls ++ trace ∧
        ∀ c ∈ trace, c.isCollectFee = false) ∧
      (∀ fee, msg.AskOrderCreationFee = some fee →
        (closeSettlement k w msg.MarketId settlement).1 = none →
        ∃ res before,
          (closeSettlement k w msg.MarketId settlement).2.calls =
            before ++ [Call.emitEvents (eventBatch settlement)] ∧
          FillBids k w msg =
            some (res, ⟨(closeSettlement k w msg.MarketId settlement).2.store,
              (closeSettlement k w msg.MarketId settlement).2.calls ++
                [Call.CollectFee msg.MarketId msg.Seller [fee]]⟩)) ∧
      ((msg.AskOrderCreationFee = none ∨
          (closeSettlement k w msg.MarketId settlement).1 ≠ none) →
        FillBids k w msg = some (closeSettlement k w msg.MarketId settlement))) := by
  refine ⟨fun _ _ => rfl, fun r h => FillBids_cases k w msg r h, ?_⟩
  intro orders settlement h
  have hF := FillBids_of_reaches k w msg orders settlement h
  refine ⟨closeSettlement_no_collectFee k w msg.MarketId settlement, ?_, ?_⟩
  · intro fee hfee hnil
    obtain ⟨res, hres⟩ :=
      closeAndCollectCreationFee_of_fee k w msg.MarketId msg.Seller fee settlement hnil
    refine ⟨res, (afterFees w msg.MarketId settlement).calls ++ storeCalls settlement, ?_, ?_⟩
    · exact closeSettlement_nil_calls k w msg.MarketId settlement hnil
    · rw [hF, hfee, hres]
  · intro hnone
    rw [hF, closeAndCollectCreationFee_of_none k w msg.MarketId msg.Seller _ settlement hnone]

/-- C14, witness: seller S fills B4 and B5 with an ask creation fee of 2 unit-F; the settlement
closes and the last call is the collection of that fee from S. -/
theorem FillBids_creation_fee_collected_last_witness :
    FillBidsReaches ratioKeeper feeWorld feeFillBids [bidB4, bidB5] feeSettlement ∧
    ∃ res before,
      (closeSettlement ratioKeeper feeWorld feeFillBids.MarketId feeSettlement).2.calls =
        before ++ [Call.emitEvents (eventBatch feeSettlement)] ∧
      FillBids ratioKeeper feeWorld feeFillBids =
        some (res,
          ⟨(closeSettlement ratioKeeper feeWorld feeFillBids.MarketId feeSettlement).2.store,
            (closeSettlement ratioKeeper feeWorld feeFillBids.MarketId feeSettlement).2.calls ++
              [Call.CollectFee feeFillBids.MarketId feeFillBids.Seller [⟨"F", 2⟩]]⟩) :=
  have h : FillBidsReaches ratioKeeper feeWorld feeFillBids [bidB4, bidB5] feeSettlement :=
    ⟨rfl, rfl, rfl, rfl, rfl, rfl⟩
  ⟨h, ((FillBids_creation_fee_collected_last ratioKeeper feeWorld feeFillBids).2.2
    [bidB4, bidB5] feeSettlement h).2.1 ⟨"F", 2⟩ rfl rfl⟩

/-- What a nil return of the end of `FillBids` and `FillAsks` says: the settlement closed, the
store is the one `closeSettlement` left, and the only calls after those of `closeSettlement`
are collections of a creation fee. -/
theorem closeAndCollectCreationFee_nil (k : Keeper) (w : World) (marketID : Nat)
    (payer : String) (creationFee : Option Coin) (settlement : Settlement) (w1 : World)
    (h : closeAndCollectCreationFee k w marketID payer creationFee settlement = (none, w1)) :
    (closeSettlement k w marketID settlement).1 = none ∧
    w1.store = (closeSettlement k w marketID settlement).2.store ∧
    ∃ after, w1.calls = (closeSettlement k w marketID settlement).2.calls ++ after ∧
      ∀ c ∈ after, c.isCollectFee = true := by
  unfold closeAndCollectCreationFee at h
  rcases hcs : closeSettlement k w marketID settlement with ⟨res, w2⟩
  rw [hcs] at h
  cases res with
  | some err => simp at h
  | none =>
    simp only at h
    cases creationFee with
    | none =>
      simp only [Prod.mk.injEq, true_and] at h
      subst h
      exact ⟨rfl, rfl, [], by simp, by simp⟩
    | some fee =>
      simp only at h
      cases hfee : k.CollectFee w2 marketID payer [fee] with
      | some err => rw [hfee] at h; simp at h
      | none =>
        rw [hfee] at h
        simp only [Prod.mk.injEq, true_and] at h
        subst h
        refine ⟨rfl, rfl, [Call.CollectFee marketID payer [fee]], rfl, ?_⟩
        intro c hc
        simp at hc
        rw [hc]; rfl

/-- C15: a `FillBids` call that returns nil reached `closeSettlement` with a settlement that
fully fills every fetched order and has no partial order: `FullyFilledOrders` has one entry per
fetched order, in fetched order, each a bid with its price as realized price and its buyer
settlement fees as realized fees; afterwards no fetched order is in the store, every other
record is unchanged, no order was written, and exactly one batch of events was emitted, made of
one filled event per fetched order. -/
theorem FillBids_nil_fills_every_order (k : Keeper) (w : World) (msg : MsgFillBidsRequest)
    (w1 : World) (h : FillBids k w msg = some (none, w1)) :
    ∃ orders settlement, FillBidsReaches k w msg orders settlement ∧
      orders.map Order.GetBidOrder = (bidsOf orders).map some ∧
      settlement.FullyFilledOrders =
        orders.filterMap (fun o => o.GetBidOrder.map
          (fun b => (⟨o, b.Price, b.BuyerSettlementFees⟩ : FilledOrder))) ∧
      settlement.FullyFilledOrders.map FilledOrder.order = orders ∧
      settlement.PartialOrderFilled = none ∧ settlement.PartialOrderLeft = none ∧
      (∀ o ∈ orders, w1.store.orders o.OrderId = none) ∧
      (∀ id, (∀ o ∈ orders, o.OrderId ≠ id) → w1.store.orders id = w.store.orders id) ∧
      ∃ before after,
        w1.calls = w.calls ++ before ++
          [Call.emitEvents (settlement.FullyFilledOrders.map Event.EventOrderFilled)] ++
          after ∧
        ∀ c ∈ before ++ after, c.isEmit = false ∧ ∀ o, c ≠ Call.setOrderInStore o := by
  rcases FillBids_cases k w msg (none, w1) h with ⟨e, he⟩ | ⟨orders, settlement, hreach⟩
  · simp at he
  · refine ⟨orders, settlement, hreach, ?_⟩
    have hF := FillBids_of_reaches k w msg orders settlement hreach
    rw [hF] at h
    simp only [Option.some.injEq] at h
    obtain ⟨hnil, hstore, after, hcalls, hafter⟩ :=
      closeAndCollectCreationFee_nil k w msg.MarketId msg.Seller msg.AskOrderCreationFee
        settlement w1 h
    obtain ⟨loop, hloop, _, hff, hpof, hpol⟩ :=
      fillBidsSettlement_full k w.store msg orders settlement hreach.2.2.2.2.2
    obtain ⟨_, hfilled, hord⟩ := fillBids_loop_fees orders FillLoop.init loop hloop
    obtain ⟨hbids, _, _, _, _⟩ := fillBids_loop_entries orders FillLoop.init loop hloop
    have hff2 : settlement.FullyFilledOrders =
        orders.filterMap (fun o => o.GetBidOrder.map
          (fun b => (⟨o, b.Price, b.BuyerSettlementFees⟩ : FilledOrder))) := by
      rw [hff, hfilled]
      simp [FillLoop.init]
    have hord2 : settlement.FullyFilledOrders.map FilledOrder.order = orders := by
      rw [hff2, hord]
    have hids : filledIds settlement = orders.map Order.OrderId := by
      unfold filledIds
      rw [← hord2, List.map_map]
      rfl
    have horders : ∀ id, w1.store.orders id =
        if id ∈ orders.map Order.OrderId then none else w.store.orders id := by
      intro id
      rw [hstore, closeSettlement_nil_orders k w msg.MarketId settlement hnil, hids, hpol]
    refine ⟨hbids, hff2, hord2, hpof, hpol, ?_, ?_, ?_⟩
    · intro o ho
      rw [horders, if_pos (List.mem_map.mpr ⟨o, ho, rfl⟩)]
    · intro id hid
      rw [horders, if_neg]
      intro hm
      obtain ⟨o, ho, hoid⟩ := List.mem_map.mp hm
      exact hid o ho hoid
    · refine ⟨(releaseTargets settlement).map Call.releaseHoldOnOrder ++
        settlement.Transfers.map transferCall ++
        [Call.CollectFees msg.MarketId settlement.FeeInputs] ++ storeCalls settlement,
        after, ?_, ?_⟩
      · rw [hcalls, closeSettlement_nil_calls k w msg.MarketId settlement hnil]
        simp [eventBatch, hpof, afterFees, afterTransfers, afterRelease, World.record,
          List.append_assoc]
      · intro c hc
        rcases List.mem_append.mp hc with h1 | h1
        · rcases List.mem_append.mp h1 with h2 | h2
          · rcases List.mem_append.mp h2 with h3 | h3
            · rcases List.mem_append.mp h3 with h4 | h4
              · obtain ⟨o, _, ho⟩ := List.mem_map.mp h4
                rw [← ho]
                exact ⟨rfl, fun _ hx => by cases hx⟩
              · obtain ⟨t, _, ht⟩ := List.mem_map.mp h4
                rw [← ht]
                exact ⟨rfl, fun _ hx => by cases hx⟩
            · simp at h3
              rw [h3]
              exact ⟨rfl, fun _ hx => by cases hx⟩
          · unfold storeCalls at h2
            rw [hpol] at h2
            simp only [Option.map_none', Option.toList, List.nil_append] at h2
            obtain ⟨f, _, hf⟩ := List.mem_map.mp h2
            rw [← hf]
            exact ⟨rfl, fun _ hx => by cases hx⟩
        · have := hafter c h1
          cases c <;> simp_all [Call.isCollectFee, Call.isEmit]

/-- C15, witness: filling B1 and B2 returns nil, deletes both, and emits one batch of two
filled events. -/
theorem FillBids_nil_fills_every_order_witness :
    FillBids sampleKeeper sampleWorld sampleFillBids =
      some (none, (closeSettlement sampleKeeper sampleWorld 1 fillSettlement).2) ∧
    (closeSettlement sampleKeeper sampleWorld 1 fillSettlement).2.store.orders 1 = none ∧
    (closeSettlement sampleKeeper sampleWorld 1 fillSettlement).2.store.orders 2 = none ∧
    ∃ orders settlement, FillBidsReaches sampleKeeper sampleWorld sampleFillBids orders
        settlement ∧
      ∃ before after,
        (closeSettlement sampleKeeper sampleWorld 1 fillSettlement).2.calls =
          sampleWorld.calls ++ before ++
            [Call.emitEvents (settlement.FullyFilledOrders.map Event.EventOrderFilled)] ++
            after ∧
        ∀ c ∈ before ++ after, c.isEmit = false ∧ ∀ o, c ≠ Call.setOrderInStore o :=
  have h := FillBids_nil_fills_every_order sampleKeeper sampleWorld sampleFillBids
    (closeSettlement sampleKeeper sampleWorld 1 fillSettlement).2 rfl
  ⟨rfl, by decide, by decide,
    h.elim fun orders h1 => h1.elim fun settlement h2 =>
      ⟨orders, settlement, h2.1, h2.2.2.2.2.2.2.2.2⟩⟩

/-! ## Claim on the preconditions of `FillBids` and `FillAsks` -/

theorem FillBids_precondition_error (k : Keeper) (w : World) (msg : MsgFillBidsRequest)
    (err : Err) (hbasic : k.validateBasicFillBids msg = none)
    (h : validateAcceptingOrdersAndCanUserSettle k w.store msg.MarketId = some err ∨
      (validateAcceptingOrdersAndCanUserSettle k w.store msg.MarketId = none ∧
        k.validateUserCanCreateAsk w msg.MarketId msg.Seller = some err) ∨
      (validateAcceptingOrdersAndCanUserSettle k w.store msg.MarketId = none ∧
        k.validateUserCanCreateAsk w msg.MarketId msg.Seller = none ∧
        k.validateCreateAskFees w.store msg.MarketId msg.AskOrderCreationFee
          msg.SellerSettlementFlatFee = some err)) :
    FillBids k w msg = some (some err, w) := by
  unfold FillBids
  rcases h with h | ⟨h1, h2⟩ | ⟨h1, h2, h3⟩
  · simp only [hbasic, h]
  · simp only [hbasic, h1, h2]
  · simp only [hbasic, h1, h2, h3]

theorem FillAsks_precondition_error (k : Keeper) (w : World) (msg : MsgFillAsksRequest)
    (err : Err) (hbasic : k.validateBasicFillAsks msg = none)
    (h : validateAcceptingOrdersAndCanUserSettle k w.store msg.MarketId = some err ∨
      (validateAcceptingOrdersAndCanUserSettle k w.store msg.MarketId = none ∧
        k.validateUserCanCreateBid w msg.MarketId msg.Buyer = some err) ∨
      (validateAcceptingOrdersAndCanUserSettle k w.store msg.MarketId = none ∧
        k.validateUserCanCreateBid w msg.MarketId msg.Buyer = none ∧
        k.validateCreateBidFees w.store msg.MarketId msg.BidOrderCreationFee msg.TotalPrice
          msg.BuyerSettlementFees = some err)) :
    FillAsks k w msg = some (some err, w) := by
  unfold FillAsks
  rcases h with h | ⟨h1, h2⟩ | ⟨h1, h2, h3⟩
  · simp only [hbasic, h]
  · simp only [hbasic, h1, h2]
  · simp only [hbasic, h1, h2, h3]

/-- C20: `validateAcceptingOrdersAndCanUserSettle` returns nil exactly when the market is
accepting orders and user settlement is allowed, and returns the accepting-orders error
whenever there is one; and in a `FillBids` or `FillAsks` call whose basic validation passed,
the first of that check, the user-can-create-order check and the fee validation to fail gives
the returned error, the world is the one of entry (no hold release, transfer, fee collection,
order write or delete, or event emission), and the result is the same whatever the order
fetcher would answer: no order is fetched. -/
theorem precondition_failures_change_nothing (k : Keeper) (w : World) :
    (∀ store marketID,
      (validateAcceptingOrdersAndCanUserSettle k store marketID = none ↔
        (k.validateMarketIsAcceptingOrders store marketID = none ∧
          k.isUserSettlementAllowed store marketID = true)) ∧
      ∀ err, k.validateMarketIsAcceptingOrders store marketID = some err →
        validateAcceptingOrdersAndCanUserSettle k store marketID = some err) ∧
    (∀ (msg : MsgFillBidsRequest) (err : Err), k.validateBasicFillBids msg = none →
      (validateAcceptingOrdersAndCanUserSettle k w.store msg.MarketId = some err ∨
        (validateAcceptingOrdersAndCanUserSettle k w.store msg.MarketId = none ∧
          k.validateUserCanCreateAsk w msg.MarketId msg.Seller = some err) ∨
        (validateAcceptingOrdersAndCanUserSettle k w.store msg.MarketId = none ∧
          k.validateUserCanCreateAsk w msg.MarketId msg.Seller = none ∧
          k.validateCreateAskFees w.store msg.MarketId msg.AskOrderCreationFee
            msg.SellerSettlementFlatFee = some err)) →
      FillBids k w msg = some (some err, w) ∧
        ∀ fetch, FillBids { k with getBidOrders := fetch } w msg = some (some err, w)) ∧
    (∀ (msg : MsgFillAsksRequest) (err : Err), k.validateBasicFillAsks msg = none →
      (validateAcceptingOrdersAndCanUserSettle k w.store msg.MarketId = some err ∨
        (validateAcceptingOrdersAndCanUserSettle k w.store msg.MarketId = none ∧
          k.validateUserCanCreateBid w msg.MarketId msg.Buyer = some err) ∨
        (validateAcceptingOrdersAndCanUserSettle k w.store msg.MarketId = none ∧
          k.validateUserCanCreateBid w msg.MarketId msg.Buyer = none ∧
          k.validateCreateBidFees w.store msg.MarketId msg.BidOrderCreationFee msg.TotalPrice
            msg.BuyerSettlementFees = some err)) →
      FillAsks k w msg = some (some err, w) ∧
        ∀ fetch, FillAsks { k with getAskOrders := fetch } w msg = some (some err, w)) := by
  refine ⟨?_, ?_, ?_⟩
  · intro store marketID
    unfold validateAcceptingOrdersAndCanUserSettle
    constructor
    · cases k.validateMarketIsAcceptingOrders store marketID with
      | some e => simp
      | none => cases k.isUserSettlementAllowed store marketID <;> simp
    · intro err he
      rw [he]
  · intro msg err hbasic h
    exact ⟨FillBids_precondition_error k w msg err hbasic h,
      fun fetch => FillBids_precondition_error { k with getBidOrders := fetch } w msg err
        hbasic h⟩
  · intro msg err hbasic h
    exact ⟨FillAsks_precondition_error k w msg err hbasic h,
      fun fetch => FillAsks_precondition_error { k with getAskOrders := fetch } w msg err
        hbasic h⟩

/-- C20, witness: in a market that is not accepting orders, filling B1 and B2 returns the
accepting-orders error and changes nothing. -/
theorem precondition_failures_change_nothing_witness :
    validateAcceptingOrdersAndCanUserSettle closedKeeper sampleWorld.store 1 =
      some (.errorf "market %d is not accepting orders" [.num 1]) ∧
    FillBids closedKeeper sampleWorld sampleFillBids =
      some (some (.errorf "market %d is not accepting orders" [.num 1]), sampleWorld) :=
  ⟨rfl, ((precondition_failures_change_nothing closedKeeper sampleWorld).2.1 sampleFillBids
    (.errorf "market %d is not accepting orders" [.num 1]) rfl (Or.inl rfl)).1⟩

/-! ## Claims on the order fetches -/

/-- C21: in a `SettleOrders` call on an existing market, when the fetch of the ask orders or
the fetch of the bid orders reports errors, `SettleOrders` returns the join of the errors of
both fetches (both of them when both fetches fail, the one there is otherwise) and leaves the
world as it was: no hold release, transfer, fee collection, order write or delete and no event;
the result is the same whatever `BuildSettlement` is, which is not invoked. -/
theorem SettleOrders_joins_fetch_errors (k : Keeper) (w : World) (marketID : Nat)
    (askOrderIDs bidOrderIds : List Nat) (expectPartial : Bool)
    (hmarket : k.validateMarketExists w.store marketID = none)
    (hfail : (k.getAskOrders w.store marketID askOrderIDs "").2 ≠ none ∨
      (k.getBidOrders w.store marketID bidOrderIds "").2 ≠ none) :
    SettleOrders k w marketID askOrderIDs bidOrderIds expectPartial =
      (errorsJoin [(k.getAskOrders w.store marketID askOrderIDs "").2,
        (k.getBidOrders w.store marketID bidOrderIds "").2], w) ∧
    (∀ aoerr boerr, (k.getAskOrders w.store marketID askOrderIDs "").2 = some aoerr →
      (k.getBidOrders w.store marketID bidOrderIds "").2 = some boerr →
      SettleOrders k w marketID askOrderIDs bidOrderIds expectPartial =
        (some (Err.join [aoerr, boerr]), w)) ∧
    (∀ aoerr, (k.getAskOrders w.store marketID askOrderIDs "").2 = some aoerr →
      (k.getBidOrders w.store marketID bidOrderIds "").2 = none →
      SettleOrders k w marketID askOrderIDs bidOrderIds expectPartial =
        (some (Err.join [aoerr]), w)) ∧
    (∀ boerr, (k.getAskOrders w.store marketID askOrderIDs "").2 = none →
      (k.getBidOrders w.store marketID bidOrderIds "").2 = some boerr →
      SettleOrders k w marketID askOrderIDs bidOrderIds expectPartial =
        (some (Err.join [boerr]), w)) ∧
    (∀ build, SettleOrders { k with BuildSettlement := build } w marketID askOrderIDs
        bidOrderIds expectPartial =
      SettleOrders k w marketID askOrderIDs bidOrderIds expectPartial) := by
  have hsome : ((k.getAskOrders w.store marketID askOrderIDs "").2.isSome ||
      (k.getBidOrders w.store marketID bidOrderIds "").2.isSome) = true := by
    rcases hfail with h | h
    · rw [Option.isSome_iff_ne_none.mpr h]; rfl
    · rw [Option.isSome_iff_ne_none.mpr h]; simp
  have hres : ∀ k1 : Keeper, k1.validateMarketExists = k.validateMarketExists →
      k1.getAskOrders = k.getAskOrders → k1.getBidOrders = k.getBidOrders →
      SettleOrders k1 w marketID askOrderIDs bidOrderIds expectPartial =
        (errorsJoin [(k.getAskOrders w.store marketID askOrderIDs "").2,
          (k.getBidOrders w.store marketID bidOrderIds "").2], w) := by
    intro k1 h1 h2 h3
    unfold SettleOrders
    simp only [h1, h2, h3, hmarket, hsome, if_true]
  refine ⟨hres k rfl rfl rfl, ?_, ?_, ?_, ?_⟩
  · intro aoerr boerr ha hb
    rw [hres k rfl rfl rfl, ha, hb]; rfl
  · intro aoerr ha hb
    rw [hres k rfl rfl rfl, ha, hb]; rfl
  · intro boerr ha hb
    rw [hres k rfl rfl rfl, ha, hb]; rfl
  · intro build
    exact (hres { k with BuildSettlement := build } rfl rfl rfl).trans
      (hres k rfl rfl rfl).symm

/-- C21, witness: on the sample market with a keeper that finds no order, both fetches fail and
`SettleOrders` returns the join of both errors, the world being as before. -/
theorem SettleOrders_joins_fetch_errors_witness :
    missingKeeper.validateMarketExists sampleWorld.store 1 = none ∧
    SettleOrders missingKeeper sampleWorld 1 [10] [1, 2] false =
      (some (Err.join [Err.new "ask orders not found", Err.new "bid orders not found"]),
        sampleWorld) :=
  ⟨rfl, (SettleOrders_joins_fetch_errors missingKeeper sampleWorld 1 [10] [1, 2] false rfl
    (Or.inl (by simp [missingKeeper]))).2.1 _ _ rfl rfl⟩

/-- C22, counterexample to the claim as stated: with a fetcher that refuses the bids of the
address it is given, the fetch of B1 and B2 with the empty address that `SettleOrders` passes
succeeds, the `FillBids` of the seller S succeeds, and the `FillBids` of X, the buyer of B1,
for the same orders fails in the fetch: the fetch depends on `msg.Seller`. -/
theorem FillBids_fetch_depends_on_seller :
    selfTradeKeeper.getBidOrders sampleWorld.store 1 [1, 2] "" = ([bidB1, bidB2], none) ∧
    (FillBids selfTradeKeeper sampleWorld sampleFillBids).map Prod.fst = some none ∧
    selfFillBids = { sampleFillBids with Seller := "X" } ∧
    FillBids selfTradeKeeper sampleWorld selfFillBids =
      some (some (Err.new "bid order has the seller as buyer"), sampleWorld) :=
  ⟨rfl, rfl, rfl, rfl⟩

/-- C22, as amended: `FillBids` gives `msg.Seller` as the last argument of the bid-order
fetcher, where `SettleOrders` gives the empty string: once the request passed its validations,
an error of the fetch for `msg.Seller` is returned as it is with the world unchanged, and the
result of `FillBids` is the same for every fetcher that answers the same for `msg.Seller`,
whatever it answers for other addresses; the result of `SettleOrders` is the same for every
fetcher that answers the same for the empty string. -/
theorem FillBids_fetches_for_seller (k : Keeper) (w : World) (msg : MsgFillBidsRequest) :
    (k.validateBasicFillBids msg = none →
      validateAcceptingOrdersAndCanUserSettle k w.store msg.MarketId = none →
      k.validateUserCanCreateAsk w msg.MarketId msg.Seller = none →
      k.validateCreateAskFees w.store msg.MarketId msg.AskOrderCreationFee
        msg.SellerSettlementFlatFee = none →
      ∀ orders oerrs,
        k.getBidOrders w.store msg.MarketId msg.BidOrderIds msg.Seller = (orders, some oerrs) →
        FillBids k w msg = some (some oerrs, w)) ∧
    (∀ fetch : KVStore → Nat → List Nat → String → List Order × Option Err,
      fetch w.store msg.MarketId msg.BidOrderIds msg.Seller =
        k.getBidOrders w.store msg.MarketId msg.BidOrderIds msg.Seller →
      FillBids { k with getBidOrders := fetch } w msg = FillBids k w msg) ∧
    (∀ (fetch : KVStore → Nat → List Nat → String → List Order × Option Err)
      (marketID : Nat) (askOrderIDs bidOrderIds : List Nat) (expectPartial : Bool),
      fetch w.store marketID bidOrderIds "" = k.getBidOrders w.store marketID bidOrderIds "" →
      SettleOrders { k with getBidOrders := fetch } w marketID askOrderIDs bidOrderIds
          expectPartial =
        SettleOrders k w marketID askOrderIDs bidOrderIds expectPartial) := by
  refine ⟨?_, ?_, ?_⟩
  · intro h1 h2 h3 h4 orders oerrs h5
    unfold FillBids
    simp only [h1, h2, h3, h4, h5]
  · intro fetch h
    unfold FillBids
    show (match k.validateBasicFillBids msg with
      | some err => some (some err, w)
      | none =>
        match validateAcceptingOrdersAndCanUserSettle k w.store msg.MarketId with
        | some err => some (some err, w)
        | none =>
          match k.validateUserCanCreateAsk w msg.MarketId msg.Seller with
          | some err => some (some err, w)
          | none =>
            match k.validateCreateAskFees w.store msg.MarketId msg.AskOrderCreationFee
                msg.SellerSettlementFlatFee with
            | some err => some (some err, w)
            | none =>
              match fetch w.store msg.MarketId msg.BidOrderIds msg.Seller with
              | (_, some oerrs) => some (some oerrs, w)
              | (orders, none) =>
                match fillBidsSettlement k w.store msg orders with
                | none => none
                | some (.error err) => some (some err, w)
                | some (.ok settlement) =>
                  some (closeAndCollectCreationFee k w msg.MarketId msg.Seller
                    msg.AskOrderCreationFee settlement)) = _
    rw [h]
  · intro fetch marketID askOrderIDs bidOrderIds expectPartial h
    unfold SettleOrders
    show (match k.validateMarketExists w.store marketID with
      | some err => (some err, w)
      | none =>
        let asks := k.getAskOrders w.store marketID askOrderIDs ""
        let bids := fetch w.store marketID bidOrderIds ""
        if asks.2.isSome || bids.2.isSome then (errorsJoin [asks.2, bids.2], w)
        else
          match k.BuildSettlement asks.1 bids.1
              (fun denom => k.getSellerSettlementRatio w.store marketID denom) with
          | .error err => (some err, w)
          | .ok settlement =>
            match checkExpectPartial expectPartial settlement with
            | some err => (some err, w)
            | none => closeSettlement k w marketID settlement) = _
    rw [h]

/-- C22, witness of the amended claim: the fetch for X fails, and `FillBids` returns its
error. -/
theorem FillBids_fetches_for_seller_witness :
    FillBids selfTradeKeeper sampleWorld selfFillBids =
      some (some (Err.new "bid order has the seller as buyer"), sampleWorld) :=
  (FillBids_fetches_for_seller selfTradeKeeper sampleWorld selfFillBids).1 rfl rfl rfl rfl
    [] _ rfl

/-! ## Claims on failures that are collected -/

theorem filter_isTransfer_of_false (l : List Call) (h : ∀ c ∈ l, c.isTransfer = false) :
    l.filter Call.isTransfer = [] := by
  rw [List.filter_eq_nil_iff]
  intro c hc
  rw [h c hc]
  simp

/-- C27: in `closeSettlement`, when the hold releases all succeed, the `DoTransfer` calls made
are exactly one per transfer leg, in list order, right after the releases; each leg is
attempted in the world where the legs before it have been attempted, whether they failed or
not; and when a leg failed the returned error is the join of the failures of all the failed
legs, in list order, followed by the failure of the fee collection if that failed too. -/
theorem closeSettlement_attempts_every_transfer (k : Keeper) (w : World) (marketID : Nat)
    (settlement : Settlement) (hreleased : releaseFailures k w settlement = []) :
    ((closeSettlement k w marketID settlement).2.calls.drop w.calls.length).filter
        Call.isTransfer = settlement.Transfers.map transferCall ∧
    (∃ tail, (closeSettlement k w marketID settlement).2.calls =
        w.calls ++ (releaseTargets settlement).map Call.releaseHoldOnOrder ++
          settlement.Transfers.map transferCall ++ tail ∧
        ∀ c ∈ tail, c.isTransfer = false) ∧
    transferFailures k w settlement =
      settlement.Transfers.enum.filterMap (fun p =>
        k.DoTransfer ⟨w.store, w.calls ++
            (releaseTargets settlement).map Call.releaseHoldOnOrder ++
            (settlement.Transfers.take p.1).map transferCall⟩ p.2.Inputs p.2.Outputs) ∧
    (transferFailures k w settlement ≠ [] →
      (closeSettlement k w marketID settlement).1 =
        some (Err.join (transferFailures k w settlement ++
          (feeFailure k w marketID settlement).toList))) := by
  have hshape : ∃ tail, (closeSettlement k w marketID settlement).2.calls =
      w.calls ++ ((releaseTargets settlement).map Call.releaseHoldOnOrder ++
        (settlement.Transfers.map transferCall ++ tail)) ∧
      ∀ c ∈ tail, c.isTransfer = false := by
    rcases closeSettlement_calls_shape k w marketID settlement with ⟨h, _⟩ | ⟨_, tail, hc, ht⟩
    · exact absurd hreleased h
    · refine ⟨Call.CollectFees marketID settlement.FeeInputs :: tail, ?_, ?_⟩
      · rw [hc]
        simp [afterFees, afterTransfers, afterRelease, World.record, List.append_assoc]
      · intro c hcm
        rcases List.mem_cons.mp hcm with h1 | h1
        · rw [h1]; rfl
        · rcases ht c h1 with h2 | h2 <;> cases c <;>
            simp_all [Call.isOrderWrite, Call.isEmit, Call.isTransfer]
  obtain ⟨tail, hc, ht⟩ := hshape
  refine ⟨?_, ⟨tail, by rw [hc]; simp [List.append_assoc], ht⟩, rfl, ?_⟩
  · rw [hc, List.drop_left, List.filter_append, List.filter_append,
      filter_isTransfer_of_false _ ht, List.append_nil]
    have h1 : ((releaseTargets settlement).map Call.releaseHoldOnOrder).filter
        Call.isTransfer = [] := by
      apply filter_isTransfer_of_false
      intro c hcm
      obtain ⟨f, _, hf⟩ := List.mem_map.mp hcm
      rw [← hf]; rfl
    rw [h1, List.nil_append, List.filter_eq_self]
    intro c hcm
    obtain ⟨t, _, hf⟩ := List.mem_map.mp hcm
    rw [← hf]; rfl
  · intro hfail
    rcases hm : transferFailures k w settlement ++
        (feeFailure k w marketID settlement).toList with _ | ⟨e, es⟩
    · exact absurd (List.append_eq_nil.mp hm).1 hfail
    · rw [closeSettlement_of_move_failed k w marketID settlement e es hreleased hm]

/-- C27, witness: with a bank that refuses the transfers out of the account of S, the first
leg of the sample settlement fails, the second leg is attempted all the same, and the failure
of the first leg is returned. -/
theorem closeSettlement_attempts_every_transfer_witness :
    releaseFailures frozenSellerKeeper sampleWorld fillSettlement = [] ∧
    ((closeSettlement frozenSellerKeeper sampleWorld 1 fillSettlement).2.calls.drop
        sampleWorld.calls.length).filter Call.isTransfer =
      [Call.DoTransfer [⟨"S", [⟨"A", 15⟩]⟩] [⟨"X", [⟨"A", 10⟩]⟩, ⟨"Y", [⟨"A", 5⟩]⟩],
        Call.DoTransfer [⟨"X", [⟨"D", 100⟩]⟩, ⟨"Y", [⟨"D", 50⟩]⟩] [⟨"S", [⟨"D", 150⟩]⟩]] ∧
    (closeSettlement frozenSellerKeeper sampleWorld 1 fillSettlement).1 =
      some (Err.join [Err.new "account of S is frozen"]) :=
  have h := closeSettlement_attempts_every_transfer frozenSellerKeeper sampleWorld 1
    fillSettlement rfl
  have ht : transferFailures frozenSellerKeeper sampleWorld fillSettlement ≠ [] := by
    rw [show transferFailures frozenSellerKeeper sampleWorld fillSettlement =
      [Err.new "account of S is frozen"] from rfl]
    exact List.cons_ne_nil _ _
  ⟨rfl, h.1, h.2.2.2 ht⟩

/-- C28, as amended: in `FillBids`, once the request passed its validations, the bid orders
were fetched, their sums were made and the total assets match: when the seller fees, the flat
fee and then the ratio fee of each coin of the total price, add up within the 256 bits of an
`sdk.Int`, the errors of the ratio fee calculations are those of every coin whose calculation
failed, each wrapped, in the order of the coins, and when there is at least one, `FillBids`
returns their join and the world is as before, so that `closeSettlement` was not invoked; when
adding a fee overflows, `FillBids` panics and returns nothing, whatever calculation failed. In
`FillAsks` the same holds with one calculation per ask order, each error being wrapped with
the id of its order, when the fees of each order add up within the 256 bits. Coins add up
within the 256 bits when their amounts are non-negative and their totals per denomination
fit. -/
theorem ratio_fee_failures_are_joined (k : Keeper) (w : World) :
    (∀ (msg : MsgFillBidsRequest) (orders : List Order) (totals : Coins × Coins),
      k.validateBasicFillBids msg = none →
      validateAcceptingOrdersAndCanUserSettle k w.store msg.MarketId = none →
      k.validateUserCanCreateAsk w msg.MarketId msg.Seller = none →
      k.validateCreateAskFees w.store msg.MarketId msg.AskOrderCreationFee
        msg.SellerSettlementFlatFee = none →
      k.getBidOrders w.store msg.MarketId msg.BidOrderIds msg.Seller = (orders, none) →
      (∀ o ∈ orders, o.GetBidOrder.isSome = true) →
      sumAssetsAndPrice orders = some totals →
      CoinsEquals totals.1 msg.TotalAssets = true →
      (addsUp (msg.SellerSettlementFlatFee.toList ++
          sellerRatioFees k w.store msg.MarketId totals.2) = true →
        ratioFeeErrors k w.store msg.MarketId totals.2 ≠ [] →
        FillBids k w msg =
          some (some (Err.join (ratioFeeErrors k w.store msg.MarketId totals.2)), w)) ∧
      (addsUp (msg.SellerSettlementFlatFee.toList ++
          sellerRatioFees k w.store msg.MarketId totals.2) = false →
        FillBids k w msg = none)) ∧
    (∀ (msg : MsgFillAsksRequest) (orders : List Order) (totals : Coins × Coins),
      k.validateBasicFillAsks msg = none →
      validateAcceptingOrdersAndCanUserSettle k w.store msg.MarketId = none →
      k.validateUserCanCreateBid w msg.MarketId msg.Buyer = none →
      k.validateCreateBidFees w.store msg.MarketId msg.BidOrderCreationFee msg.TotalPrice
        msg.BuyerSettlementFees = none →
      k.getAskOrders w.store msg.MarketId msg.AskOrderIds msg.Buyer = (orders, none) →
      (∀ o ∈ orders, o.GetAskOrder.isSome = true) →
      sumAssetsAndPrice orders = some totals →
      CoinsEquals totals.2 [msg.TotalPrice] = true →
      (∀ a ∈ asksOf orders, ∀ fee,
        (k.calculateSellerSettlementRatioFee w.store msg.MarketId a.Price).1 = some fee →
        (Coins.Add a.GetSettlementFees [fee]).isSome = true) →
      askRatioFeeErrors k w.store msg.MarketId orders ≠ [] →
      FillAsks k w msg =
        some (some (Err.join (askRatioFeeErrors k w.store msg.MarketId orders)), w)) ∧
    (∀ cs : List Coin, (∀ c ∈ cs, 0 ≤ c.Amount) →
      (∀ d, inIntRange (Coins.amountOf cs d) = true) → addsUp cs = true) := by
  refine ⟨?_, ?_, ?_⟩
  · intro msg orders totals h1 h2 h3 h4 h5 hbids hs hce
    obtain ⟨hpanic, herrs⟩ := fillBidsSettlement_fee_errors k w.store msg orders totals hs hce
      hbids
    constructor
    · intro hadds hfail
      rcases he : ratioFeeErrors k w.store msg.MarketId totals.2 with _ | ⟨e, es⟩
      · exact absurd he hfail
      · have hb := herrs hadds e es he
        unfold FillBids
        simp only [h1, h2, h3, h4, h5, hb]
    · intro hadds
      have hb := hpanic hadds
      unfold FillBids
      simp only [h1, h2, h3, h4, h5, hb]
  · intro msg orders totals h1 h2 h3 h4 h5 hasks hs hce hadd hfail
    obtain ⟨loop, hloop⟩ := fillAsks_loop_errors k w.store msg.MarketId orders
      ([], FillLoop.init) hasks hadd
    have hb : fillAsksSettlement k w.store msg orders =
        some (.error (Err.join (askRatioFeeErrors k w.store msg.MarketId orders))) := by
      unfold fillAsksSettlement
      rw [hs]
      simp only [hce, Bool.not_true, Bool.false_eq_true, if_false, hloop, List.nil_append]
      rcases he : askRatioFeeErrors k w.store msg.MarketId orders with _ | ⟨e, es⟩
      · exact absurd he hfail
      · simp only
    unfold FillAsks
    simp only [h1, h2, h3, h4, h5, hb]
  · intro cs h0 hb
    unfold addsUp
    rw [foldlM_Add_of_bounded cs h0 hb]
    rfl

/-- C28, witness of the amended claim: in a market where no ratio fee can be calculated, the
`FillBids` of B1 and B6, priced in unit-D and unit-E, returns the join of two errors, one per
denomination of the total price, and the `FillAsks` of A1, A2 and A3 returns the join of three
errors, one per order; both leave the world as it was. -/
theorem ratio_fee_failures_are_joined_witness :
    FillBids badRatioKeeper mixedWorld mixedFillBids =
      some (some (Err.join
        [Err.wrapf "error calculating seller settlement ratio fee: %w" []
            (Err.new "no ratio found"),
          Err.wrapf "error calculating seller settlement ratio fee: %w" []
            (Err.new "no ratio found")]), mixedWorld) ∧
    FillAsks badRatioKeeper askWorld threeFillAsks =
      some (some (Err.join
        [Err.wrapf "error calculating seller settlement ratio fee for order %d: %w" [.num 3]
            (Err.new "no ratio found"),
          Err.wrapf "error calculating seller settlement ratio fee for order %d: %w" [.num 5]
            (Err.new "no ratio found"),
          Err.wrapf "error calculating seller settlement ratio fee for order %d: %w" [.num 6]
            (Err.new "no ratio found")]), askWorld) :=
  ⟨((ratio_fee_failures_are_joined badRatioKeeper mixedWorld).1 mixedFillBids [bidB1, bidB6]
      ([⟨"A", 11⟩], [⟨"D", 100⟩, ⟨"E", 5⟩])
      rfl rfl rfl rfl rfl (by decide) (by decide) (by decide)).1 (by decide)
      (by
        rw [show ratioFeeErrors badRatioKeeper mixedWorld.store mixedFillBids.MarketId
            (([⟨"A", 11⟩], [⟨"D", 100⟩, ⟨"E", 5⟩]) : Coins × Coins).2 =
          [Err.wrapf "error calculating seller settlement ratio fee: %w" []
              (Err.new "no ratio found"),
            Err.wrapf "error calculating seller settlement ratio fee: %w" []
              (Err.new "no ratio found")] from rfl]
        exact List.cons_ne_nil _ _),
    (ratio_fee_failures_are_joined badRatioKeeper askWorld).2.1 threeFillAsks
      [askA1, askA2, askA3] ([⟨"A", 15⟩], [⟨"D", 150⟩])
      rfl rfl rfl rfl rfl (by decide) (by decide) (by decide)
      (by
        intro a ha fee hfee
        simp [badRatioKeeper] at hfee)
      (by
        rw [show askRatioFeeErrors badRatioKeeper askWorld.store threeFillAsks.MarketId
            [askA1, askA2, askA3] =
          [Err.wrapf "error calculating seller settlement ratio fee for order %d: %w" [.num 3]
              (Err.new "no ratio found"),
            Err.wrapf "error calculating seller settlement ratio fee for order %d: %w" [.num 5]
              (Err.new "no ratio found"),
            Err.wrapf "error calculating seller settlement ratio fee for order %d: %w" [.num 6]
              (Err.new "no ratio found")] from rfl]
        exact List.cons_ne_nil _ _)⟩

/-- C28, counterexample to the claim as stated: seller S asks to fill B1 and B6, priced in
unit-D and unit-E, with a flat fee of 2^256 - 1 unit-F, in a market that has a ratio fee of 1
unit-F for unit-E prices and none for unit-D prices. The request passes the validations, the
sums are made and the total assets match; the calculation for the unit-D coin fails, and
adding the ratio fee of the unit-E coin to the flat fee overflows: `FillBids` panics instead
of returning the join of the errors. -/
theorem FillBids_panics_on_fee_overflow :
    partRatioKeeper.getBidOrders mixedWorld.store maxFeeFillBids.MarketId
      maxFeeFillBids.BidOrderIds maxFeeFillBids.Seller = ([bidB1, bidB6], none) ∧
    sumAssetsAndPrice [bidB1, bidB6] = some ([⟨"A", 11⟩], [⟨"D", 100⟩, ⟨"E", 5⟩]) ∧
    CoinsEquals [⟨"A", 11⟩] maxFeeFillBids.TotalAssets = true ∧
    maxFeeFillBids.SellerSettlementFlatFee.all (fun flat => inIntRange flat.Amount) = true ∧
    ratioFeeErrors partRatioKeeper mixedWorld.store maxFeeFillBids.MarketId
        [⟨"D", 100⟩, ⟨"E", 5⟩] =
      [Err.wrapf "error calculating seller settlement ratio fee: %w" []
        (Err.new "no seller settlement fee ratio found")] ∧
    FillBids partRatioKeeper mixedWorld maxFeeFillBids = none ∧
    ¬ ∃ err, FillBids partRatioKeeper mixedWorld maxFeeFillBids = some (some err, mixedWorld) := by
  have hnone : FillBids partRatioKeeper mixedWorld maxFeeFillBids = none := rfl
  refine ⟨rfl, by decide, by decide, by decide, rfl, hnone, ?_⟩
  rintro ⟨err, herr⟩
  rw [hnone] at herr
  cases herr

/-- C29: in `closeSettlement`, when the hold releases, the transfers and the fee collection
all succeed and the write of `PartialOrderLeft` fails, `closeSettlement` returns the error of
the write, wrapped; the failed write is its last call, so that no fully filled order is deleted
and no event is emitted; the calls before it are the releases, the transfers and the fee
collection, none of which is followed by a call that undoes it; and the store is as before. -/
theorem closeSettlement_stops_at_failed_partial_write (k : Keeper) (w : World) (marketID : Nat)
    (settlement : Settlement) (left : Order) (err : Err)
    (hreleased : releaseFailures k w settlement = [])
    (hmoved : transferFailures k w settlement = [])
    (hfees : feeFailure k w marketID settlement = none)
    (hleft : settlement.PartialOrderLeft = some left)
    (hwrite : k.setOrderInStore w.store left = some err) :
    closeSettlement k w marketID settlement =
      (some (.wrapf "could not update partial %s order %d: %w"
          [.str (match left.body with | .askOrder _ => "ask" | .bidOrder _ => "bid"),
            .num left.OrderId] err),
        ⟨w.store, w.calls ++ (releaseTargets settlement).map Call.releaseHoldOnOrder ++
          settlement.Transfers.map transferCall ++
          [Call.CollectFees marketID settlement.FeeInputs, Call.setOrderInStore left]⟩) ∧
    (∀ order, Call.deleteAndDeIndexOrder order ∉
      (closeSettlement k w marketID settlement).2.calls.drop w.calls.length) ∧
    (∀ c ∈ (closeSettlement k w marketID settlement).2.calls.drop w.calls.length,
      c.isEmit = false) ∧
    (∀ f ∈ settlement.FullyFilledOrders,
      (closeSettlement k w marketID settlement).2.store.orders f.order.OrderId =
        w.store.orders f.order.OrderId) := by
  have hc : closeSettlement k w marketID settlement =
      (some (.wrapf "could not update partial %s order %d: %w"
          [.str (match left.body with | .askOrder _ => "ask" | .bidOrder _ => "bid"),
            .num left.OrderId] err),
        ⟨w.store, w.calls ++ (releaseTargets settlement).map Call.releaseHoldOnOrder ++
          settlement.Transfers.map transferCall ++
          [Call.CollectFees marketID settlement.FeeInputs, Call.setOrderInStore left]⟩) := by
    rw [closeSettlement_of_moved k w marketID settlement hreleased hmoved hfees]
    have hw : k.setOrderInStore (afterFees w marketID settlement).store left = some err := hwrite
    simp only [hleft, setOrderInStore, hw]
    simp [afterFees, afterTransfers, afterRelease, World.record, List.append_assoc]
  refine ⟨hc, ?_, ?_, ?_⟩
  · intro order hmem
    rw [hc] at hmem
    simp only [List.append_assoc, List.drop_left, List.mem_append, List.mem_map,
      List.mem_cons] at hmem
    rcases hmem with ⟨f, _, hf⟩ | ⟨t, _, hf⟩ | hf | hf | hf
    · cases hf
    · cases hf
    · cases hf
    · cases hf
    · simp at hf
  · intro c hmem
    rw [hc] at hmem
    simp only [List.append_assoc, List.drop_left, List.mem_append, List.mem_map,
      List.mem_cons] at hmem
    rcases hmem with ⟨f, _, hf⟩ | ⟨t, _, hf⟩ | hf | hf | hf
    · rw [← hf]; rfl
    · rw [← hf]; rfl
    · rw [hf]; rfl
    · rw [hf]; rfl
    · simp at hf
  · intro f _
    rw [hc]

/-- C29, witness: with a store that refuses writes, closing the sample partial settlement
releases the two holds, makes the two transfers, collects the fees, fails to write what is left
of A1 and stops there. -/
theorem closeSettlement_stops_at_failed_partial_write_witness :
    closeSettlement readOnlyKeeper sampleWorld 1 partialSettlement =
      (some (.wrapf "could not update partial %s order %d: %w" [.str "ask", .num 3]
          (Err.new "store is read-only")),
        ⟨sampleStore,
          [Call.releaseHoldOnOrder ⟨bidB3, ⟨"D", 60⟩, []⟩,
            Call.releaseHoldOnOrder ⟨askA1, ⟨"D", 60⟩, []⟩,
            Call.DoTransfer [⟨"S", [⟨"A", 6⟩]⟩] [⟨"X", [⟨"A", 6⟩]⟩],
            Call.DoTransfer [⟨"X", [⟨"D", 60⟩]⟩] [⟨"S", [⟨"D", 60⟩]⟩],
            Call.CollectFees 1 [], Call.setOrderInStore askA1Left]⟩) :=
  (closeSettlement_stops_at_failed_partial_write readOnlyKeeper sampleWorld 1 partialSettlement
    askA1Left (Err.new "store is read-only") rfl rfl rfl rfl rfl).1

end Exchange

namespace App

/-! ## Store loaders of upgrades -/

/-- C23: for every upgrade plan, `GetUpgradeStoreLoader` returns nil exactly when the name of
the plan has no entry in the `upgrades` table (whose names are distinct) or its entry has empty
`Added`, `Renamed` and `Deleted` lists; otherwise it returns the store loader built by
`UpgradeStoreLoader` for the height of the plan from exactly the `Added`, `Renamed` and
`Deleted` lists of the entry. For "tourmaline-rc2" and "saffron-rc2" the result is nil, for
"tourmaline" it is the loader that adds the store of the ibcratelimit module. -/
theorem GetUpgradeStoreLoader_nil_iff (n : ModuleNames) (info : Plan) :
    ((upgrades n).map Prod.fst).Nodup ∧
    (GetUpgradeStoreLoader n info = none ↔
      (upgrades n).lookup info.Name = none ∨
      ∃ upgrade, (upgrades n).lookup info.Name = some upgrade ∧
        upgrade.Added = [] ∧ upgrade.Renamed = [] ∧ upgrade.Deleted = []) ∧
    (∀ upgrade, (upgrades n).lookup info.Name = some upgrade →
      ¬ (upgrade.Added = [] ∧ upgrade.Renamed = [] ∧ upgrade.Deleted = []) →
      GetUpgradeStoreLoader n info =
        some (UpgradeStoreLoader info.Height
          ⟨upgrade.Added, upgrade.Renamed, upgrade.Deleted⟩)) ∧
    GetUpgradeStoreLoader n ⟨"tourmaline-rc2", info.Height⟩ = none ∧
    GetUpgradeStoreLoader n ⟨"saffron-rc2", info.Height⟩ = none ∧
    GetUpgradeStoreLoader n ⟨"tourmaline", info.Height⟩ =
      some (UpgradeStoreLoader info.Height ⟨[n.ibcratelimit], [], []⟩) := by
  refine ⟨by simp [upgrades], ?_, ?_, rfl, rfl, rfl⟩
  · unfold GetUpgradeStoreLoader
    cases h : (upgrades n).lookup info.Name with
    | none => simp
    | some upgrade =>
      by_cases he : upgrade.Renamed.length = 0 ∧ upgrade.Deleted.length = 0 ∧
          upgrade.Added.length = 0
      · obtain ⟨h1, h2, h3⟩ := he
        simp [h1, h2, h3, List.length_eq_zero.mp h1, List.length_eq_zero.mp h2,
          List.length_eq_zero.mp h3]
      · simp only [he, if_false]
        simp only [List.length_eq_zero] at he
        simp
        intro h1 h2 h3
        exact he ⟨h2, h3, h1⟩
  · intro upgrade h hne
    unfold GetUpgradeStoreLoader
    have he : ¬ (upgrade.Renamed.length = 0 ∧ upgrade.Deleted.length = 0 ∧
        upgrade.Added.length = 0) := by
      simp only [List.length_eq_zero]
      intro ⟨h1, h2, h3⟩
      exact hne ⟨h3, h1, h2⟩
    simp only [h, he, if_false]

/-- C23, witness: the plan "umber" at height 100 has an entry that adds the store of the crisis
module, and its loader is built for height 100 from that list. -/
theorem GetUpgradeStoreLoader_nil_iff_witness :
    GetUpgradeStoreLoader sampleNames ⟨"umber", 100⟩ =
      some (UpgradeStoreLoader 100 ⟨["crisis"], [], []⟩) :=
  (GetUpgradeStoreLoader_nil_iff sampleNames ⟨"umber", 100⟩).2.2.1
    ⟨["crisis"], [], [], true⟩ rfl (by decide)

end App

namespace IBCRateLimit

/-! ## The rate-limit middleware -/

theorem utf8ByteSize_replicate (n : Nat) :
    (String.mk (List.replicate n 'a')).utf8ByteSize = n := by
  induction n with
  | zero => rfl
  | succ n ih =>
    have h : (String.mk ('a' :: List.replicate n 'a')).utf8ByteSize =
        (String.mk (List.replicate n 'a')).utf8ByteSize + 1 := rfl
    rw [List.replicate_succ, h, ih]

/-- What `ValidateReceiverAddress` returns on a packet whose data parses. -/
theorem ValidateReceiverAddress_of_parsed
    (unmarshal : String → Except Error FungibleTokenPacketData) (packet : Packet)
    (packetData : FungibleTokenPacketData) (h : unmarshal packet.Data = .ok packetData) :
    ValidateReceiverAddress unmarshal packet =
      if packetData.Receiver.utf8ByteSize < 4096 then none
      else some (.Wrap .ErrInvalidAddress
        "IBC Receiver address too long. Max supported length is 4096") := by
  unfold ValidateReceiverAddress
  rw [h]
  by_cases hlen : packetData.Receiver.utf8ByteSize < 4096
  · simp [hlen, Nat.not_le.mpr hlen]
  · simp [hlen, Nat.not_lt.mp hlen]

/-- C24: in `IBCMiddleware.SendPacket`, when no contract address is configured the result is
that of the `SendPacket` of the wrapped channel with the same arguments, which is the only call
made: no rate-limit check; when a contract is configured and `CheckAndUpdateRateLimits` fails,
the result is the sequence 0 with the error of the check, wrapped, and the check is the only
call made: the `SendPacket` of the wrapped channel is not called. -/
theorem SendPacket_checks_rate_limit (im : IBCMiddleware) (ctx : Context) (chanCap : Nat)
    (sourcePort sourceChannel : String) (timeoutHeight : Height) (timeoutTimestamp : Nat)
    (data : String) :
    (im.GetContractAddress ctx = "" →
      SendPacket im ctx chanCap sourcePort sourceChannel timeoutHeight timeoutTimestamp data =
        (im.channelSendPacket ctx chanCap sourcePort sourceChannel timeoutHeight
            timeoutTimestamp data,
          ⟨ctx.calls ++ [Call.channelSendPacket chanCap sourcePort sourceChannel timeoutHeight
            timeoutTimestamp data]⟩)) ∧
    (∀ err, im.GetContractAddress ctx ≠ "" →
      im.CheckAndUpdateRateLimits ctx "send_packet" (im.GetContractAddress ctx)
        (NewPacket data 0 sourcePort sourceChannel "" "" timeoutHeight timeoutTimestamp) =
          some err →
      SendPacket im ctx chanCap sourcePort sourceChannel timeoutHeight timeoutTimestamp data =
          ((0, some (.Wrap err "rate limit SendPacket failed to authorize transfer")),
            ⟨ctx.calls ++ [Call.CheckAndUpdateRateLimits "send_packet"
              (im.GetContractAddress ctx)
              (NewPacket data 0 sourcePort sourceChannel "" "" timeoutHeight
                timeoutTimestamp)]⟩) ∧
        ∀ c ∈ (SendPacket im ctx chanCap sourcePort sourceChannel timeoutHeight
            timeoutTimestamp data).2.calls.drop ctx.calls.length,
          c.isChannelSend = false) := by
  constructor
  · intro h
    unfold SendPacket
    simp only [h, if_true]
    rfl
  · intro err hne hcheck
    have hs : SendPacket im ctx chanCap sourcePort sourceChannel timeoutHeight timeoutTimestamp
        data =
        ((0, some (.Wrap err "rate limit SendPacket failed to authorize transfer")),
          ⟨ctx.calls ++ [Call.CheckAndUpdateRateLimits "send_packet"
            (im.GetContractAddress ctx)
            (NewPacket data 0 sourcePort sourceChannel "" "" timeoutHeight
              timeoutTimestamp)]⟩) := by
      unfold SendPacket
      simp only [hne, if_false, hcheck]
      rfl
    refine ⟨hs, ?_⟩
    intro c hc
    rw [hs] at hc
    simp only [List.drop_left, List.mem_singleton] at hc
    rw [hc]; rfl

/-- C24, witness: without a contract the packet goes to the channel, which answers with the
sequence 7; with a contract that refuses, the answer is the sequence 0 and the wrapped error,
and the channel is not called. -/
theorem SendPacket_checks_rate_limit_witness :
    SendPacket (refusingMiddleware "") emptyContext 1 "transfer" "channel-0" ⟨0, 10⟩ 0 "data" =
      ((7, none),
        ⟨[Call.channelSendPacket 1 "transfer" "channel-0" ⟨0, 10⟩ 0 "data"]⟩) ∧
    SendPacket (refusingMiddleware "contract1") emptyContext 1 "transfer" "channel-0" ⟨0, 10⟩ 0
        "data" =
      ((0, some (.Wrap (.reported "rate limit exceeded")
          "rate limit SendPacket failed to authorize transfer")),
        ⟨[Call.CheckAndUpdateRateLimits "send_packet" "contract1"
          ⟨"data", 0, "transfer", "channel-0", "", "", ⟨0, 10⟩, 0⟩]⟩) :=
  have h1 := SendPacket_checks_rate_limit (refusingMiddleware "") emptyContext 1 "transfer"
    "channel-0" ⟨0, 10⟩ 0 "data"
  have h2 := SendPacket_checks_rate_limit (refusingMiddleware "contract1") emptyContext 1
    "transfer" "channel-0" ⟨0, 10⟩ 0 "data"
  ⟨h1.1 rfl, (h2.2 (.reported "rate limit exceeded") (by decide) rfl).1⟩

/-- C26, the code at a receiver of exactly 4096 bytes: `ValidateReceiverAddress` returns the
invalid-address error whose text gives 4096 as the maximum supported length, where a receiver
of 4095 bytes is accepted. -/
theorem ValidateReceiverAddress_rejects_4096_bytes :
    longReceiver.utf8ByteSize = 4096 ∧
    receiverIsData (packetOf longReceiver).Data = .ok ⟨"nhash", "1", "sender", longReceiver, ""⟩ ∧
    ValidateReceiverAddress receiverIsData (packetOf longReceiver) =
      some (.Wrap .ErrInvalidAddress
        "IBC Receiver address too long. Max supported length is 4096") ∧
    fittingReceiver.utf8ByteSize = 4095 ∧
    ValidateReceiverAddress receiverIsData (packetOf fittingReceiver) = none := by
  have h1 : longReceiver.utf8ByteSize = 4096 := utf8ByteSize_replicate 4096
  have h2 : fittingReceiver.utf8ByteSize = 4095 := utf8ByteSize_replicate 4095
  refine ⟨h1, rfl, ?_, h2, ?_⟩
  · rw [ValidateReceiverAddress_of_parsed receiverIsData (packetOf longReceiver)
      ⟨"nhash", "1", "sender", longReceiver, ""⟩ rfl]
    simp only [h1]
    rfl
  · rw [ValidateReceiverAddress_of_parsed receiverIsData (packetOf fittingReceiver)
      ⟨"nhash", "1", "sender", fittingReceiver, ""⟩ rfl]
    simp only [h2]
    rfl

/-- C30: `IBCMiddleware.OnTimeoutPacket` calls the `OnTimeoutPacket` of the wrapped app exactly
once, as its last call, and returns its result, whether `RevertSentPacket` failed or not: after
a failed revert a bad-revert event of type "timeout" carrying the packet data is emitted before
the call, after a successful one nothing is; and `RevertSentPacket` returns nil without a call
to the contract when no contract address is configured. -/
theorem OnTimeoutPacket_always_handles_timeout (im : IBCMiddleware) (ctx : Context)
    (packet : Packet) (relayer : String) :
    (∃ before, (OnTimeoutPacket im ctx packet relayer).2.calls =
        ctx.calls ++ before ++ [Call.appOnTimeoutPacket packet relayer] ∧
      (∀ c ∈ before, c.isAppTimeout = false) ∧
      (OnTimeoutPacket im ctx packet relayer).1 =
        im.appOnTimeoutPacket ⟨ctx.calls ++ before⟩ packet relayer) ∧
    (∀ err, (RevertSentPacket im ctx packet).1 = some err →
      OnTimeoutPacket im ctx packet relayer =
        (im.appOnTimeoutPacket ⟨(RevertSentPacket im ctx packet).2.calls ++
            [Call.EmitEvent ⟨"timeout", packet.Data⟩]⟩ packet relayer,
          ⟨(RevertSentPacket im ctx packet).2.calls ++
            [Call.EmitEvent ⟨"timeout", packet.Data⟩,
              Call.appOnTimeoutPacket packet relayer]⟩)) ∧
    ((RevertSentPacket im ctx packet).1 = none →
      OnTimeoutPacket im ctx packet relayer =
        (im.appOnTimeoutPacket (RevertSentPacket im ctx packet).2 packet relayer,
          ⟨(RevertSentPacket im ctx packet).2.calls ++
            [Call.appOnTimeoutPacket packet relayer]⟩)) ∧
    (im.GetContractAddress ctx = "" → RevertSentPacket im ctx packet = (none, ctx)) := by
  have hrev : (RevertSentPacket im ctx packet).2 = ctx ∨
      (RevertSentPacket im ctx packet).2 =
        ⟨ctx.calls ++ [Call.UndoSendRateLimit (im.GetContractAddress ctx) packet]⟩ := by
    unfold RevertSentPacket
    by_cases h : im.GetContractAddress ctx = ""
    · left; simp only [h, if_true]
    · right; simp only [h, if_false]; rfl
  have hfail : ∀ err, (RevertSentPacket im ctx packet).1 = some err →
      OnTimeoutPacket im ctx packet relayer =
        (im.appOnTimeoutPacket ⟨(RevertSentPacket im ctx packet).2.calls ++
            [Call.EmitEvent ⟨"timeout", packet.Data⟩]⟩ packet relayer,
          ⟨(RevertSentPacket im ctx packet).2.calls ++
            [Call.EmitEvent ⟨"timeout", packet.Data⟩,
              Call.appOnTimeoutPacket packet relayer]⟩) := by
    intro err h
    unfold OnTimeoutPacket
    simp only [h, Context.record, List.append_assoc, List.singleton_append]
  have hok : (RevertSentPacket im ctx packet).1 = none →
      OnTimeoutPacket im ctx packet relayer =
        (im.appOnTimeoutPacket (RevertSentPacket im ctx packet).2 packet relayer,
          ⟨(RevertSentPacket im ctx packet).2.calls ++
            [Call.appOnTimeoutPacket packet relayer]⟩) := by
    intro h
    unfold OnTimeoutPacket
    simp only [h, Context.record]
  refine ⟨?_, hfail, hok, ?_⟩
  · cases h : (RevertSentPacket im ctx packet).1 with
    | none =>
      rw [hok h]
      rcases hrev with hr | hr
      · exact ⟨[], by rw [hr]; simp, by simp, by rw [hr]; simp⟩
      · refine ⟨[Call.UndoSendRateLimit (im.GetContractAddress ctx) packet], by rw [hr],
          ?_, by rw [hr]⟩
        intro c hc
        simp only [List.mem_singleton] at hc
        rw [hc]; rfl
    | some err =>
      rw [hfail err h]
      rcases hrev with hr | hr
      · refine ⟨[Call.EmitEvent ⟨"timeout", packet.Data⟩], by rw [hr]; simp, ?_, by rw [hr]⟩
        intro c hc
        simp only [List.mem_singleton] at hc
        rw [hc]; rfl
      · refine ⟨[Call.UndoSendRateLimit (im.GetContractAddress ctx) packet,
          Call.EmitEvent ⟨"timeout", packet.Data⟩], by rw [hr]; simp, ?_, by rw [hr]; simp⟩
        intro c hc
        simp only [List.mem_cons, List.mem_singleton, List.not_mem_nil, or_false] at hc
        rcases hc with hc | hc <;> rw [hc] <;> rfl
  · intro h
    unfold RevertSentPacket
    simp only [h, if_true]

/-- C30, witness: with a contract whose revert fails, the timeout of a packet makes the revert,
emits the bad-revert event and calls the wrapped app, whose result is returned; without a
contract the revert returns nil and makes no call. -/
theorem OnTimeoutPacket_always_handles_timeout_witness :
    OnTimeoutPacket (refusingMiddleware "contract1") emptyContext (packetOf "data") "relayer" =
      (none,
        ⟨[Call.UndoSendRateLimit "contract1" (packetOf "data"),
          Call.EmitEvent ⟨"timeout", "data"⟩,
          Call.appOnTimeoutPacket (packetOf "data") "relayer"]⟩) ∧
    RevertSentPacket (refusingMiddleware "") emptyContext (packetOf "data") =
      (none, emptyContext) :=
  have h1 := OnTimeoutPacket_always_handles_timeout (refusingMiddleware "contract1")
    emptyContext (packetOf "data") "relayer"
  have h2 := OnTimeoutPacket_always_handles_timeout (refusingMiddleware "") emptyContext
    (packetOf "data") "relayer"
  ⟨h1.2.1 (.reported "contract error") rfl, h2.2.2.2 rfl⟩

end IBCRateLimit

namespace Sanction

/-! ## The bypass flag -/

/-- C25: for every context, whatever its values: a context returned by `WithBypass` has the
bypass and one returned by `WithoutBypass` does not, so that the last applied of the two wins;
applying either twice gives the same context as applying it once; the values under other keys
are as in the provided context; and a new context has no bypass. -/
theorem bypass_last_applied_wins (bypassKey : String) (ctx : Context) :
    HasBypass bypassKey (WithBypass bypassKey ctx) = true ∧
    HasBypass bypassKey (WithoutBypass bypassKey ctx) = false ∧
    HasBypass bypassKey (WithBypass bypassKey (WithoutBypass bypassKey ctx)) = true ∧
    HasBypass bypassKey (WithoutBypass bypassKey (WithBypass bypassKey ctx)) = false ∧
    WithBypass bypassKey (WithBypass bypassKey ctx) = WithBypass bypassKey ctx ∧
    WithoutBypass bypassKey (WithoutBypass bypassKey ctx) = WithoutBypass bypassKey ctx ∧
    (∀ key, key ≠ bypassKey → (WithBypass bypassKey ctx).Value key = ctx.Value key ∧
      (WithoutBypass bypassKey ctx).Value key = ctx.Value key) ∧
    HasBypass bypassKey NewContext = false := by
  refine ⟨?_, ?_, ?_, ?_, ?_, ?_, ?_, rfl⟩
  · simp [HasBypass, WithBypass, Context.WithValue]
  · simp [HasBypass, WithoutBypass, Context.WithValue]
  · simp [HasBypass, WithBypass, Context.WithValue]
  · simp [HasBypass, WithoutBypass, Context.WithValue]
  · simp only [WithBypass, Context.WithValue, Context.mk.injEq]
    funext k
    by_cases h : k = bypassKey <;> simp [h]
  · simp only [WithoutBypass, Context.WithValue, Context.mk.injEq]
    funext k
    by_cases h : k = bypassKey <;> simp [h]
  · intro key h
    simp [WithBypass, WithoutBypass, Context.WithValue, h]

/-- C25, witness: the cases of the tests, on a new context and the bypass key "bypass". -/
theorem bypass_last_applied_wins_witness :
    HasBypass "bypass" NewContext = false ∧
    HasBypass "bypass" (WithBypass "bypass" NewContext) = true ∧
    HasBypass "bypass" (WithBypass "bypass" (WithoutBypass "bypass" NewContext)) = true ∧
    HasBypass "bypass" (WithBypass "bypass" (WithBypass "bypass" NewContext)) = true ∧
    HasBypass "bypass" (WithoutBypass "bypass" NewContext) = false ∧
    HasBypass "bypass" (WithoutBypass "bypass" (WithBypass "bypass" NewContext)) = false ∧
    HasBypass "bypass" (WithoutBypass "bypass" (WithoutBypass "bypass" NewContext)) = false ∧
    (WithBypass "bypass" NewContext).Value "other" = NewContext.Value "other" :=
  have h := bypass_last_applied_wins "bypass" NewContext
  ⟨h.2.2.2.2.2.2.2, h.1, h.2.2.1,
    (bypass_last_applied_wins "bypass" (WithBypass "bypass" NewContext)).1, h.2.1, h.2.2.2.1,
    (bypass_last_applied_wins "bypass" (WithoutBypass "bypass" NewContext)).2.1,
    (h.2.2.2.2.2.2.1 "other" (by decide)).1⟩

end Sanction
